import Mathlib

/-!
# hlfc — Hungarian letter frequency counter

A shallow embedding of `hlfc.c` and the properties of its frequency tables, index sort and
bar-chart renderer.

Conventions of the embedding.

* A byte (`unsigned char`, a successful `fgetc`) is a `Fin 256`; an `int` is an `Int`.
* `unsigned long long` counters are natural numbers reduced modulo `2 ^ 64` at every increment.
* The `<ctype.h>` functions belong to the C library and depend on the locale selected by
  `setlocale`; they are a parameter `CType` of every function that calls them.
* A `double` is a rational number and the arithmetic on it is exact: rounding of the
  floating-point operations, infinities and NaN are outside the model.
* A book is `Option (List Byte)`: `none` when `fopen` fails, otherwise the bytes `fgetc` delivers.
-/

namespace Hlfc

/-! ## Data model -/

/-- A byte value, the range of `unsigned char`. -/
abbrev Byte := Fin 256

/-- Modulus of `unsigned long long` arithmetic. -/
def ULL : Nat := 2 ^ 64

/-- Conversion `(unsigned char)x` of an `int`. -/
def toUChar (x : Int) : Byte := ⟨(x % 256).toNat, by omega⟩

/-- Conversion of an `unsigned long` to `int`: the low 32 bits, read in two's complement. -/
def toInt32 (n : Nat) : Int :=
  if n % 2 ^ 32 < 2 ^ 31 then ((n % 2 ^ 32 : Nat) : Int) else ((n % 2 ^ 32 : Nat) : Int) - 2 ^ 32

/-- The `<ctype.h>` functions used by the program, as the C library provides them under the
locale in force. -/
structure CType where
  isalpha : Int → Bool
  isspace : Int → Bool
  isdigit : Int → Bool
  ispunct : Int → Bool
  toupper : Int → Int

/-- The `"C"` locale: the classification every hosted implementation starts with, and the one
that stays in force when `setlocale` fails. -/
def cLocale : CType where
  isalpha c := (65 ≤ c && c ≤ 90) || (97 ≤ c && c ≤ 122)
  isspace c := c == 32 || (9 ≤ c && c ≤ 13)
  isdigit c := 48 ≤ c && c ≤ 57
  ispunct c := (33 ≤ c && c ≤ 47) || (58 ≤ c && c ≤ 64) || (91 ≤ c && c ≤ 96) ||
    (123 ≤ c && c ≤ 126)
  toupper c := if 97 ≤ c ∧ c ≤ 122 then c - 32 else c

/-- `struct typingTimeforBook`. -/
structure typingTimeforBook where
  typingSecondForBook : ℚ
  sortIdx : Int

/-- `struct letterFrequency`. -/
@[ext]
structure letterFrequency where
  c : Byte → Nat
  sortIdx : Byte → Byte
  totalAlphabets : Nat
  totalHungarian : Nat
  punctuation : Nat
  digit : Nat
  totalLetters : Nat
  typingMethod : Fin 3 → typingTimeforBook

/-! ## Character classification (lines 157-211) -/

/-- `hungarianLowerLetters[]`: the nine bytes of `HUNGARIAN_LOWERLETTERS` and the terminating
NUL of the string literal, which `sizeof` counts. -/
def hungarianLowerLetters : List Int := [0xe1, 0xe9, 0xed, 0xf3, 0xf5, 0xf6, 0xfa, 0xfb, 0xfc, 0]

/-- `hungarianUpperLetters[]`, with its terminating NUL. -/
def hungarianUpperLetters : List Int := [0xc1, 0xc9, 0xcd, 0xd3, 0xd5, 0xd6, 0xda, 0xdb, 0xdc, 0]

/-- `hungarianPunctuation[]`, with its terminating NUL. -/
def hungarianPunctuation : List Int :=
  [0x96, 0x93, 0x92, 0x91, 0x85, 0x84, 0x82, 0xab, 0xb0, 0xbb, 0xd7, 0xe4, 0xe7, 0xf4, 0]

/-- `isHungarian`: both loops run over all `sizeof` entries of their array. -/
def isHungarian (c : Int) : Bool :=
  hungarianLowerLetters.any (fun x => c == x) || hungarianUpperLetters.any (fun x => c == x)

/-- `toupper1250`: the upper-case entry at the index of the first match, else `toupper`. -/
def toupper1250 (L : CType) (c : Int) : Int :=
  match (hungarianLowerLetters.zip hungarianUpperLetters).find? (fun p => c == p.1) with
  | some p => p.2
  | none => L.toupper c

/-- `isalpha1250`. -/
def isalpha1250 (L : CType) (c : Int) : Bool :=
  if isHungarian c then true else L.isalpha c

/-- `ispunct1250`. -/
def ispunct1250 (L : CType) (c : Int) : Bool :=
  if hungarianPunctuation.any (fun x => c == x) then true else L.ispunct c

/-! ## Frequency accumulation (lines 280-291, 418-463) -/

/-- The table `step02_initializeLf` leaves in the grand total and in every book: all counters
zero (`memset`), `sortIdx` the identity. -/
def lfInit : letterFrequency where
  c := fun _ => 0
  sortIdx := fun i => i
  totalAlphabets := 0
  totalHungarian := 0
  punctuation := 0
  digit := 0
  totalLetters := 0
  typingMethod := fun _ => ⟨0, 0⟩

/-- `step02_initializeLf`: the grand total and the `books` per-book tables. -/
def step02_initializeLf (books : Nat) : letterFrequency × List letterFrequency :=
  (lfInit, List.replicate books lfInit)

/-- The writes of one loop iteration of `step10_calcBookFrequency` to one table. -/
def tally (L : CType) (lf : letterFrequency) (c : Byte) : letterFrequency :=
  let k := toUChar (toupper1250 L (c.val : Int))
  { lf with
    c := Function.update lf.c k ((lf.c k + 1) % ULL)
    punctuation := (lf.punctuation + (if ispunct1250 L (c.val : Int) then 1 else 0)) % ULL
    digit := (lf.digit + (if L.isdigit (c.val : Int) then 1 else 0)) % ULL
    totalHungarian :=
      if isHungarian (c.val : Int) then (lf.totalHungarian + 1) % ULL else lf.totalHungarian
    totalAlphabets :=
      if L.isalpha (c.val : Int) then (lf.totalAlphabets + 1) % ULL else lf.totalAlphabets
    totalLetters :=
      if !L.isspace (c.val : Int) then (lf.totalLetters + 1) % ULL else lf.totalLetters }

/-- One iteration of the loop of `step10_calcBookFrequency` on the byte `c`: every write to the
book's table `st.1` is repeated on `grandTotal.lf`, here `st.2`. -/
def step10_body (L : CType) (st : letterFrequency × letterFrequency) (c : Byte) :
    letterFrequency × letterFrequency :=
  (tally L st.1 c, tally L st.2 c)

/-- `step10_calcBookFrequency` on the pair (book table, grand total): unchanged with result `0`
when the book cannot be opened, otherwise the loop over its bytes and the character count `cc`
converted to `int`. -/
def step10_calcBookFrequency (L : CType) (book : Option (List Byte))
    (st : letterFrequency × letterFrequency) : (letterFrequency × letterFrequency) × Int :=
  match book with
  | none => (st, 0)
  | some bytes => (bytes.foldl (step10_body L) st, toInt32 bytes.length)

/-- The calls of `step10_calcBookFrequency` made by the loop of `main` (lines 680-685): book `i`
is accumulated into its own table, as `step02_initializeLf` left it, and into the grand total.
The result lists the per-book tables in order, next to the grand total. -/
def step10_books (L : CType) (books : List (Option (List Byte)))
    (gt : letterFrequency) : List letterFrequency × letterFrequency :=
  books.foldl
    (fun acc book =>
      let r := (step10_calcBookFrequency L book (lfInit, acc.2)).1
      (acc.1 ++ [r.1], r.2))
    ([], gt)

/-- Number of whitespace bytes of a stream, as `isspace` sees them. -/
def whitespaceCount (L : CType) (bytes : List Byte) : Nat :=
  bytes.countP (fun (b : Byte) => L.isspace (b.val : Int))

/-- The bytes of the books that could be opened, in order. -/
def booksBytes (books : List (Option (List Byte))) : List (List Byte) :=
  books.filterMap id

/-- The per-book tables of the books that could be opened. -/
def booksRead (books : List (Option (List Byte))) (tables : List letterFrequency) :
    List letterFrequency :=
  ((books.zip tables).filter (fun p => p.1.isSome)).map Prod.snd

/-- The slot of `c[]` that a byte is counted in: `(unsigned char)toupper1250((unsigned char)c)`. -/
def slot (L : CType) (c : Byte) : Byte := toUChar (toupper1250 L (c.val : Int))

/-- A field of the table that `tally` advances by one, modulo `2 ^ 64`, on the bytes
satisfying `p`. -/
def IsCounter (L : CType) (f : letterFrequency → Nat) (p : Byte → Bool) : Prop :=
  ∀ (lf : letterFrequency) (bytes : List Byte), f lf < ULL →
    f (bytes.foldl (tally L) lf) = (f lf + bytes.countP p) % ULL

/-! ## Index sort of the frequency table (lines 343-353) -/

/-- The exchange of `sortIdx[i]` and `sortIdx[j]` through `tmp`. -/
def swapIdx (s : Byte → Byte) (i j : Byte) : Byte → Byte :=
  Function.update (Function.update s i (s j)) j (s i)

/-- Body of the inner loop of `sortLf` at the indices `i` and `j`. -/
def sortLf_step (c : Byte → Nat) (i : Byte) (s : Byte → Byte) (j : Byte) : Byte → Byte :=
  if c (s i) < c (s j) then swapIdx s i j else s

/-- The values of `j` in the inner loop of `sortLf`, in order: `i + 1, ..., 255`. -/
def innerIndices (i : Byte) : List Byte := (List.finRange 256).filter (fun j => i < j)

/-- The values of `i` in the outer loop of `sortLf`, in order: `0, ..., 254`. -/
def outerIndices : List Byte := (List.finRange 256).filter (fun i => i.val < 255)

/-- Inner loop of `sortLf` for one value of `i`. -/
def sortLf_inner (c : Byte → Nat) (s : Byte → Byte) (i : Byte) : Byte → Byte :=
  (innerIndices i).foldl (sortLf_step c i) s

/-- `sortLf`: only `sortIdx` is written. -/
def sortLf (lf : letterFrequency) : letterFrequency :=
  { lf with sortIdx := outerIndices.foldl (sortLf_inner lf.c) lf.sortIdx }

/-- Position `k` of `s` holds a count that no later position exceeds. -/
def Above (c : Byte → Nat) (s : Byte → Byte) (k : Byte) : Prop :=
  ∀ m : Byte, k < m → c (s m) ≤ c (s k)

/-- The counts are in descending order along `s`. -/
def Descending (c : Byte → Nat) (s : Byte → Byte) : Prop :=
  ∀ p q : Byte, p < q → c (s q) ≤ c (s p)

/-- Ties at the highest count are in ascending byte order along `s`: of two positions that
both hold a byte whose count no byte exceeds, the earlier one holds the smaller byte. -/
def TopTiesAscending (c : Byte → Nat) (s : Byte → Byte) : Prop :=
  ∀ p q : Byte, (∀ x : Byte, c x ≤ c (s p)) → c (s q) = c (s p) → p < q → s p < s q

/-- The table of the book `abcc`: one `A`, one `B`, two `C`, as `step02_initializeLf` and
`step10_calcBookFrequency` leave it. -/
def tableABCC : letterFrequency :=
  { lfInit with
    c := fun b => if b = 65 then 1 else if b = 66 then 1 else if b = 67 then 2 else 0
    totalAlphabets := 4
    totalLetters := 4 }

/-- The table of the book `aabbc`: two `A`, two `B`, one `C`, as `step02_initializeLf` and
`step10_calcBookFrequency` leave it. -/
def tableAABBC : letterFrequency :=
  { lfInit with
    c := fun b => if b = 65 then 2 else if b = 66 then 2 else if b = 67 then 1 else 0
    totalAlphabets := 5
    totalLetters := 5 }

/-! ## Bar chart (lines 335-413) -/

/-- `BARCHART_LEN_PERCENT_NULL`: `strlen("00.0% ") + 1`. -/
def BARCHART_LEN_PERCENT_NULL : Int := 7

/-- `BARCHART_BARLEN`. -/
def BARCHART_BARLEN : Int := 13

/-- `BARCAHRT_SATURATION`. -/
def BARCAHRT_SATURATION : ℚ := 12

/-- `barChart_xStr`: 150 characters `x`. -/
def barChart_xStr : List Char := List.replicate 150 'x'

/-- `barChart_xSpc`: 150 blanks. -/
def barChart_xSpc : List Char := List.replicate 150 ' '

/-- Conversion `(int)x` of a `double`: truncation toward zero. -/
def truncToInt (x : ℚ) : Int := if 0 ≤ x then ⌊x⌋ else ⌈x⌉

/-- Rounding to the nearest integer, ties to the even one: the rounding `printf` applies to the
exact value of its argument. -/
def roundHalfEven (x : ℚ) : Int :=
  if x - ⌊x⌋ < 1 / 2 then ⌊x⌋
  else if 1 / 2 < x - ⌊x⌋ then ⌊x⌋ + 1
  else if ⌊x⌋ % 2 = 0 then ⌊x⌋ else ⌊x⌋ + 1

/-- The decimal digits of a natural number, most significant first. -/
def decimal (n : Nat) : List Char :=
  if n = 0 then ['0'] else (Nat.digits 10 n).reverse.map Nat.digitChar

/-- The `printf` conversion `%4.1lf`: sign, integer part, point and one digit of the value
rounded to tenths, padded with blanks on the left to four characters. -/
def printf_4_1lf (x : ℚ) : List Char :=
  let t := (roundHalfEven (|x| * 10)).toNat
  let body := (if x < 0 then ['-'] else []) ++ decimal (t / 10) ++ ['.', Nat.digitChar (t % 10)]
  List.replicate (4 - body.length) ' ' ++ body

/-- The `printf` conversion `%.*s`: at most `p` characters of the string, all of it when the
precision `p` is negative. -/
def printf_prec_s (p : Int) (str : List Char) : List Char :=
  if p < 0 then str else str.take p.toNat

/-- `snprintf(pStr, size, ...)`: of the formatted output, the first `size - 1` characters are
stored. -/
def snprintf (size : Int) (out : List Char) : List Char :=
  out.take (size.toNat - 1)

/-- The values of `numOfSmallx` and `lastStr` that `barChart` passes to `snprintf`, with the
operations on `double` values carried out exactly; `barChart_cells64` rounds them as binary64
does. -/
def barChart_cells (maxLen : Int) (saturat value : ℚ) : Int × List Char :=
  let numOfSmallx := truncToInt (value / saturat * maxLen)
  let lastx_value := value - (numOfSmallx : ℚ) / maxLen * saturat
  if saturat + saturat / maxLen / 3 < value then (maxLen - 1, ['*'])
  else if lastx_value ≤ saturat / maxLen / 3 then (numOfSmallx, [])
  else if saturat / maxLen / 3 < lastx_value ∧ lastx_value < saturat / maxLen * 2 / 3 then
    (numOfSmallx, ['.'])
  else (numOfSmallx, [':'])

/-- The three conversions `%.*s%s%.*s` that end both formats of `barChart`: the filled cells,
the glyph and the padding. -/
def barChart_bar (maxLen : Int) (cells : Int × List Char) : List Char :=
  printf_prec_s cells.1 barChart_xStr ++ cells.2 ++
    printf_prec_s (maxLen - cells.1 - cells.2.length) barChart_xSpc

/-- `barChart`: the string stored in `pStr`, with the cells and the glyph of
`barChart_cells`. -/
def barChart (maxLen : Int) (saturat value : ℚ) : String :=
  if value = 0 then
    String.mk (snprintf (maxLen + BARCHART_LEN_PERCENT_NULL)
      ("       ".data ++ barChart_bar maxLen (barChart_cells maxLen saturat value)))
  else
    String.mk (snprintf (maxLen + BARCHART_LEN_PERCENT_NULL)
      (printf_4_1lf value ++ ['%', ' '] ++ barChart_bar maxLen (barChart_cells maxLen saturat value)))

/-- `TYPINGSPEED_REGULARPOS`, `(60./(50.*0.95*5))` seconds per letter. -/
def TYPINGSPEED_REGULARPOS : ℚ := 60 / (50 * (95 / 100) * 5)

/-- `TYPINGSPEED_UNREGULARPOS`, `(60./(27.*0.85*5.))` seconds per letter. -/
def TYPINGSPEED_UNREGULARPOS : ℚ := 60 / (27 * (85 / 100) * 5)

/-- `TYPINGSPEED_MOUSE`, seconds per letter. -/
def TYPINGSPEED_MOUSE : ℚ := 2

/-- `LETTERS_PER_WORD`. -/
def LETTERS_PER_WORD : ℚ := 5

/-- `BUSINESS_TYPINGHOURS`. -/
def BUSINESS_TYPINGHOURS : ℚ := 4

/-- `BUSINESS_DAYS_IN_YEAR`. -/
def BUSINESS_DAYS_IN_YEAR : ℚ := 254

/-- `KEYBOARD_LETTERS_JP`: ten digits, 26 letters and 32 punctuation characters. -/
def KEYBOARD_LETTERS_JP : String :=
  "1234567890abcdefghijklmnopqrstuvwxyz!\x22#$%&\x27()=~|\x60\x7b+*\x7d<>?_-^\x5c@[;:],./"

/-- `KEYBOARD_REGLARPOS_JP`. -/
def KEYBOARD_REGLARPOS_JP : String := "123456789abcdefghijklmnopqrstuvwx,.\x22%()"

/-- A `char letter[256]` initialised from a string literal: the characters of the literal,
then NUL in the remaining entries. -/
def letterArray (s : String) : List Int :=
  s.data.map (fun ch => (ch.toNat : Int)) ++ List.replicate (256 - s.data.length) 0

/-- The member `regularPosition` of `struct typingMethod`. -/
structure RegularPosition where
  letter : List Int
  typeSpeed : ℚ

/-- The member `unregularPosition` of `struct typingMethod`. -/
structure UnregularPosition where
  typeSpeed : ℚ

/-- `struct typingMethod`. -/
structure TypingMethod where
  shortName10 : String
  name : String
  regularPosition : RegularPosition
  unregularPosition : UnregularPosition

/-- The array `typingMethod[NUM_OF_TYPINGMETHOD]`. -/
def typingMethod : Fin 3 → TypingMethod :=
  ![{ shortName10 := "Method[a]", name := "Hungarian keyboard",
      regularPosition := ⟨letterArray KEYBOARD_REGLARPOS_JP, TYPINGSPEED_REGULARPOS⟩,
      unregularPosition := ⟨TYPINGSPEED_UNREGULARPOS⟩ },
    { shortName10 := "Method[b]", name := "Use mouse",
      regularPosition := ⟨letterArray KEYBOARD_LETTERS_JP, TYPINGSPEED_REGULARPOS⟩,
      unregularPosition := ⟨TYPINGSPEED_MOUSE⟩ },
    { shortName10 := "Method[c]", name := "Use shortcut key",
      regularPosition := ⟨letterArray KEYBOARD_LETTERS_JP, TYPINGSPEED_REGULARPOS⟩,
      unregularPosition := ⟨TYPINGSPEED_REGULARPOS * 2⟩ }]

/-- Conversion of an `int` to `char`, which is signed on the program's platform. -/
def toChar (x : Int) : Int := (x + 128) % 256 - 128

/-- The test of `getLetterSpeed` on the `char` value `c`: some entry of the method's
`letter[256]`, upper-cased by `toupper1250`, equals `toupper(c)`. -/
def regularMember (L : CType) (method : Fin 3) (c : Int) : Prop :=
  ∃ x ∈ (typingMethod method).regularPosition.letter, L.toupper c = toupper1250 L x

instance (L : CType) (method : Fin 3) (c : Int) : Decidable (regularMember L method c) := by
  unfold regularMember
  exact inferInstance

/-- `getLetterSpeed`, on the value of its `char` parameter. -/
def getLetterSpeed (L : CType) (c : Int) (method : Fin 3) : ℚ :=
  if (typingMethod method).regularPosition.letter.any (fun x => L.toupper c == toupper1250 L x)
  then (typingMethod method).regularPosition.typeSpeed
  else (typingMethod method).unregularPosition.typeSpeed

/-- `step20_calcTypingSpeed`: for every method the loop over the 256 slots that adds
`getLetterSpeed(i, method) * c[i]`, stored in `typingMethod[method].typingSecondForBook`. -/
def step20_calcTypingSpeed (L : CType) (lf : letterFrequency) : letterFrequency :=
  { lf with
    typingMethod := fun method =>
      { lf.typingMethod method with
        typingSecondForBook :=
          (List.finRange 256).foldl
            (fun acc i => acc + getLetterSpeed L (toChar (i.val : Int)) method * (lf.c i : ℚ)) 0 } }

/-- The table of a book that consists of one blank: the blank is counted in `c[32]` and, being
whitespace, in no other counter. -/
def tableBlank : letterFrequency :=
  { lfInit with c := fun b => if b = 32 then 1 else 0 }

/-! ## Business hours (lines 494-541) -/

/-- Division of two `double` values. With a divisor that is not zero it is the exact quotient.
With a zero divisor C yields an infinity or NaN; the model has no such values and gives `none`,
which also stands for every value computed from one and for an array entry that was never
written. -/
def fdiv (a b : ℚ) : Option ℚ := if b = 0 then none else some (a / b)

/-- Difference of two `double` values, either of which can be indeterminate. -/
def fsub (a b : Option ℚ) : Option ℚ :=
  a.bind (fun x => b.map (fun y => x - y))

/-- The yearly typing budget in seconds,
`BUSINESS_DAYS_IN_YEAR * BUSINESS_TYPINGHOURS * 60 * 60`. -/
def yearlyBudget : ℚ := BUSINESS_DAYS_IN_YEAR * BUSINESS_TYPINGHOURS * 60 * 60

/-- The exchange of `typingMethod[i].sortIdx` and `typingMethod[j].sortIdx` through `tmp`. -/
def step21_swap (tm : Fin 3 → typingTimeforBook) (i j : Fin 3) : Fin 3 → typingTimeforBook :=
  Function.update (Function.update tm i { tm i with sortIdx := (tm j).sortIdx }) j
    { tm j with sortIdx := (tm i).sortIdx }

/-- The loops "initialize sort index" and "index sort" of `step21_calcBusinessHours`: `sortIdx`
is set to the identity, then for `(i, j) = (0, 1), (0, 2), (1, 2)` the two `sortIdx` are
exchanged when `typingMethod[i].typingSecondForBook < typingMethod[j].typingSecondForBook`. -/
def step21_indexSort (tm : Fin 3 → typingTimeforBook) : Fin 3 → typingTimeforBook :=
  [((0 : Fin 3), (1 : Fin 3)), (0, 2), (1, 2)].foldl
    (fun tm p =>
      if (tm p.1).typingSecondForBook < (tm p.2).typingSecondForBook then step21_swap tm p.1 p.2
      else tm)
    (fun i => { tm i with sortIdx := (i.val : Int) })

/-- The loop "get slower order": `slowerIdx[typingMethod[i].sortIdx] = i` for `i = 0, 1, 2`.
The array is not initialised; an entry that the loop does not write is shown as 0. -/
def step21_slowerIdx (tm : Fin 3 → typingTimeforBook) : Int → Fin 3 :=
  (List.finRange 3).foldl (fun a i => Function.update a (tm i).sortIdx i) (fun _ => 0)

/-- A line `%s reduces %5.1lf hours (%5.1lf business days %dh typing) than %s`: the method
named first, the seconds whose hours and business days are printed, the method named last. -/
structure BusinessLine where
  method : Fin 3
  seconds : Option ℚ
  than : Fin 3

/-- What `step21_calcBusinessHours` prints: the method named slowest with `lettersPerYear0`,
the lines of the loop `i = 1, 2`, and the last line. -/
structure BusinessReport where
  slowest : Fin 3
  lettersPerYear0 : Option ℚ
  reduces : List BusinessLine
  last : BusinessLine

/-- `lettersPerYear0`: the budget divided by `typingSecondForBook / totalLetters` of the method
`slowerIdx[0]`. -/
def step21_lettersPerYear0 (lf : letterFrequency) (slowerIdx : Int → Fin 3) : Option ℚ :=
  (fdiv (lf.typingMethod (slowerIdx 0)).typingSecondForBook (lf.totalLetters : ℚ)).bind
    (fun q => fdiv yearlyBudget q)

/-- `reduceSeconds[slowerIdx[i]]` as the loop body computes it:
`budget - lettersPerYear0 * typingSecondForBook / totalLetters`. -/
def step21_reduce (lf : letterFrequency) (slowerIdx : Int → Fin 3) (i : Int) : Option ℚ :=
  ((step21_lettersPerYear0 lf slowerIdx).bind
    (fun l => fdiv (l * (lf.typingMethod (slowerIdx i)).typingSecondForBook)
      (lf.totalLetters : ℚ))).map
    (fun needSeconds => yearlyBudget - needSeconds)

/-- The array `reduceSeconds` after the loop `i = 1, 2`; it is not initialised. -/
def step21_reduceSeconds (lf : letterFrequency) (slowerIdx : Int → Fin 3) : Int → Option ℚ :=
  [(1 : Int), 2].foldl
    (fun r i => Function.update r ((slowerIdx i).val : Int) (step21_reduce lf slowerIdx i))
    (fun _ => none)

/-- `step21_calcBusinessHours`: the table with the `sortIdx` it writes, and the report. -/
def step21_calcBusinessHours (lf : letterFrequency) : letterFrequency × BusinessReport :=
  let lf1 : letterFrequency := { lf with typingMethod := step21_indexSort lf.typingMethod }
  let slowerIdx := step21_slowerIdx lf1.typingMethod
  let reduceSeconds := step21_reduceSeconds lf1 slowerIdx
  (lf1,
    { slowest := slowerIdx 0
      lettersPerYear0 := step21_lettersPerYear0 lf1 slowerIdx
      reduces := [(1 : Int), 2].map
        (fun i => ⟨slowerIdx i, step21_reduce lf1 slowerIdx i, slowerIdx 0⟩)
      last := ⟨slowerIdx 2,
        fsub (reduceSeconds ((slowerIdx 2).val : Int)) (reduceSeconds (lf1.typingMethod 1).sortIdx),
        slowerIdx 1⟩ })

/-- A table with the given `typingSecondForBook` of the three methods and the given
`totalLetters`. -/
def tableSeconds (t0 t1 t2 : ℚ) (n : Nat) : letterFrequency :=
  { lfInit with totalLetters := n, typingMethod := ![⟨t0, 0⟩, ⟨t1, 0⟩, ⟨t2, 0⟩] }

/-- `slowerIdx[i]` in `step21_calcBusinessHours`: the method that the function ranks at
position `i`, position 0 being named the slowest. -/
def rankedMethod (lf : letterFrequency) (i : Int) : Fin 3 :=
  step21_slowerIdx (step21_indexSort lf.typingMethod) i

/-- `typingMethod[m].typingSecondForBook` of a table. -/
def seconds (lf : letterFrequency) (m : Fin 3) : ℚ := (lf.typingMethod m).typingSecondForBook

/-! ## Book list (lines 137-155, 252-326) -/

/-- `COMMENTSYMBOL`, the character `#`. -/
def COMMENTSYMBOL : Byte := 35

/-- The contents of `linebuf` after each successful call of `fgets(linebuf, size, spIn)` in
the loop `for (...; fgets(...); ...)`, in order. A call stores characters up to and including
a newline, and at most `size - 1` of them; it fails at the end of the stream when it has
stored none. `acc` holds the characters that the call in progress has stored. -/
def fgetsAll (size : Nat) : List Byte → List Byte → List (List Byte)
  | [], acc => if acc = [] then [] else [acc]
  | b :: bs, acc =>
    if b = 10 ∨ acc.length + 1 = size - 1 then (acc ++ [b]) :: fgetsAll size bs []
    else fgetsAll size bs (acc ++ [b])

/-- The C string that a buffer holds: its characters before the first NUL. -/
def cstr (buf : List Byte) : List Byte := buf.takeWhile (fun b => b ≠ 0)

/-- `isspace(*s)` for a `char` of the string: the byte is passed as a (signed) `char`. -/
def isspaceChar (L : CType) (b : Byte) : Bool := L.isspace (toChar (b.val : Int))

/-- `ltrim`: the string from its first character that is not whitespace. The loop of the C
function ends at the terminating NUL at the latest, `isspace('\0')` being false. -/
def ltrim (L : CType) (s : List Byte) : List Byte := s.dropWhile (isspaceChar L)

/-- `rtrim`: the string cut after its last character that is not whitespace. On a string
without such a character the C loop goes on reading below `s`; the string returned is then
the empty string at `s`, and what the loop read and wrote below `s` is outside the model. -/
def rtrim (L : CType) (s : List Byte) : List Byte := s.rdropWhile (isspaceChar L)

/-- `trim`. -/
def trim (L : CType) (s : List Byte) : List Byte := rtrim L (ltrim L s)

/-- The test `*trimLine != '\0' && *trimLine != COMMENTSYMBOL` on a trimmed line; the first
character of an empty string is its terminating NUL. -/
def isBookLine (trimLine : List Byte) : Bool :=
  trimLine.headD 0 != 0 && trimLine.headD 0 != COMMENTSYMBOL

/-- `step01_countBookList`: 0 when the book list cannot be opened, otherwise the number of
buffers of the `fgets` loop whose trimmed line passes the test. -/
def step01_countBookList (L : CType) (bookList : Option (List Byte)) : Nat :=
  match bookList with
  | none => 0
  | some bytes =>
    (fgetsAll 512 bytes []).foldl
      (fun books linebuf => if isBookLine (trim L (cstr linebuf)) then books + 1 else books) 0

/-- The titles that `step03_readBookList` stores in `pBf[0], pBf[1], ...`: the trimmed lines
that pass the test, in order; none when the book list cannot be opened. -/
def step03_titles (L : CType) (bookList : Option (List Byte)) : List (List Byte) :=
  match bookList with
  | none => []
  | some bytes =>
    (fgetsAll 512 bytes []).foldl
      (fun titles linebuf =>
        if isBookLine (trim L (cstr linebuf)) then titles ++ [trim L (cstr linebuf)] else titles)
      []

/-- `step03_readBookList` with a file name: the titles stored and the value returned, `books`
when as many titles were stored as `step01_countBookList` counted, else 0. -/
def step03_readBookList (L : CType) (bookList : Option (List Byte)) (books : Nat) :
    List (List Byte) × Nat :=
  (step03_titles L bookList, if (step03_titles L bookList).length = books then books else 0)

/-- The bytes `EF BB BF` of a UTF-8 byte-order mark. -/
def BOM_UTF8 : List Byte := [0xef, 0xbb, 0xbf]

/-- A book list whose only line is the comment `#c`. -/
def bookListComment : List Byte := [35, 99, 10]

/-! ## Chart of a table (lines 546-639) -/

/-- `BARCHART_HOW_MANY_IN_LINE`. -/
def BARCHART_HOW_MANY_IN_LINE : Nat := 3

/-- The test that the loops of step 1 and step 2 of `step11_printBookFrequency` make on the
byte `c = sortIdx[idx]`: its count is not zero, and it is no punctuation (`ispunct1250`), no
whitespace and no digit. -/
def step11_shown (L : CType) (lf : letterFrequency) (c : Byte) : Bool :=
  lf.c c != 0 && !ispunct1250 L (c.val : Int) && !L.isspace (c.val : Int) &&
    !L.isdigit (c.val : Int)

/-- Step 1: `printCount` after the loop over `idx = 0, ..., 255`. -/
def step11_printCount (L : CType) (lf : letterFrequency) : Nat :=
  (List.finRange 256).foldl
    (fun printCount idx =>
      if step11_shown L lf (lf.sortIdx idx) then printCount + 1 else printCount) 0

/-- Step 1: `lineCount`. -/
def step11_lineCount (L : CType) (lf : letterFrequency) : Nat :=
  (step11_printCount L lf + BARCHART_HOW_MANY_IN_LINE - 1) / BARCHART_HOW_MANY_IN_LINE

/-- Quotient of two non-negative `int`; none for a zero divisor. -/
def idiv (a b : Nat) : Option Nat := if b = 0 then none else some (a / b)

/-- Remainder of two non-negative `int`; none for a zero divisor. -/
def imod (a b : Nat) : Option Nat := if b = 0 then none else some (a % b)

/-- The body of the loop of step 2 for one `idx`, on `printCount` and the writes
`dispMatrix[row][col] = c` made so far, listed as `(row, col, c)`; none when a division by
`lineCount = 0` is evaluated. -/
def step11_place (L : CType) (lf : letterFrequency) (s : Nat × List (Nat × Nat × Byte))
    (idx : Byte) : Option (Nat × List (Nat × Nat × Byte)) :=
  if step11_shown L lf (lf.sortIdx idx) then
    (imod s.1 (step11_lineCount L lf)).bind (fun row =>
      (idiv s.1 (step11_lineCount L lf)).map (fun col =>
        (s.1 + 1, s.2 ++ [(row, col, lf.sortIdx idx)])))
  else some s

/-- Step 2: `printCount` and the writes to `dispMatrix` after the loop over
`idx = 0, ..., 255`. -/
def step11_step2 (L : CType) (lf : letterFrequency) : Option (Nat × List (Nat × Nat × Byte)) :=
  (List.finRange 256).foldl (fun st idx => st.bind (fun s => step11_place L lf s idx))
    (some (0, []))

/-- The entry `dispMatrix[row][col]` after the given writes to the matrix, which starts with
zero in every entry. -/
def step11_dispMatrix (writes : List (Nat × Nat × Byte)) (row col : Nat) : Byte :=
  writes.foldl (fun cur w => if w.1 = row ∧ w.2.1 = col then w.2.2 else cur) 0

/-- Section 1 of step 3: for `row = 0, ..., lineCount - 1` and `col = 0, 1, 2` the byte
`c = dispMatrix[row][col]` and the bar value `100. * c[c] / totalAlphabets` handed to
`barChart`. -/
def step11_cells (L : CType) (lf : letterFrequency) (writes : List (Nat × Nat × Byte)) :
    List (Byte × Option ℚ) :=
  (List.range (step11_lineCount L lf)).flatMap (fun row =>
    (List.range BARCHART_HOW_MANY_IN_LINE).map (fun col =>
      (step11_dispMatrix writes row col,
        fdiv (100 * (lf.c (step11_dispMatrix writes row col) : ℚ)) (lf.totalAlphabets : ℚ))))

/-- What `step11_printBookFrequency` prints for a table: the cells of the bar chart, none when
step 2 divides by zero, and the report of `step21_calcBusinessHours`. -/
structure Chart where
  cells : Option (List (Byte × Option ℚ))
  business : BusinessReport

/-- `step11_printBookFrequency`: `sortLf`, steps 1 to 3, then `step20_calcTypingSpeed` and
`step21_calcBusinessHours`. The result is the table as the function leaves it, and what it
prints. -/
def step11_printBookFrequency (L : CType) (lf : letterFrequency) : letterFrequency × Chart :=
  let lf1 := sortLf lf
  let r := step21_calcBusinessHours (step20_calcTypingSpeed L lf1)
  (r.1, ⟨(step11_step2 L lf1).map (fun s => step11_cells L lf1 s.2), r.2⟩)

/-- The bar values of a chart, `100. * c[c] / totalAlphabets` cell by cell. -/
def barValues (chart : Chart) : List (Option ℚ) :=
  match chart.cells with
  | none => []
  | some cells => cells.map Prod.snd

/-! ## The program (lines 659-694) -/

/-- The files and the memory that a run of the program finds: whether `OUTPUTFILE` can be
opened for writing, the contents of `BOOKLIST` and of the file of each title (none when it
cannot be opened), and whether `malloc` succeeds. -/
structure Files where
  output : Bool
  bookList : Option (List Byte)
  book : List Byte → Option (List Byte)
  memory : Bool

/-- A run of `main`: the exit status, the charts printed by the calls of
`step11_printBookFrequency` in order, and whether `step30_printConfiguration` was called. -/
structure Run where
  status : Int
  charts : List Chart
  configuration : Bool

/-- The loop of `main` over the books (lines 680-685): book `i` is accumulated into its table
and into the grand total, and charted when `step10_calcBookFrequency` returns non-zero. The
result is the list of charts and the grand total. -/
def main_books (L : CType) (fs : Files) (titles : List (List Byte)) (gt : letterFrequency) :
    List Chart × letterFrequency :=
  titles.foldl
    (fun acc title =>
      let r := step10_calcBookFrequency L (fs.book title) (lfInit, acc.2)
      (if r.2 ≠ 0 then acc.1 ++ [(step11_printBookFrequency L r.1.1).2] else acc.1, r.1.2))
    ([], gt)

/-- `main`. The book list is the same file for `step01_countBookList` and
`step03_readBookList`, so the loop runs over the titles that were stored. Control that reaches
the closing brace of `main` gives the exit status 0. -/
def main (L : CType) (fs : Files) : Run :=
  if fs.output = false then ⟨2, [], false⟩
  else
    let books := step01_countBookList L fs.bookList
    let charts :=
      if books ≠ 0 then
        if fs.memory then
          let r := main_books L fs (step03_readBookList L fs.bookList books).1
            (step02_initializeLf books).1
          r.1 ++ [(step11_printBookFrequency L r.2).2]
        else []
      else []
    ⟨0, charts, true⟩

/-- The table of a book as `main` hands it to `step11_printBookFrequency`: the one that
`step10_calcBookFrequency` accumulates from the table `step02_initializeLf` left. -/
def bookTable (L : CType) (bytes : List Byte) : letterFrequency :=
  (step10_calcBookFrequency L (some bytes) (lfInit, lfInit)).1.1

/-- A run in which the book list names the file `a`, which holds the single byte `01`. -/
def filesControl : Files where
  output := true
  bookList := some [97, 10]
  book := fun title => if title = [97] then some [1] else none
  memory := true

/-! ## Reference notions for the character classification -/

/-- The 18 Hungarian-specific bytes of code page 1250: the lower-case letters
`E1 E9 ED F3 F5 F6 FA FB FC` and the upper-case letters `C1 C9 CD D3 D5 D6 DA DB DC`. -/
def hungarianBytes : List Byte :=
  [0xe1, 0xe9, 0xed, 0xf3, 0xf5, 0xf6, 0xfa, 0xfb, 0xfc,
    0xc1, 0xc9, 0xcd, 0xd3, 0xd5, 0xd6, 0xda, 0xdb, 0xdc]

/-- The bytes that pass the test of steps 1 and 2 of `step11_printBookFrequency`, in the order
of the loop: `sortIdx[0], sortIdx[1], ...`, without those that fail the test. -/
def step11_symbols (L : CType) (lf : letterFrequency) : List Byte :=
  ((List.finRange 256).map lf.sortIdx).filter (step11_shown L lf)

/-- The cell of the display matrix for the symbol number `i` when the grid is filled column by
column with `rows` rows: row `i mod rows`, column `i div rows`. -/
def columnMajor (rows i : Nat) : Nat × Nat := (i % rows, i / rows)

/-! ## Reference notions for the bar chart -/

/-- The exponent of the spacing of the binary64 numbers around `x`: from `2 ^ e` up to
`2 ^ (e + 1)` they have 53 significant bits and are `2 ^ (e - 52)` apart; below `2 ^ (-1022)`,
in the subnormal range, they are `2 ^ (-1074)` apart. -/
def ulpExp (x : ℚ) : Int := max (Int.log 2 |x|) (-1022) - 52

/-- The result of an arithmetic operation on `double` values whose exact result is `x`: the
binary64 number nearest to `x`, with ties going to the even significand. Results of magnitude
`2 ^ 1024` or more, which C turns into an infinity, are outside the model. -/
def fl (x : ℚ) : ℚ := (roundHalfEven (x / 2 ^ ulpExp x) : ℚ) * 2 ^ ulpExp x

/-- The bar value `100.*(pLf->c[c]) / pLf->totalAlphabets` of section 1 of
`step11_printBookFrequency` (line 611) for the counts `c` and `t`, in binary64: both counts
are converted to `double`, and the product and the quotient are rounded. -/
def barValue64 (c t : Nat) : ℚ := fl (fl (100 * fl (c : ℚ)) / fl (t : ℚ))

/-- The values of `numOfSmallx` and `lastStr` in `barChart` with every operation on `double`
values rounded to binary64, in the order in which C evaluates them:
`(value / saturat) * maxLen`, `((double)numOfSmallx / maxLen) * saturat`,
`saturat + ((saturat / maxLen) / 3)`, `(saturat / maxLen) / 3.` and
`((saturat / maxLen) * 2.) / 3.`. -/
def barChart_cells64 (maxLen : Int) (saturat value : ℚ) : Int × List Char :=
  let numOfSmallx := truncToInt (fl (fl (value / saturat) * maxLen))
  let lastx_value := fl (value - fl (fl ((numOfSmallx : ℚ) / maxLen) * saturat))
  if fl (saturat + fl (fl (saturat / maxLen) / 3)) < value then (maxLen - 1, ['*'])
  else if lastx_value ≤ fl (fl (saturat / maxLen) / 3) then (numOfSmallx, [])
  else if fl (fl (saturat / maxLen) / 3) < lastx_value ∧
      lastx_value < fl (fl (fl (saturat / maxLen) * 2) / 3) then
    (numOfSmallx, ['.'])
  else (numOfSmallx, [':'])

/-- `barChart` with the arithmetic of binary64: the string stored in `pStr`. -/
def barChart64 (maxLen : Int) (saturat value : ℚ) : String :=
  if value = 0 then
    String.mk (snprintf (maxLen + BARCHART_LEN_PERCENT_NULL)
      ("       ".data ++ barChart_bar maxLen (barChart_cells64 maxLen saturat value)))
  else
    String.mk (snprintf (maxLen + BARCHART_LEN_PERCENT_NULL)
      (printf_4_1lf value ++ ['%', ' '] ++
        barChart_bar maxLen (barChart_cells64 maxLen saturat value)))
/-! # Lemmas and theorems -/

/-! ## Closed forms of the accumulated counters -/

lemma wrap_succ (x k : Nat) : ((x + k) % ULL + 1) % ULL = (x + (k + 1)) % ULL := by
  unfold ULL; omega

lemma wrap_small {x : Nat} (h : x < ULL) : (x + 0) % ULL = x := by
  unfold ULL at *; omega

lemma foldl_tally_snoc (L : CType) (lf : letterFrequency) (bs : List Byte) (a : Byte) :
    (bs ++ [a]).foldl (tally L) lf = tally L (bs.foldl (tally L) lf) a := by
  simp [List.foldl_append]

lemma foldl_tally_c (L : CType) (lf : letterFrequency) (bytes : List Byte) (b : Byte)
    (h0 : lf.c b < ULL) :
    (bytes.foldl (tally L) lf).c b = (lf.c b + bytes.countP (fun (x : Byte) => slot L x == b)) % ULL := by
  induction bytes using List.reverseRecOn with
  | nil => simpa using (wrap_small h0).symm
  | append_singleton bs a ih =>
    rw [foldl_tally_snoc, List.countP_append]
    by_cases hk : slot L a = b
    · have : (tally L (bs.foldl (tally L) lf) a).c b
          = ((bs.foldl (tally L) lf).c b + 1) % ULL := by
        simp only [tally]; rw [← hk]; simp [slot]
      rw [this, ih, wrap_succ]; simp [List.countP_cons, hk]
    · have : (tally L (bs.foldl (tally L) lf) a).c b = (bs.foldl (tally L) lf).c b := by
        simp only [tally]
        exact Function.update_noteq (fun h => hk h.symm) _ _
      rw [this, ih]; simp [List.countP_cons, hk]

lemma foldl_tally_totalLetters (L : CType) (lf : letterFrequency) (bytes : List Byte)
    (h0 : lf.totalLetters < ULL) :
    (bytes.foldl (tally L) lf).totalLetters
      = (lf.totalLetters + bytes.countP (fun (x : Byte) => !L.isspace (x.val : Int))) % ULL := by
  induction bytes using List.reverseRecOn with
  | nil => simpa using (wrap_small h0).symm
  | append_singleton bs a ih =>
    rw [foldl_tally_snoc, List.countP_append]
    by_cases hk : L.isspace (a.val : Int) = true
    · simp [tally, hk, ih, List.countP_cons]
    · simp only [Bool.not_eq_true] at hk
      simp [tally, hk, ih, List.countP_cons, wrap_succ]

lemma foldl_tally_totalAlphabets (L : CType) (lf : letterFrequency) (bytes : List Byte)
    (h0 : lf.totalAlphabets < ULL) :
    (bytes.foldl (tally L) lf).totalAlphabets
      = (lf.totalAlphabets + bytes.countP (fun (x : Byte) => L.isalpha (x.val : Int))) % ULL := by
  induction bytes using List.reverseRecOn with
  | nil => simpa using (wrap_small h0).symm
  | append_singleton bs a ih =>
    rw [foldl_tally_snoc, List.countP_append]
    by_cases hk : L.isalpha (a.val : Int) = true
    · simp [tally, hk, ih, List.countP_cons, wrap_succ]
    · simp only [Bool.not_eq_true] at hk
      simp [tally, hk, ih, List.countP_cons]

lemma foldl_tally_totalHungarian (L : CType) (lf : letterFrequency) (bytes : List Byte)
    (h0 : lf.totalHungarian < ULL) :
    (bytes.foldl (tally L) lf).totalHungarian
      = (lf.totalHungarian + bytes.countP (fun (x : Byte) => isHungarian (x.val : Int))) % ULL := by
  induction bytes using List.reverseRecOn with
  | nil => simpa using (wrap_small h0).symm
  | append_singleton bs a ih =>
    rw [foldl_tally_snoc, List.countP_append]
    by_cases hk : isHungarian (a.val : Int) = true
    · simp [tally, hk, ih, List.countP_cons, wrap_succ]
    · simp only [Bool.not_eq_true] at hk
      simp [tally, hk, ih, List.countP_cons]

lemma foldl_tally_punctuation (L : CType) (lf : letterFrequency) (bytes : List Byte)
    (h0 : lf.punctuation < ULL) :
    (bytes.foldl (tally L) lf).punctuation
      = (lf.punctuation + bytes.countP (fun (x : Byte) => ispunct1250 L (x.val : Int))) % ULL := by
  induction bytes using List.reverseRecOn with
  | nil => simpa using (wrap_small h0).symm
  | append_singleton bs a ih =>
    rw [foldl_tally_snoc, List.countP_append]
    by_cases hk : ispunct1250 L (a.val : Int) = true
    · simp [tally, hk, ih, List.countP_cons, wrap_succ]
    · simp only [Bool.not_eq_true] at hk
      simp [tally, hk, ih, List.countP_cons]

lemma foldl_tally_digit (L : CType) (lf : letterFrequency) (bytes : List Byte)
    (h0 : lf.digit < ULL) :
    (bytes.foldl (tally L) lf).digit
      = (lf.digit + bytes.countP (fun (x : Byte) => L.isdigit (x.val : Int))) % ULL := by
  induction bytes using List.reverseRecOn with
  | nil => simpa using (wrap_small h0).symm
  | append_singleton bs a ih =>
    rw [foldl_tally_snoc, List.countP_append]
    by_cases hk : L.isdigit (a.val : Int) = true
    · simp [tally, hk, ih, List.countP_cons, wrap_succ]
    · simp only [Bool.not_eq_true] at hk
      simp [tally, hk, ih, List.countP_cons]

lemma foldl_step10_body (L : CType) (bytes : List Byte) (st : letterFrequency × letterFrequency) :
    bytes.foldl (step10_body L) st = (bytes.foldl (tally L) st.1, bytes.foldl (tally L) st.2) := by
  induction bytes generalizing st with
  | nil => rfl
  | cons a bs ih => simp [List.foldl_cons, ih, step10_body]

lemma isCounter_c (L : CType) (b : Byte) :
    IsCounter L (fun lf => lf.c b) (fun x => slot L x == b) :=
  fun lf bytes h => foldl_tally_c L lf bytes b h

lemma isCounter_fresh {L : CType} {f : letterFrequency → Nat} {p : Byte → Bool}
    (hf : IsCounter L f p) (h0 : f lfInit = 0) (bytes : List Byte) (hlen : bytes.length < ULL) :
    f (bytes.foldl (tally L) lfInit) = bytes.countP p := by
  rw [hf lfInit bytes (by rw [h0]; unfold ULL; norm_num), h0, Nat.zero_add]
  exact Nat.mod_eq_of_lt (lt_of_le_of_lt (List.countP_le_length _) hlen)

lemma sum_countP_slot (f : Byte → Byte) (bytes : List Byte) :
    ∑ b : Byte, bytes.countP (fun x => f x == b) = bytes.length := by
  induction bytes with
  | nil => simp
  | cons a bs ih =>
    simp only [List.countP_cons, Finset.sum_add_distrib, ih, List.length_cons]
    simp

/-! ## The loop of `main` over the books -/

lemma step10_books_snoc (L : CType) (bs : List (Option (List Byte))) (book : Option (List Byte))
    (gt : letterFrequency) :
    step10_books L (bs ++ [book]) gt =
      ((step10_books L bs gt).1 ++
          [(step10_calcBookFrequency L book (lfInit, (step10_books L bs gt).2)).1.1],
        (step10_calcBookFrequency L book (lfInit, (step10_books L bs gt).2)).1.2) := by
  simp [step10_books, List.foldl_append]

lemma step10_calc_fst (L : CType) (book : Option (List Byte)) (g : letterFrequency) :
    (step10_calcBookFrequency L book (lfInit, g)).1.1 = (book.getD []).foldl (tally L) lfInit := by
  cases book <;> simp [step10_calcBookFrequency, foldl_step10_body]

lemma step10_calc_snd (L : CType) (book : Option (List Byte)) (g : letterFrequency) :
    (step10_calcBookFrequency L book (lfInit, g)).1.2 = (book.getD []).foldl (tally L) g := by
  cases book <;> simp [step10_calcBookFrequency, foldl_step10_body]

lemma step10_books_tables (L : CType) (books : List (Option (List Byte))) (gt : letterFrequency) :
    (step10_books L books gt).1 = books.map (fun book => (book.getD []).foldl (tally L) lfInit) := by
  induction books using List.reverseRecOn with
  | nil => rfl
  | append_singleton bs book ih => rw [step10_books_snoc]; simp [ih, step10_calc_fst]

lemma step10_books_grand (L : CType) (books : List (Option (List Byte))) (gt : letterFrequency) :
    (step10_books L books gt).2 = (booksBytes books).flatten.foldl (tally L) gt := by
  induction books using List.reverseRecOn with
  | nil => rfl
  | append_singleton bs book ih =>
    rw [step10_books_snoc]
    simp only [step10_calc_snd, ih, booksBytes, List.filterMap_append]
    cases book <;> simp [List.foldl_append]

lemma booksRead_tables (L : CType) (books : List (Option (List Byte))) (gt : letterFrequency) :
    booksRead books (step10_books L books gt).1 =
      (booksBytes books).map (fun bytes => bytes.foldl (tally L) lfInit) := by
  rw [step10_books_tables]
  induction books with
  | nil => rfl
  | cons book bs ih =>
    cases book with
    | none => simpa [booksRead, booksBytes] using ih
    | some bytes => simpa [booksRead, booksBytes] using ih

lemma grand_counter_eq_sum {L : CType} {f : letterFrequency → Nat} {p : Byte → Bool}
    (hf : IsCounter L f p) (h0 : f lfInit = 0) (books : List (Option (List Byte)))
    (hlen : (booksBytes books).flatten.length < ULL) :
    f (step10_books L books lfInit).2 =
      ((booksRead books (step10_books L books lfInit).1).map f).sum := by
  rw [step10_books_grand, booksRead_tables, isCounter_fresh hf h0 _ hlen, List.countP_flatten,
    List.map_map]
  congr 1
  apply List.map_congr_left
  intro bytes hmem
  have hle : bytes.length ≤ (booksBytes books).flatten.length := by
    rw [List.length_flatten]
    exact List.single_le_sum (fun _ _ => Nat.zero_le _) _ (List.mem_map_of_mem _ hmem)
  exact (isCounter_fresh hf h0 bytes (lt_of_le_of_lt hle hlen)).symm

lemma isCounter_totalAlphabets (L : CType) :
    IsCounter L (fun lf => lf.totalAlphabets) (fun x => L.isalpha (x.val : Int)) :=
  fun lf bytes h => foldl_tally_totalAlphabets L lf bytes h

lemma isCounter_totalHungarian (L : CType) :
    IsCounter L (fun lf => lf.totalHungarian) (fun x => isHungarian (x.val : Int)) :=
  fun lf bytes h => foldl_tally_totalHungarian L lf bytes h

lemma isCounter_punctuation (L : CType) :
    IsCounter L (fun lf => lf.punctuation) (fun x => ispunct1250 L (x.val : Int)) :=
  fun lf bytes h => foldl_tally_punctuation L lf bytes h

lemma isCounter_digit (L : CType) :
    IsCounter L (fun lf => lf.digit) (fun x => L.isdigit (x.val : Int)) :=
  fun lf bytes h => foldl_tally_digit L lf bytes h

lemma isCounter_totalLetters (L : CType) :
    IsCounter L (fun lf => lf.totalLetters) (fun x => !L.isspace (x.val : Int)) :=
  fun lf bytes h => foldl_tally_totalLetters L lf bytes h

lemma step10_book_table (L : CType) (bytes : List Byte) (gt : letterFrequency) :
    (step10_calcBookFrequency L (some bytes) (lfInit, gt)).1.1 = bytes.foldl (tally L) lfInit := by
  simp [step10_calcBookFrequency, foldl_step10_body]

/-- In the `"C"` locale no alphabetic character is whitespace. -/
lemma cLocale_alpha_not_space (b : Byte) (h : cLocale.isalpha (b.val : Int) = true) :
    cLocale.isspace (b.val : Int) = false := by
  simp only [cLocale, Bool.or_eq_true, Bool.and_eq_true, decide_eq_true_eq] at h
  simp only [cLocale, Bool.or_eq_false_iff, Bool.and_eq_false_iff, beq_eq_false_iff_ne,
    decide_eq_false_iff_not]
  omega

/-! ## Invariants of the accumulated table -/

/-- C1: for a book of fewer than `2 ^ 64` bytes read by `step10_calcBookFrequency` into the
zero-initialised table, the sum of the 256 counts `c[0..255]` equals `totalLetters` plus the
number of whitespace bytes of the book, and equals the number of bytes read. -/
theorem C1_counts_sum_eq_bytes_read (L : CType) (bytes : List Byte) (gt : letterFrequency)
    (hlen : bytes.length < 2 ^ 64) :
    (∑ b : Byte, (step10_calcBookFrequency L (some bytes) (lfInit, gt)).1.1.c b =
        (step10_calcBookFrequency L (some bytes) (lfInit, gt)).1.1.totalLetters
          + whitespaceCount L bytes) ∧
      ∑ b : Byte, (step10_calcBookFrequency L (some bytes) (lfInit, gt)).1.1.c b
        = bytes.length := by
  have hlen' : bytes.length < ULL := hlen
  have hc : ∀ b : Byte, (bytes.foldl (tally L) lfInit).c b
      = bytes.countP (fun x => slot L x == b) :=
    fun b => isCounter_fresh (isCounter_c L b) rfl bytes hlen'
  have ht : (bytes.foldl (tally L) lfInit).totalLetters
      = bytes.countP (fun x => !L.isspace (x.val : Int)) :=
    isCounter_fresh (isCounter_totalLetters L) rfl bytes hlen'
  have hsum : ∑ b : Byte, (bytes.foldl (tally L) lfInit).c b = bytes.length := by
    simp only [hc]; exact sum_countP_slot (slot L) bytes
  rw [step10_book_table]
  refine ⟨?_, hsum⟩
  have hsplit := List.length_eq_countP_add_countP (fun (x : Byte) => L.isspace (x.val : Int)) bytes
  have hneg : bytes.countP (fun (x : Byte) => decide ¬(L.isspace (x.val : Int) = true))
      = bytes.countP (fun (x : Byte) => !L.isspace (x.val : Int)) :=
    List.countP_congr (fun x _ => by simp)
  rw [hsum, ht, whitespaceCount]
  rw [hneg] at hsplit
  omega

/-- Instance of C1: the book `a`, blank, `b` under the `"C"` locale. -/
theorem C1_counts_sum_eq_bytes_read_witness :
    ([97, 32, 98] : List Byte).length < 2 ^ 64 ∧
    ((∑ b : Byte, (step10_calcBookFrequency cLocale (some [97, 32, 98]) (lfInit, lfInit)).1.1.c b =
        (step10_calcBookFrequency cLocale (some [97, 32, 98]) (lfInit, lfInit)).1.1.totalLetters
          + whitespaceCount cLocale [97, 32, 98]) ∧
      ∑ b : Byte, (step10_calcBookFrequency cLocale (some [97, 32, 98]) (lfInit, lfInit)).1.1.c b
        = ([97, 32, 98] : List Byte).length) :=
  ⟨by norm_num, C1_counts_sum_eq_bytes_read cLocale [97, 32, 98] lfInit (by norm_num)⟩

/-- C2 (failing input): a book that consists of one NUL byte. `isHungarian` compares the byte
with every entry of its arrays, the terminating NUL included, so the byte is counted as
Hungarian-special; no locale classifies NUL as alphabetic, so `totalHungarian = 1` exceeds
`totalAlphabets = 0`. -/
theorem C2_nul_byte_counted_hungarian (L : CType) (gt : letterFrequency)
    (hnul : L.isalpha 0 = false) :
    (step10_calcBookFrequency L (some [0]) (lfInit, gt)).1.1.totalHungarian = 1 ∧
      (step10_calcBookFrequency L (some [0]) (lfInit, gt)).1.1.totalAlphabets = 0 := by
  rw [step10_book_table]
  have h1 : isHungarian ((0 : Byte).val : Int) = true := by decide
  have h2 : L.isalpha ((0 : Byte).val : Int) = false := by simpa using hnul
  constructor
  · simp only [List.foldl_cons, List.foldl_nil, tally, h1]; rfl
  · simp only [List.foldl_cons, List.foldl_nil, tally, h2]; rfl

/-- Instance of the failing input of C2 under the `"C"` locale. -/
theorem C2_nul_byte_counted_hungarian_witness :
    cLocale.isalpha 0 = false ∧
    ((step10_calcBookFrequency cLocale (some [0]) (lfInit, lfInit)).1.1.totalHungarian = 1 ∧
      (step10_calcBookFrequency cLocale (some [0]) (lfInit, lfInit)).1.1.totalAlphabets = 0) :=
  ⟨by decide, C2_nul_byte_counted_hungarian cLocale lfInit (by decide)⟩

/-- What the accumulation does guarantee about the two counters of C2: on a book of fewer than
`2 ^ 64` bytes without NUL bytes, `totalHungarian ≤ totalAlphabets` under a `<ctype.h>` whose
`isalpha` accepts every non-NUL byte that `isHungarian` accepts. -/
lemma totalHungarian_le_totalAlphabets_of_no_nul (L : CType) (bytes : List Byte)
    (gt : letterFrequency)
    (hL : ∀ b : Byte, b ≠ 0 → isHungarian (b.val : Int) = true → L.isalpha (b.val : Int) = true)
    (hnul : (0 : Byte) ∉ bytes) (hlen : bytes.length < 2 ^ 64) :
    (step10_calcBookFrequency L (some bytes) (lfInit, gt)).1.1.totalHungarian ≤
      (step10_calcBookFrequency L (some bytes) (lfInit, gt)).1.1.totalAlphabets := by
  have hlen' : bytes.length < ULL := hlen
  rw [step10_book_table]
  have hh := isCounter_fresh (isCounter_totalHungarian L) rfl bytes hlen'
  have ha := isCounter_fresh (isCounter_totalAlphabets L) rfl bytes hlen'
  simp only at hh ha
  rw [hh, ha]
  apply List.countP_mono_left
  intro x hx hxh
  exact hL x (fun h => hnul (h ▸ hx)) hxh

/-- C3: for a book of fewer than `2 ^ 64` bytes accumulated by `step10_calcBookFrequency` into
the zero-initialised table, `totalAlphabets ≤ totalLetters`, under a `<ctype.h>` whose
alphabetic characters are not whitespace (ISO C 7.4.1.2). -/
theorem C3_totalAlphabets_le_totalLetters (L : CType) (bytes : List Byte) (gt : letterFrequency)
    (hL : ∀ b : Byte, L.isalpha (b.val : Int) = true → L.isspace (b.val : Int) = false)
    (hlen : bytes.length < 2 ^ 64) :
    (step10_calcBookFrequency L (some bytes) (lfInit, gt)).1.1.totalAlphabets ≤
      (step10_calcBookFrequency L (some bytes) (lfInit, gt)).1.1.totalLetters := by
  have hlen' : bytes.length < ULL := hlen
  rw [step10_book_table]
  have ha := isCounter_fresh (isCounter_totalAlphabets L) rfl bytes hlen'
  have ht := isCounter_fresh (isCounter_totalLetters L) rfl bytes hlen'
  simp only at ha ht
  rw [ha, ht]
  apply List.countP_mono_left
  intro x _ hx
  simp [hL x hx]

/-- Instance of C3: the book `a`, blank, `b` under the `"C"` locale. -/
theorem C3_totalAlphabets_le_totalLetters_witness :
    (∀ b : Byte, cLocale.isalpha (b.val : Int) = true → cLocale.isspace (b.val : Int) = false) ∧
    ([97, 32, 98] : List Byte).length < 2 ^ 64 ∧
    (step10_calcBookFrequency cLocale (some [97, 32, 98]) (lfInit, lfInit)).1.1.totalAlphabets ≤
      (step10_calcBookFrequency cLocale (some [97, 32, 98]) (lfInit, lfInit)).1.1.totalLetters :=
  ⟨cLocale_alpha_not_space, by norm_num,
    C3_totalAlphabets_le_totalLetters cLocale [97, 32, 98] lfInit cLocale_alpha_not_space
      (by norm_num)⟩

/-- C4: for a list of books with fewer than `2 ^ 64` bytes in total, processed after
`step02_initializeLf`, each of the 256 counts and each of the five counters of the grand total
is the sum of that field over the per-book tables of the books that could be opened; the grand
total is the table obtained by accumulating the concatenation of those books into one table;
and a book that cannot be opened leaves both tables unchanged. -/
theorem C4_grand_total_is_sum_of_books (L : CType) (books : List (Option (List Byte)))
    (hlen : (booksBytes books).flatten.length < 2 ^ 64) :
    (∀ b : Byte, (step10_books L books (step02_initializeLf books.length).1).2.c b =
      ((booksRead books (step10_books L books (step02_initializeLf books.length).1).1).map
        (fun t => t.c b)).sum) ∧
    (step10_books L books (step02_initializeLf books.length).1).2.totalAlphabets =
      ((booksRead books (step10_books L books (step02_initializeLf books.length).1).1).map
        (fun t => t.totalAlphabets)).sum ∧
    (step10_books L books (step02_initializeLf books.length).1).2.totalHungarian =
      ((booksRead books (step10_books L books (step02_initializeLf books.length).1).1).map
        (fun t => t.totalHungarian)).sum ∧
    (step10_books L books (step02_initializeLf books.length).1).2.punctuation =
      ((booksRead books (step10_books L books (step02_initializeLf books.length).1).1).map
        (fun t => t.punctuation)).sum ∧
    (step10_books L books (step02_initializeLf books.length).1).2.digit =
      ((booksRead books (step10_books L books (step02_initializeLf books.length).1).1).map
        (fun t => t.digit)).sum ∧
    (step10_books L books (step02_initializeLf books.length).1).2.totalLetters =
      ((booksRead books (step10_books L books (step02_initializeLf books.length).1).1).map
        (fun t => t.totalLetters)).sum ∧
    (step10_books L books (step02_initializeLf books.length).1).2 =
      (step10_calcBookFrequency L (some (booksBytes books).flatten) (lfInit, lfInit)).1.1 ∧
    ∀ st : letterFrequency × letterFrequency, step10_calcBookFrequency L none st = (st, 0) := by
  have hlen' : (booksBytes books).flatten.length < ULL := hlen
  have hinit : (step02_initializeLf books.length).1 = lfInit := rfl
  rw [hinit]
  refine ⟨fun b => grand_counter_eq_sum (isCounter_c L b) rfl books hlen',
    grand_counter_eq_sum (isCounter_totalAlphabets L) rfl books hlen',
    grand_counter_eq_sum (isCounter_totalHungarian L) rfl books hlen',
    grand_counter_eq_sum (isCounter_punctuation L) rfl books hlen',
    grand_counter_eq_sum (isCounter_digit L) rfl books hlen',
    grand_counter_eq_sum (isCounter_totalLetters L) rfl books hlen', ?_, fun st => rfl⟩
  rw [step10_books_grand, step10_book_table]

/-- Instance of C4: the books `a` and `b`, blank with a book between them that cannot be
opened, under the `"C"` locale. -/
theorem C4_grand_total_is_sum_of_books_witness :
    (booksBytes [some [97], none, some [98, 32]]).flatten.length < 2 ^ 64 ∧
    (step10_books cLocale [some [97], none, some [98, 32]]
        (step02_initializeLf [some [97], none, some [98, 32]].length).1).2.totalLetters =
      ((booksRead [some [97], none, some [98, 32]]
        (step10_books cLocale [some [97], none, some [98, 32]]
          (step02_initializeLf [some [97], none, some [98, 32]].length).1).1).map
        (fun t => t.totalLetters)).sum :=
  ⟨by simp [booksBytes],
    (C4_grand_total_is_sum_of_books cLocale [some [97], none, some [98, 32]]
      (by simp [booksBytes])).2.2.2.2.2.1⟩

/-! ## The index sort -/

lemma swapIdx_left (s : Byte → Byte) (i j : Byte) : swapIdx s i j i = s j := by
  by_cases h : i = j
  · subst h; simp [swapIdx]
  · simp [swapIdx, Function.update_apply, h]

lemma swapIdx_right (s : Byte → Byte) (i j : Byte) : swapIdx s i j j = s i := by
  simp [swapIdx]

lemma swapIdx_other (s : Byte → Byte) {i j k : Byte} (hi : k ≠ i) (hj : k ≠ j) :
    swapIdx s i j k = s k := by
  simp [swapIdx, Function.update_apply, hi, hj]

lemma swapIdx_eq_comp (s : Byte → Byte) (i j : Byte) : swapIdx s i j = s ∘ Equiv.swap i j := by
  funext k
  by_cases hi : k = i
  · subst hi; simp [swapIdx_left]
  · by_cases hj : k = j
    · subst hj; simp [swapIdx_right]
    · simp [swapIdx_other s hi hj, Equiv.swap_apply_of_ne_of_ne hi hj]

lemma swapIdx_bijective {s : Byte → Byte} (hs : Function.Bijective s) (i j : Byte) :
    Function.Bijective (swapIdx s i j) := by
  rw [swapIdx_eq_comp]
  exact hs.comp (Equiv.swap i j).bijective

lemma sortLf_step_bijective (c : Byte → Nat) {s : Byte → Byte} (hs : Function.Bijective s)
    (i j : Byte) : Function.Bijective (sortLf_step c i s j) := by
  unfold sortLf_step
  split
  · exact swapIdx_bijective hs i j
  · exact hs

lemma foldl_keeps {α β : Type} (P : α → Prop) (f : α → β → α)
    (hf : ∀ a b, P a → P (f a b)) (l : List β) (a : α) (ha : P a) : P (l.foldl f a) := by
  induction l generalizing a with
  | nil => exact ha
  | cons b bs ih => exact ih _ (hf a b ha)

lemma sortLf_inner_bijective (c : Byte → Nat) {s : Byte → Byte} (hs : Function.Bijective s)
    (i : Byte) : Function.Bijective (sortLf_inner c s i) := by
  show Function.Bijective ((innerIndices i).foldl (sortLf_step c i) s)
  exact foldl_keeps Function.Bijective (sortLf_step c i)
    (fun _ j h => sortLf_step_bijective c h i j) (innerIndices i) s hs

lemma sortLf_sortIdx (lf : letterFrequency) :
    (sortLf lf).sortIdx = outerIndices.foldl (sortLf_inner lf.c) lf.sortIdx := by
  simp only [sortLf]

lemma sortLf_c (lf : letterFrequency) : (sortLf lf).c = lf.c := by
  unfold sortLf; rfl

lemma sortLf_bijective (lf : letterFrequency) (hs : Function.Bijective lf.sortIdx) :
    Function.Bijective (sortLf lf).sortIdx := by
  rw [sortLf_sortIdx]
  exact foldl_keeps Function.Bijective (sortLf_inner lf.c)
    (fun _ i h => sortLf_inner_bijective lf.c h i) outerIndices lf.sortIdx hs

lemma sortLf_step_other (c : Byte → Nat) (s : Byte → Byte) {i j k : Byte} (hi : k ≠ i)
    (hj : k ≠ j) : sortLf_step c i s j k = s k := by
  unfold sortLf_step
  split
  · exact swapIdx_other s hi hj
  · rfl

lemma sortLf_step_le (c : Byte → Nat) (s : Byte → Byte) (i j : Byte) :
    c (sortLf_step c i s j j) ≤ c (sortLf_step c i s j i) := by
  unfold sortLf_step
  split
  · rw [swapIdx_left, swapIdx_right]; omega
  · omega

lemma sortLf_step_mono (c : Byte → Nat) (s : Byte → Byte) (i j : Byte) :
    c (s i) ≤ c (sortLf_step c i s j i) := by
  unfold sortLf_step
  split
  · rw [swapIdx_left]; omega
  · exact le_refl _

lemma foldl_step_other (c : Byte → Nat) (i : Byte) (js : List Byte) (s : Byte → Byte)
    {k : Byte} (hi : k ≠ i) (hk : k ∉ js) : js.foldl (sortLf_step c i) s k = s k := by
  induction js generalizing s with
  | nil => rfl
  | cons j rest ih =>
    rw [List.foldl_cons, ih _ (fun h => hk (List.mem_cons_of_mem _ h))]
    exact sortLf_step_other c s hi (fun h => hk (h ▸ List.mem_cons_self _ _))

lemma foldl_step_mono (c : Byte → Nat) (i : Byte) (js : List Byte) (s : Byte → Byte) :
    c (s i) ≤ c (js.foldl (sortLf_step c i) s i) := by
  induction js generalizing s with
  | nil => exact le_refl _
  | cons j rest ih => exact le_trans (sortLf_step_mono c s i j) (ih _)

lemma foldl_step_max (c : Byte → Nat) (i : Byte) (js : List Byte) (s : Byte → Byte)
    (hnd : js.Nodup) (hi : i ∉ js) :
    ∀ j ∈ js, c (js.foldl (sortLf_step c i) s j) ≤ c (js.foldl (sortLf_step c i) s i) := by
  induction js generalizing s with
  | nil => intro j hj; cases hj
  | cons j0 rest ih =>
    intro j hj
    have hnd' := List.nodup_cons.mp hnd
    have hi' : i ∉ rest := fun h => hi (List.mem_cons_of_mem _ h)
    rw [List.foldl_cons]
    rcases List.mem_cons.mp hj with rfl | hmem
    · have hne : j ≠ i := fun h => hi (h ▸ List.mem_cons_self _ _)
      rw [foldl_step_other c i rest _ hne hnd'.1]
      exact le_trans (sortLf_step_le c s i j) (foldl_step_mono c i rest _)
    · exact ih _ hnd'.2 hi' j hmem

lemma mem_innerIndices {i j : Byte} : j ∈ innerIndices i ↔ i < j := by
  simp [innerIndices, List.mem_finRange]

lemma nodup_innerIndices (i : Byte) : (innerIndices i).Nodup :=
  (List.nodup_finRange 256).filter _

lemma sortLf_inner_above (c : Byte → Nat) (s : Byte → Byte) (i : Byte) :
    Above c (sortLf_inner c s i) i := by
  intro m hm
  show c ((innerIndices i).foldl (sortLf_step c i) s m) ≤
    c ((innerIndices i).foldl (sortLf_step c i) s i)
  exact foldl_step_max c i (innerIndices i) s (nodup_innerIndices i)
    (fun h => lt_irrefl _ (mem_innerIndices.mp h)) m (mem_innerIndices.mpr hm)

lemma sortLf_step_above (c : Byte → Nat) (s : Byte → Byte) {i j k : Byte} (hi : k < i)
    (hj : k < j) (h : Above c s k) : Above c (sortLf_step c i s j) k := by
  intro m hm
  rw [sortLf_step_other c s (ne_of_lt hi) (ne_of_lt hj)]
  by_cases hmi : m = i
  · subst hmi
    unfold sortLf_step
    split
    · rw [swapIdx_left]; exact h j hj
    · exact h m hi
  · by_cases hmj : m = j
    · subst hmj
      unfold sortLf_step
      split
      · rw [swapIdx_right]; exact h i hi
      · exact h m hj
    · rw [sortLf_step_other c s hmi hmj]; exact h m hm

lemma foldl_step_above (c : Byte → Nat) (i : Byte) (js : List Byte) (s : Byte → Byte)
    {k : Byte} (hi : k < i) (hjs : ∀ j ∈ js, k < j) (h : Above c s k) :
    Above c (js.foldl (sortLf_step c i) s) k := by
  induction js generalizing s with
  | nil => exact h
  | cons j rest ih =>
    rw [List.foldl_cons]
    exact ih _ (fun x hx => hjs x (List.mem_cons_of_mem _ hx))
      (sortLf_step_above c s hi (hjs j (List.mem_cons_self _ _)) h)

lemma sortLf_inner_keeps_above (c : Byte → Nat) (s : Byte → Byte) {i k : Byte} (hi : k < i)
    (h : Above c s k) : Above c (sortLf_inner c s i) k :=
  foldl_step_above c i (innerIndices i) s hi
    (fun _ hj => lt_trans hi (mem_innerIndices.mp hj)) h

lemma foldl_inner_above (c : Byte → Nat) (is : List Byte) (s : Byte → Byte)
    (hsorted : is.Pairwise (· < ·)) :
    ∀ k ∈ is, Above c (is.foldl (sortLf_inner c) s) k := by
  induction is using List.reverseRecOn with
  | nil => intro k hk; cases hk
  | append_singleton l i ih =>
    intro k hk
    rw [List.foldl_append, List.foldl_cons, List.foldl_nil]
    rw [List.pairwise_append] at hsorted
    rcases List.mem_append.mp hk with hl | hlast
    · exact sortLf_inner_keeps_above c _ (hsorted.2.2 k hl i (List.mem_singleton_self i))
        (ih hsorted.1 k hl)
    · rw [List.mem_singleton.mp hlast]
      exact sortLf_inner_above c _ i

lemma mem_outerIndices {i : Byte} : i ∈ outerIndices ↔ i.val < 255 := by
  simp [outerIndices, List.mem_finRange]

lemma sortLf_descending (lf : letterFrequency) : Descending lf.c (sortLf lf).sortIdx := by
  intro p q hpq
  have hp : p ∈ outerIndices :=
    mem_outerIndices.mpr (by have := q.isLt; have := Fin.lt_def.mp hpq; omega)
  have hsorted : outerIndices.Pairwise (· < ·) := (List.pairwise_lt_finRange 256).filter _
  rw [sortLf_sortIdx]
  exact foldl_inner_above lf.c outerIndices lf.sortIdx hsorted p hp q hpq

lemma foldl_step_skip (c : Byte → Nat) (i : Byte) (js : List Byte) (s : Byte → Byte)
    (h : ∀ j ∈ js, c (s j) ≤ c (s i)) : js.foldl (sortLf_step c i) s = s := by
  induction js with
  | nil => rfl
  | cons j rest ih =>
    have hj : sortLf_step c i s j = s := by
      unfold sortLf_step
      exact if_neg (not_lt.mpr (h j (List.mem_cons_self _ _)))
    rw [List.foldl_cons, hj]
    exact ih (fun x hx => h x (List.mem_cons_of_mem _ hx))

lemma sortLf_inner_skip (c : Byte → Nat) (s : Byte → Byte) (i : Byte)
    (h : ∀ j : Byte, i < j → c (s j) ≤ c (s i)) : sortLf_inner c s i = s :=
  foldl_step_skip c i (innerIndices i) s (fun j hj => h j (mem_innerIndices.mp hj))

lemma foldl_inner_of_descending (c : Byte → Nat) (is : List Byte) (s : Byte → Byte)
    (h : Descending c s) : is.foldl (sortLf_inner c) s = s := by
  induction is with
  | nil => rfl
  | cons i rest ih => rw [List.foldl_cons, sortLf_inner_skip c s i (fun j hj => h i j hj)]; exact ih

/-- C5: for every table whose `sortIdx` is a permutation of `0..255`, after `sortLf` the array
`sortIdx` is again a permutation of `0..255`, the counts are in descending order along it,
`c[sortIdx[i]] ≥ c[sortIdx[i+1]]` for every `i` in `0..254`, and no count has changed. -/
theorem C5_sortLf_descending_permutation (lf : letterFrequency)
    (hperm : Function.Bijective lf.sortIdx) :
    Function.Bijective (sortLf lf).sortIdx ∧
      (∀ i : Fin 255,
        (sortLf lf).c ((sortLf lf).sortIdx i.succ) ≤
          (sortLf lf).c ((sortLf lf).sortIdx i.castSucc)) ∧
      (sortLf lf).c = lf.c := by
  refine ⟨sortLf_bijective lf hperm, fun i => ?_, sortLf_c lf⟩
  rw [sortLf_c]
  exact sortLf_descending lf _ _ (Fin.castSucc_lt_succ i)

/-- Instance of C5: the table of the book `abcc`, whose `sortIdx` is the identity. -/
theorem C5_sortLf_descending_permutation_witness :
    Function.Bijective tableABCC.sortIdx ∧
    (Function.Bijective (sortLf tableABCC).sortIdx ∧
      (∀ i : Fin 255,
        (sortLf tableABCC).c ((sortLf tableABCC).sortIdx i.succ) ≤
          (sortLf tableABCC).c ((sortLf tableABCC).sortIdx i.castSucc)) ∧
      (sortLf tableABCC).c = tableABCC.c) :=
  ⟨Function.bijective_id, C5_sortLf_descending_permutation tableABCC Function.bijective_id⟩

/-- C7: `sortLf` is idempotent: for every table, `sortLf` applied to the result of `sortLf`
leaves `sortIdx` as it is. -/
theorem C7_sortLf_idempotent (lf : letterFrequency) :
    (sortLf (sortLf lf)).sortIdx = (sortLf lf).sortIdx := by
  rw [sortLf_sortIdx (sortLf lf), sortLf_c]
  exact foldl_inner_of_descending lf.c outerIndices _ (sortLf_descending lf)

/-! ## Ties in the index sort -/

lemma sortLf_step_topTies (c : Byte → Nat) (s : Byte → Byte) {i j : Byte} (hij : i < j)
    (hdom : ∀ k : Byte, i < k → k < j → c (s k) ≤ c (s i)) (h : TopTiesAscending c s) :
    TopTiesAscending c (sortLf_step c i s j) := by
  unfold sortLf_step
  split
  case isFalse => exact h
  case isTrue hlt =>
    intro p q hmax heq hpq
    have hpj : p ≠ j := by
      rintro rfl
      have := hmax (s p)
      rw [swapIdx_right] at this
      omega
    have hqj : q ≠ j := by
      rintro rfl
      have := hmax (s q)
      rw [swapIdx_right] at heq
      omega
    by_cases hpi : p = i
    · subst hpi
      have hqi : q ≠ p := ne_of_gt hpq
      rw [swapIdx_left] at hmax heq ⊢
      rw [swapIdx_other s hqi hqj] at heq ⊢
      have hjq : j < q := by
        rcases lt_trichotomy q j with hlt' | heq' | hgt'
        · have := hdom q hpq hlt'; omega
        · exact absurd heq' hqj
        · exact hgt'
      exact h j q hmax heq hjq
    · rw [swapIdx_other s hpi hpj] at hmax heq ⊢
      by_cases hqi : q = i
      · subst hqi
        rw [swapIdx_left] at heq ⊢
        exact h p j hmax heq (lt_trans hpq hij)
      · rw [swapIdx_other s hqi hqj] at heq ⊢
        exact h p q hmax heq hpq

lemma foldl_step_topTies (c : Byte → Nat) (i : Byte) (js : List Byte) (s : Byte → Byte)
    (hsorted : js.Pairwise (· < ·)) (hjs : ∀ j ∈ js, i < j)
    (hdone : ∀ k : Byte, i < k → k ∉ js → c (s k) ≤ c (s i)) (h : TopTiesAscending c s) :
    TopTiesAscending c (js.foldl (sortLf_step c i) s) := by
  induction js generalizing s with
  | nil => exact h
  | cons j rest ih =>
    rw [List.foldl_cons]
    rw [List.pairwise_cons] at hsorted
    have hij : i < j := hjs j (List.mem_cons_self _ _)
    have hbefore : ∀ k : Byte, i < k → k < j → c (s k) ≤ c (s i) := by
      intro k hik hkj
      apply hdone k hik
      intro hmem
      rcases List.mem_cons.mp hmem with rfl | hr
      · exact lt_irrefl _ hkj
      · exact lt_asymm hkj (hsorted.1 k hr)
    apply ih _ hsorted.2 (fun x hx => hjs x (List.mem_cons_of_mem _ hx))
    · intro k hik hk
      by_cases hkj : k = j
      · subst hkj; exact sortLf_step_le c s i k
      · rw [sortLf_step_other c s (ne_of_gt hik) hkj]
        refine le_trans (hdone k hik ?_) (sortLf_step_mono c s i j)
        intro hmem
        rcases List.mem_cons.mp hmem with rfl | hr
        · exact hkj rfl
        · exact hk hr
    · exact sortLf_step_topTies c s hij hbefore h

lemma sortLf_inner_topTies (c : Byte → Nat) (s : Byte → Byte) (i : Byte)
    (h : TopTiesAscending c s) : TopTiesAscending c (sortLf_inner c s i) :=
  foldl_step_topTies c i (innerIndices i) s ((List.pairwise_lt_finRange 256).filter _)
    (fun _ hj => mem_innerIndices.mp hj)
    (fun _ hik hk => absurd (mem_innerIndices.mpr hik) hk) h

lemma sortLf_topTies (lf : letterFrequency) (h : TopTiesAscending lf.c lf.sortIdx) :
    TopTiesAscending lf.c (sortLf lf).sortIdx := by
  rw [sortLf_sortIdx]
  exact foldl_keeps (TopTiesAscending lf.c) (sortLf_inner lf.c)
    (fun s i hs => sortLf_inner_topTies lf.c s i hs) outerIndices lf.sortIdx h

lemma sortLf_of_descending (lf : letterFrequency) (h : Descending lf.c lf.sortIdx) :
    (sortLf lf).sortIdx = lf.sortIdx := by
  rw [sortLf_sortIdx]
  exact foldl_inner_of_descending lf.c outerIndices lf.sortIdx h

/-! ## Tracing `sortLf` on a given table -/

lemma sorted_split (l : List Byte) (hl : l.Pairwise (· < ·)) {a : Byte} (ha : a ∈ l) :
    l = l.filter (fun j => j < a) ++ a :: l.filter (fun j => a < j) := by
  induction l with
  | nil => cases ha
  | cons x xs ih =>
    rw [List.pairwise_cons] at hl
    rcases List.mem_cons.mp ha with rfl | hmem
    · have h1 : xs.filter (fun j => j < a) = [] :=
        List.filter_eq_nil_iff.mpr (fun j hj => by simpa using le_of_lt (hl.1 j hj))
      have h2 : xs.filter (fun j => a < j) = xs :=
        List.filter_eq_self.mpr (fun j hj => by simpa using hl.1 j hj)
      simp [h1, h2]
    · have hxa : x < a := hl.1 a hmem
      have hax : ¬ a < x := lt_asymm hxa
      rw [List.filter_cons_of_pos (by simpa using hxa),
        List.filter_cons_of_neg (by simpa using hax), List.cons_append]
      exact congrArg _ (ih hl.2 hmem)

lemma innerIndices_split {i a : Byte} (h : i < a) :
    innerIndices i = (innerIndices i).filter (fun j => j < a) ++ a :: innerIndices a := by
  have hs := sorted_split (innerIndices i) ((List.pairwise_lt_finRange 256).filter _)
    (mem_innerIndices.mpr h)
  have hr : (innerIndices i).filter (fun j => a < j) = innerIndices a := by
    unfold innerIndices
    rw [List.filter_filter]
    apply List.filter_congr
    intro j _
    have : a < j → i < j := fun hj => lt_trans h hj
    by_cases hj : a < j
    · simp [hj, this hj]
    · simp [hj]
  rw [hr] at hs
  exact hs

lemma foldl_step_advance (c : Byte → Nat) (i : Byte) (s : Byte → Byte) {a b : Byte}
    (hab : a < b) (hskip : ∀ j : Byte, a < j → j < b → c (s j) ≤ c (s i)) :
    (innerIndices a).foldl (sortLf_step c i) s =
      (innerIndices b).foldl (sortLf_step c i) (sortLf_step c i s b) := by
  rw [innerIndices_split hab, List.foldl_append, List.foldl_cons]
  rw [foldl_step_skip c i _ s]
  intro j hj
  rw [List.mem_filter] at hj
  exact hskip j (mem_innerIndices.mp hj.1) (by simpa using hj.2)

lemma foldl_step_finish (c : Byte → Nat) (i : Byte) (s : Byte → Byte) {a : Byte}
    (hskip : ∀ j : Byte, a < j → c (s j) ≤ c (s i)) :
    (innerIndices a).foldl (sortLf_step c i) s = s :=
  foldl_step_skip c i _ s (fun j hj => hskip j (mem_innerIndices.mp hj))

lemma sortLf_inner_other (c : Byte → Nat) (s : Byte → Byte) {i k : Byte} (hk : k < i) :
    sortLf_inner c s i k = s k :=
  foldl_step_other c i (innerIndices i) s (ne_of_lt hk)
    (fun h => lt_asymm hk (mem_innerIndices.mp h))

lemma foldl_inner_other (c : Byte → Nat) (is : List Byte) (s : Byte → Byte) {k : Byte}
    (h : ∀ i ∈ is, k < i) : is.foldl (sortLf_inner c) s k = s k := by
  induction is generalizing s with
  | nil => rfl
  | cons i rest ih =>
    rw [List.foldl_cons, ih _ (fun x hx => h x (List.mem_cons_of_mem _ hx))]
    exact sortLf_inner_other c s (h i (List.mem_cons_self _ _))

/-! ## The table of the book `abcc` -/

lemma slot_abc : slot cLocale 97 = 65 ∧ slot cLocale 98 = 66 ∧ slot cLocale 99 = 67 := by
  decide

/-- The table of the book `abcc` is the one `step10_calcBookFrequency` computes from the bytes
`a`, `b`, `c`, `c` under the `"C"` locale. -/
lemma tableABCC_eq :
    (step10_calcBookFrequency cLocale (some [97, 98, 99, 99]) (lfInit, lfInit)).1.1 = tableABCC := by
  rw [step10_book_table]
  have hc : ∀ b : Byte, (List.foldl (tally cLocale) lfInit [97, 98, 99, 99]).c b
      = tableABCC.c b := by
    intro b
    rw [isCounter_fresh (isCounter_c cLocale b) rfl _ (by unfold ULL; norm_num)]
    simp only [List.countP_cons, List.countP_nil, slot_abc.1, slot_abc.2.1, slot_abc.2.2]
    show _ = if b = 65 then 1 else if b = 66 then 1 else if b = 67 then 2 else 0
    by_cases h1 : b = 65
    · subst h1; decide
    · by_cases h2 : b = 66
      · subst h2; decide
      · by_cases h3 : b = 67
        · subst h3; decide
        · have e1 : ((65 : Byte) == b) = false := by simpa using fun h => h1 h.symm
          have e2 : ((66 : Byte) == b) = false := by simpa using fun h => h2 h.symm
          have e3 : ((67 : Byte) == b) = false := by simpa using fun h => h3 h.symm
          simp [h1, h2, h3, e1, e2, e3]
  apply letterFrequency.ext
  · exact funext hc
  · rfl
  · decide
  · decide
  · decide
  · decide
  · decide
  · rfl

set_option maxRecDepth 100000 in
/-- Pass `i = 0` on the table of `abcc`: `A` and then `C` are exchanged into position 0. -/
lemma tableABCC_pass0 :
    sortLf_inner tableABCC.c (fun i => i) 0 = swapIdx (swapIdx (fun i => i) 0 65) 0 67 := by
  unfold sortLf_inner
  rw [foldl_step_advance tableABCC.c 0 _ (show (0 : Byte) < 65 by decide) (by decide)]
  have h1 : sortLf_step tableABCC.c 0 (fun i => i) 65 = swapIdx (fun i => i) 0 65 :=
    if_pos (by decide)
  rw [h1, foldl_step_advance tableABCC.c 0 _ (show (65 : Byte) < 66 by decide) (by decide)]
  have h2 : sortLf_step tableABCC.c 0 (swapIdx (fun i => i) 0 65) 66 = swapIdx (fun i => i) 0 65 :=
    if_neg (by decide)
  rw [h2, foldl_step_advance tableABCC.c 0 _ (show (66 : Byte) < 67 by decide) (by decide)]
  have h3 : sortLf_step tableABCC.c 0 (swapIdx (fun i => i) 0 65) 67
      = swapIdx (swapIdx (fun i => i) 0 65) 0 67 := if_pos (by decide)
  rw [h3, foldl_step_finish tableABCC.c 0 _ (a := 67) (by decide)]

set_option maxRecDepth 100000 in
/-- Pass `i = 1` on the table of `abcc`: `B` is exchanged into position 1, and `A`, now at
position 67, does not displace it because the counts are equal. -/
lemma tableABCC_pass1 :
    sortLf_inner tableABCC.c (swapIdx (swapIdx (fun i => i) 0 65) 0 67) 1 =
      swapIdx (swapIdx (swapIdx (fun i => i) 0 65) 0 67) 1 66 := by
  unfold sortLf_inner
  rw [foldl_step_advance tableABCC.c 1 _ (show (1 : Byte) < 66 by decide) (by decide)]
  have h1 : sortLf_step tableABCC.c 1 (swapIdx (swapIdx (fun i => i) 0 65) 0 67) 66
      = swapIdx (swapIdx (swapIdx (fun i => i) 0 65) 0 67) 1 66 := if_pos (by decide)
  rw [h1, foldl_step_advance tableABCC.c 1 _ (show (66 : Byte) < 67 by decide) (by decide)]
  have h2 : sortLf_step tableABCC.c 1 (swapIdx (swapIdx (swapIdx (fun i => i) 0 65) 0 67) 1 66) 67
      = swapIdx (swapIdx (swapIdx (fun i => i) 0 65) 0 67) 1 66 := if_neg (by decide)
  rw [h2, foldl_step_finish tableABCC.c 1 _ (a := 67) (by decide)]

set_option maxRecDepth 100000 in
/-- Pass `i = 2` on the table of `abcc`: `A` is exchanged into position 2. -/
lemma tableABCC_pass2 :
    sortLf_inner tableABCC.c (swapIdx (swapIdx (swapIdx (fun i => i) 0 65) 0 67) 1 66) 2 =
      swapIdx (swapIdx (swapIdx (swapIdx (fun i => i) 0 65) 0 67) 1 66) 2 67 := by
  unfold sortLf_inner
  rw [foldl_step_advance tableABCC.c 2 _ (show (2 : Byte) < 67 by decide) (by decide)]
  have h1 : sortLf_step tableABCC.c 2 (swapIdx (swapIdx (swapIdx (fun i => i) 0 65) 0 67) 1 66) 67
      = swapIdx (swapIdx (swapIdx (swapIdx (fun i => i) 0 65) 0 67) 1 66) 2 67 :=
    if_pos (by decide)
  rw [h1, foldl_step_finish tableABCC.c 2 _ (a := 67) (by decide)]

set_option maxRecDepth 100000 in
lemma outerIndices_split3 :
    outerIndices = 0 :: 1 :: 2 :: outerIndices.filter (fun i => 2 < i) := by
  decide

/-- After `sortLf` the table of `abcc` starts with `C`, `B`, `A`. -/
lemma tableABCC_sorted (k : Byte) (hk : k ≤ 2) :
    (sortLf tableABCC).sortIdx k =
      swapIdx (swapIdx (swapIdx (swapIdx (fun i => i) 0 65) 0 67) 1 66) 2 67 k := by
  have hid : tableABCC.sortIdx = fun i => i := rfl
  rw [sortLf_sortIdx, outerIndices_split3, hid, List.foldl_cons, List.foldl_cons,
    List.foldl_cons, tableABCC_pass0, tableABCC_pass1, tableABCC_pass2]
  apply foldl_inner_other
  intro i hi
  rw [List.mem_filter] at hi
  exact lt_of_le_of_lt hk (by simpa using hi.2)

lemma topTies_id (c : Byte → Nat) : TopTiesAscending c (fun i => i) :=
  fun _ _ _ _ hpq => hpq

/-- C6 (as stated, refuted): on the table of the book `abcc`, whose `sortIdx` starts as the
identity, `A` (65) and `B` (66) have the same count 1, yet after `sortLf` the array starts
`C, B, A`: `B` is at position 1 and `A` at position 2. -/
theorem C6_equal_counts_reversed :
    ¬ ∀ a b p q : Byte, tableABCC.c a = tableABCC.c b → a < b →
      (sortLf tableABCC).sortIdx p = a → (sortLf tableABCC).sortIdx q = b → p < q := by
  intro h
  have h1 : (sortLf tableABCC).sortIdx 1 = 66 := by
    rw [tableABCC_sorted 1 (by decide)]; decide
  have h2 : (sortLf tableABCC).sortIdx 2 = 65 := by
    rw [tableABCC_sorted 2 (by decide)]; decide
  exact absurd (h 65 66 2 1 (by decide) (by decide) h2 h1) (by decide)

/-- C6 (amended): for every table whose `sortIdx` starts as the identity, after `sortLf` two
byte values that share the highest count of the table are in ascending byte order: if
`c[a] = c[b]`, `a < b` and no byte has a larger count, then `a` precedes `b` in `sortIdx`. -/
theorem C6_top_ties_ascending (lf : letterFrequency) (hid : ∀ i : Byte, lf.sortIdx i = i)
    (a b p q : Byte) (hc : lf.c a = lf.c b) (hab : a < b) (htop : ∀ x : Byte, lf.c x ≤ lf.c a)
    (hp : (sortLf lf).sortIdx p = a) (hq : (sortLf lf).sortIdx q = b) : p < q := by
  have h0 : TopTiesAscending lf.c lf.sortIdx := by
    rw [show lf.sortIdx = fun i => i from funext hid]
    exact topTies_id lf.c
  have hT := sortLf_topTies lf h0
  rcases lt_trichotomy p q with hlt | heq | hgt
  · exact hlt
  · subst heq
    rw [hp] at hq
    exact absurd hq (ne_of_lt hab)
  · have := hT q p (by rw [hq, ← hc]; exact htop) (by rw [hp, hq, hc]) hgt
    rw [hp, hq] at this
    exact absurd this (lt_asymm hab)

/-! ## The table of the book `aabbc` -/

/-- The table of the book `aabbc` is the one `step10_calcBookFrequency` computes from the bytes
`a`, `a`, `b`, `b`, `c` under the `"C"` locale. -/
lemma tableAABBC_eq :
    (step10_calcBookFrequency cLocale (some [97, 97, 98, 98, 99]) (lfInit, lfInit)).1.1 =
      tableAABBC := by
  rw [step10_book_table]
  have hc : ∀ b : Byte, (List.foldl (tally cLocale) lfInit [97, 97, 98, 98, 99]).c b
      = tableAABBC.c b := by
    intro b
    rw [isCounter_fresh (isCounter_c cLocale b) rfl _ (by unfold ULL; norm_num)]
    simp only [List.countP_cons, List.countP_nil, slot_abc.1, slot_abc.2.1, slot_abc.2.2]
    show _ = if b = 65 then 2 else if b = 66 then 2 else if b = 67 then 1 else 0
    by_cases h1 : b = 65
    · subst h1; decide
    · by_cases h2 : b = 66
      · subst h2; decide
      · by_cases h3 : b = 67
        · subst h3; decide
        · have e1 : ((65 : Byte) == b) = false := by simpa using fun h => h1 h.symm
          have e2 : ((66 : Byte) == b) = false := by simpa using fun h => h2 h.symm
          have e3 : ((67 : Byte) == b) = false := by simpa using fun h => h3 h.symm
          simp [h1, h2, h3, e1, e2, e3]
  apply letterFrequency.ext
  · exact funext hc
  · rfl
  · decide
  · decide
  · decide
  · decide
  · decide
  · rfl

set_option maxRecDepth 100000 in
/-- Pass `i = 0` on the table of `aabbc`: `A` is exchanged into position 0, and `B`, with the
same count, does not displace it. -/
lemma tableAABBC_pass0 :
    sortLf_inner tableAABBC.c (fun i => i) 0 = swapIdx (fun i => i) 0 65 := by
  unfold sortLf_inner
  rw [foldl_step_advance tableAABBC.c 0 _ (show (0 : Byte) < 65 by decide) (by decide)]
  have h1 : sortLf_step tableAABBC.c 0 (fun i => i) 65 = swapIdx (fun i => i) 0 65 :=
    if_pos (by decide)
  rw [h1, foldl_step_finish tableAABBC.c 0 _ (a := 65) (by decide)]

set_option maxRecDepth 100000 in
/-- Pass `i = 1` on the table of `aabbc`: `B` is exchanged into position 1. -/
lemma tableAABBC_pass1 :
    sortLf_inner tableAABBC.c (swapIdx (fun i => i) 0 65) 1 =
      swapIdx (swapIdx (fun i => i) 0 65) 1 66 := by
  unfold sortLf_inner
  rw [foldl_step_advance tableAABBC.c 1 _ (show (1 : Byte) < 66 by decide) (by decide)]
  have h1 : sortLf_step tableAABBC.c 1 (swapIdx (fun i => i) 0 65) 66
      = swapIdx (swapIdx (fun i => i) 0 65) 1 66 := if_pos (by decide)
  rw [h1, foldl_step_finish tableAABBC.c 1 _ (a := 66) (by decide)]

set_option maxRecDepth 100000 in
lemma outerIndices_split2 :
    outerIndices = 0 :: 1 :: outerIndices.filter (fun i => 1 < i) := by
  decide

/-- After `sortLf` the table of `aabbc` starts with `A`, `B`. -/
lemma tableAABBC_sorted (k : Byte) (hk : k ≤ 1) :
    (sortLf tableAABBC).sortIdx k = swapIdx (swapIdx (fun i => i) 0 65) 1 66 k := by
  have hid : tableAABBC.sortIdx = fun i => i := rfl
  rw [sortLf_sortIdx, outerIndices_split2, hid, List.foldl_cons, List.foldl_cons,
    tableAABBC_pass0, tableAABBC_pass1]
  apply foldl_inner_other
  intro i hi
  rw [List.mem_filter] at hi
  exact lt_of_le_of_lt hk (by simpa using hi.2)

lemma tableAABBC_top (x : Byte) : tableAABBC.c x ≤ tableAABBC.c 65 := by
  show (if x = 65 then 2 else if x = 66 then 2 else if x = 67 then 1 else 0) ≤ 2
  split_ifs <;> omega

/-- Instance of the amended C6: in the table of the book `aabbc` the bytes `A` and `B` share
the highest count 2. `sortLf` exchanges `A` into position 0 and `B` into position 1, so `A`
precedes `B`. -/
theorem C6_top_ties_ascending_witness :
    (∀ i : Byte, tableAABBC.sortIdx i = i) ∧ tableAABBC.c 65 = tableAABBC.c 66 ∧
    (65 : Byte) < 66 ∧ (∀ x : Byte, tableAABBC.c x ≤ tableAABBC.c 65) ∧
    (sortLf tableAABBC).sortIdx 0 = 65 ∧ (sortLf tableAABBC).sortIdx 1 = 66 ∧ (0 : Byte) < 1 :=
  have h0 : (sortLf tableAABBC).sortIdx 0 = 65 := by
    rw [tableAABBC_sorted 0 (by decide)]; decide
  have h1 : (sortLf tableAABBC).sortIdx 1 = 66 := by
    rw [tableAABBC_sorted 1 (by decide)]; decide
  ⟨fun _ => rfl, rfl, by decide, tableAABBC_top, h0, h1,
    C6_top_ties_ascending tableAABBC (fun _ => rfl) 65 66 0 1 rfl (by decide)
      tableAABBC_top h0 h1⟩

/-! ## The `printf` conversions -/

lemma roundHalfEven_nonneg {x : ℚ} (hx : 0 ≤ x) : 0 ≤ roundHalfEven x := by
  have h0 : 0 ≤ ⌊x⌋ := Int.floor_nonneg.mpr hx
  unfold roundHalfEven
  split_ifs <;> omega

lemma roundHalfEven_lt {x : ℚ} {N : Int} (hx : x < N - 1 / 2) : roundHalfEven x < N := by
  have h1 : (⌊x⌋ : ℚ) ≤ x := Int.floor_le x
  have h2 : ⌊x⌋ < N := by
    have : (⌊x⌋ : ℚ) < N := by linarith
    exact_mod_cast this
  unfold roundHalfEven
  split_ifs with ha hb hc
  · exact h2
  · have : (⌊x⌋ : ℚ) + 1 < N := by linarith
    exact_mod_cast this
  · exact h2
  · have hfrac : x - ⌊x⌋ = 1 / 2 := le_antisymm (not_lt.mp hb) (not_lt.mp ha)
    have : (⌊x⌋ : ℚ) + 1 < N := by linarith
    exact_mod_cast this

lemma roundHalfEven_intCast (n : Int) : roundHalfEven (n : ℚ) = n := by
  unfold roundHalfEven
  simp

lemma decimal_length_le {n k : Nat} (hk : 0 < k) (hn : n < 10 ^ k) : (decimal n).length ≤ k := by
  unfold decimal
  split
  · simpa using hk
  · rename_i hne
    have h1 := Nat.base_pow_length_digits_le 10 n (by norm_num) hne
    have h2 : 10 ^ (Nat.digits 10 n).length < 10 ^ (k + 1) := by
      rw [pow_succ]; omega
    have h3 := (Nat.pow_lt_pow_iff_right (by norm_num : 1 < 10)).mp h2
    simp only [List.length_map, List.length_reverse]
    omega

lemma printf_4_1lf_length_le {x : ℚ} {k : Nat} (hx : 0 ≤ x) (hk : 0 < k)
    (hlt : x < 10 ^ k - 1 / 20) : (printf_4_1lf x).length ≤ max 4 (k + 2) := by
  have habs : |x| = x := abs_of_nonneg hx
  have hr : roundHalfEven (x * 10) < ((10 ^ (k + 1) : Nat) : Int) := by
    apply roundHalfEven_lt
    push_cast
    rw [pow_succ]
    linarith
  have hr0 : 0 ≤ roundHalfEven (x * 10) := roundHalfEven_nonneg (by positivity)
  have ht : (roundHalfEven (x * 10)).toNat < 10 ^ (k + 1) := by omega
  have hq : (roundHalfEven (x * 10)).toNat / 10 < 10 ^ k := by
    rw [Nat.div_lt_iff_lt_mul (by norm_num)]
    rw [pow_succ] at ht
    exact ht
  have hdec := decimal_length_le hk hq
  unfold printf_4_1lf
  rw [habs]
  simp only [if_neg (not_lt.mpr hx), List.nil_append, List.length_append, List.length_replicate,
    List.length_cons, List.length_nil]
  omega

/-! ## The shape of a rendered bar -/

lemma snprintf_20 (out : List Char) :
    snprintf (13 + BARCHART_LEN_PERCENT_NULL) out = out.take 19 := rfl

lemma barChart_cells_overflow {v : ℚ} (h : 160 / 13 < v) :
    barChart_cells 13 12 v = (12, ['*']) := by
  unfold barChart_cells
  rw [if_pos (by norm_num; linarith)]
  norm_num

lemma truncToInt_of_nonneg {x : ℚ} (hx : 0 ≤ x) : truncToInt x = ⌊x⌋ := if_pos hx

/-- Below the overflow threshold the filled cells are `⌊value / saturat * maxLen⌋`, at most 13,
followed by a glyph of at most one character that is empty when all 13 cells are filled. -/
lemma barChart_cells_below {v : ℚ} (h0 : 0 ≤ v) (h : v ≤ 160 / 13) :
    ∃ g : List Char, barChart_cells 13 12 v = (⌊v / 12 * 13⌋, g) ∧
      (g = [] ∨ g = ['.'] ∨ g = [':']) ∧ (⌊v / 12 * 13⌋ = 13 → g = []) ∧
      0 ≤ ⌊v / 12 * 13⌋ ∧ ⌊v / 12 * 13⌋ ≤ 13 := by
  have hn0 : 0 ≤ ⌊v / 12 * 13⌋ := Int.floor_nonneg.mpr (by positivity)
  have hn13 : ⌊v / 12 * 13⌋ ≤ 13 := by
    have : ⌊v / 12 * 13⌋ < 14 := Int.floor_lt.mpr (by push_cast; linarith)
    omega
  have hfl : (⌊v / 12 * 13⌋ : ℚ) ≤ v / 12 * 13 := Int.floor_le _
  have htr : truncToInt (v / 12 * 13) = ⌊v / 12 * 13⌋ := truncToInt_of_nonneg (by positivity)
  unfold barChart_cells
  simp only [Int.cast_ofNat, htr]
  rw [if_neg (by norm_num; linarith)]
  split_ifs with h1 h2
  · exact ⟨[], rfl, Or.inl rfl, fun _ => rfl, hn0, hn13⟩
  · refine ⟨['.'], rfl, Or.inr (Or.inl rfl), fun h13 => ?_, hn0, hn13⟩
    exfalso
    apply h1
    rw [h13]
    norm_num
    linarith
  · refine ⟨[':'], rfl, Or.inr (Or.inr rfl), fun h13 => ?_, hn0, hn13⟩
    exfalso
    apply h1
    rw [h13]
    norm_num
    linarith

lemma take_x (n : Nat) (hn : n ≤ 150) : barChart_xStr.take n = List.replicate n 'x' := by
  unfold barChart_xStr
  rw [List.take_replicate, Nat.min_eq_left hn]

lemma take_blank (n : Nat) (hn : n ≤ 150) : barChart_xSpc.take n = List.replicate n ' ' := by
  unfold barChart_xSpc
  rw [List.take_replicate, Nat.min_eq_left hn]

/-- The bar of `n ≤ 13` filled cells and a glyph `g` that fits: `n` times `x`, the glyph, and
blanks up to 13 characters. -/
lemma barChart_bar_fits {n : Int} {g : List Char} (hn0 : 0 ≤ n) (hfit : n + g.length ≤ 13) :
    barChart_bar 13 (n, g) =
      List.replicate n.toNat 'x' ++ (g ++ List.replicate (13 - n.toNat - g.length) ' ') := by
  unfold barChart_bar printf_prec_s
  simp only
  rw [if_neg (by omega), if_neg (by omega), take_x _ (by omega), take_blank _ (by omega)]
  have : (13 - n - (g.length : Int)).toNat = 13 - n.toNat - g.length := by omega
  rw [this, List.append_assoc]

lemma roundHalfEven_eq_of {x : ℚ} {n : Int} (h1 : (n : ℚ) - 1 / 2 < x) (h2 : x < n + 1 / 2) :
    roundHalfEven x = n := by
  have hf1 : (⌊x⌋ : ℚ) ≤ x := Int.floor_le x
  have hf2 : x < ⌊x⌋ + 1 := Int.lt_floor_add_one x
  unfold roundHalfEven
  split_ifs with ha hb hc
  · have a1 : (⌊x⌋ : ℚ) < n + 1 := by linarith
    have a2 : (n : ℚ) < ⌊x⌋ + 1 := by linarith
    have a1' : ⌊x⌋ < n + 1 := by exact_mod_cast a1
    have a2' : n < ⌊x⌋ + 1 := by exact_mod_cast a2
    omega
  · have a1 : (⌊x⌋ : ℚ) < n := by linarith
    have a2 : (n : ℚ) < ⌊x⌋ + 2 := by linarith
    have a1' : ⌊x⌋ < n := by exact_mod_cast a1
    have a2' : n < ⌊x⌋ + 2 := by exact_mod_cast a2
    omega
  · have hfrac : x - ⌊x⌋ = 1 / 2 := le_antisymm (not_lt.mp hb) (not_lt.mp ha)
    have a1 : (⌊x⌋ : ℚ) < n := by linarith
    have a2 : (n : ℚ) < ⌊x⌋ + 1 := by linarith
    have a1' : ⌊x⌋ < n := by exact_mod_cast a1
    have a2' : n < ⌊x⌋ + 1 := by exact_mod_cast a2
    omega
  · have hfrac : x - ⌊x⌋ = 1 / 2 := le_antisymm (not_lt.mp hb) (not_lt.mp ha)
    have a1 : (⌊x⌋ : ℚ) < n := by linarith
    have a2 : (n : ℚ) < ⌊x⌋ + 1 := by linarith
    have a1' : ⌊x⌋ < n := by exact_mod_cast a1
    have a2' : n < ⌊x⌋ + 1 := by exact_mod_cast a2
    omega

/-- The label of a value that is not negative, from its tenths `t`. -/
lemma printf_4_1lf_of_tenths {x : ℚ} (hx : 0 ≤ x) :
    printf_4_1lf x =
      List.replicate (4 - ((decimal ((roundHalfEven (x * 10)).toNat / 10)).length + 2)) ' ' ++
        (decimal ((roundHalfEven (x * 10)).toNat / 10) ++
          ['.', Nat.digitChar ((roundHalfEven (x * 10)).toNat % 10)]) := by
  unfold printf_4_1lf
  rw [abs_of_nonneg hx]
  simp only [if_neg (not_lt.mpr hx), List.nil_append, List.length_append, List.length_cons,
    List.length_nil]

lemma printf_4_1lf_eval {x : ℚ} (t : Nat) (hx : 0 ≤ x) (h1 : (t : ℚ) - 1 / 2 < x * 10)
    (h2 : x * 10 < t + 1 / 2) :
    printf_4_1lf x =
      List.replicate (4 - ((decimal (t / 10)).length + 2)) ' ' ++
        (decimal (t / 10) ++ ['.', Nat.digitChar (t % 10)]) := by
  have hr : roundHalfEven (x * 10) = (t : Int) :=
    roundHalfEven_eq_of (by push_cast; exact h1) (by push_cast; exact h2)
  rw [printf_4_1lf_of_tenths hx, hr, Int.toNat_ofNat]

lemma barChart_overflow {v : ℚ} (h : 160 / 13 < v) :
    (barChart 13 12 v).data =
      (printf_4_1lf v ++ ['%', ' '] ++ (List.replicate 12 'x' ++ ['*'])).take 19 := by
  have hv : v ≠ 0 := by intro h'; rw [h'] at h; norm_num at h
  unfold barChart
  rw [if_neg hv, barChart_cells_overflow h,
    barChart_bar_fits (n := 12) (g := ['*']) (by norm_num) (by norm_num), snprintf_20]
  rfl

lemma barChart_zero : (barChart 13 12 0).data = List.replicate 19 ' ' := by
  have hcells : barChart_cells 13 12 0 = (0, []) := by
    unfold barChart_cells truncToInt
    norm_num
  unfold barChart
  rw [if_pos rfl, hcells, barChart_bar_fits (n := 0) (g := []) (by norm_num) (by norm_num),
    snprintf_20]
  decide

lemma printf_100 : printf_4_1lf 100 = ['1', '0', '0', '.', '0'] := by
  rw [printf_4_1lf_eval 1000 (by norm_num) (by norm_num) (by norm_num)]
  have : decimal (1000 / 10) = ['1', '0', '0'] := by
    norm_num [decimal]; decide
  rw [this]; decide

lemma printf_two_thirds : printf_4_1lf (100 * 10 / 15) = ['6', '6', '.', '7'] := by
  rw [printf_4_1lf_eval 667 (by norm_num) (by norm_num) (by norm_num)]
  have : decimal (667 / 10) = ['6', '6'] := by
    norm_num [decimal]; decide
  rw [this]; decide

lemma string_eq_of_data {s t : String} (h : s.data = t.data) : s = t := by
  cases s; cases t; simp_all

lemma printf_4_1lf_length_ge (x : ℚ) : 4 ≤ (printf_4_1lf x).length := by
  unfold printf_4_1lf
  simp only [List.length_append, List.length_replicate]
  omega

/-- Above the overflow threshold and below 99.95 the label has six characters and the bar is
the label, twelve `x` and the marker `*`. -/
lemma barChart_overflow_marker {v : ℚ} (h : 160 / 13 < v) (hlt : v < 100 - 1 / 20) :
    (barChart 13 12 v).data =
      printf_4_1lf v ++ ['%', ' '] ++ (List.replicate 12 'x' ++ ['*']) := by
  have hle := printf_4_1lf_length_le (k := 2) (by linarith : (0 : ℚ) ≤ v) (by norm_num)
    (by norm_num; linarith)
  have hge := printf_4_1lf_length_ge v
  have hmax : max 4 (2 + 2) = 4 := rfl
  rw [hmax] at hle
  rw [barChart_overflow h]
  apply List.take_of_length_le
  simp only [List.length_append, List.length_cons, List.length_nil, List.length_replicate]
  omega

/-! ## Claims on the bar chart -/

/-- C8 (failing input): a letter that makes up 100 % of the alphabetic bytes. Its label
`100.0% ` has seven characters, one more than the `strlen("00.0% ")` the buffer is sized for,
so the 19 characters that `snprintf` stores end with the twelfth `x` and the overflow marker
`*` is cut off. For the counts 10 and 5 of 15 the label has six characters and the bar is the
label `66.7% `, twelve `x` and the marker. -/
theorem C8_overflow_marker_cut_at_100 :
    barChart 13 12 100 = "100.0% xxxxxxxxxxxx" ∧
      barChart 13 12 (100 * 10 / 15) = "66.7% xxxxxxxxxxxx*" := by
  constructor
  · apply string_eq_of_data
    rw [barChart_overflow (by norm_num), printf_100]
    decide
  · apply string_eq_of_data
    rw [barChart_overflow (by norm_num), printf_two_thirds]
    decide

lemma printf_ten_pow_18 :
    printf_4_1lf (10 ^ 18) = "1000000000000000000.0".data := by
  rw [printf_4_1lf_eval (10 ^ 19) (by norm_num) (by norm_num) (by norm_num)]
  have : decimal (10 ^ 19 / 10) = "1000000000000000000".data := by
    norm_num [decimal]; decide
  rw [this]; decide

/-- C10 (as stated, refuted): for the value `10 ^ 18` the label alone has 21 characters; the 19
characters that `snprintf` stores are digits of the integer part, without decimal point, `%`
or blank. -/
theorem C10_label_cut_for_huge_value :
    (0 : ℚ) < 10 ^ 18 ∧ barChart 13 12 (10 ^ 18) = "1000000000000000000" ∧
      '%' ∉ (barChart 13 12 (10 ^ 18)).data := by
  have h : barChart 13 12 (10 ^ 18) = "1000000000000000000" := by
    apply string_eq_of_data
    rw [barChart_overflow (by norm_num), printf_ten_pow_18]
    decide
  refine ⟨by norm_num, h, ?_⟩
  rw [h]
  decide

/-- C10 (amended): `barChart` of the value 0 is 19 blanks, without label; for every value
`0 < v < 10 ^ 15 - 0.05`, whose label fits the 19 characters that `snprintf` stores, the string
starts with the value rounded to tenths, `n.d`, right-justified in four characters with one
digit `d` after the decimal point, followed by `%` and a blank. -/
theorem C10_percentage_label (v : ℚ) (h0 : 0 < v) (hlt : v < 10 ^ 15 - 1 / 20) :
    (barChart 13 12 0).data = List.replicate 19 ' ' ∧
      ∃ (n d : Nat) (rest : List Char), d < 10 ∧
        ((n * 10 + d : Nat) : Int) = roundHalfEven (v * 10) ∧
        (barChart 13 12 v).data =
          List.replicate (4 - ((decimal n).length + 2)) ' ' ++
            (decimal n ++ ['.', Nat.digitChar d]) ++ ['%', ' '] ++ rest := by
  refine ⟨barChart_zero, ?_⟩
  have hv : v ≠ 0 := ne_of_gt h0
  have hr0 : 0 ≤ roundHalfEven (v * 10) := roundHalfEven_nonneg (by positivity)
  have hlen := printf_4_1lf_length_le (k := 15) (le_of_lt h0) (by norm_num) hlt
  have hmax : max 4 (15 + 2) = 17 := rfl
  rw [hmax] at hlen
  refine ⟨(roundHalfEven (v * 10)).toNat / 10, (roundHalfEven (v * 10)).toNat % 10,
    (barChart_bar 13 (barChart_cells 13 12 v)).take (19 - (printf_4_1lf v ++ ['%', ' ']).length),
    Nat.mod_lt _ (by norm_num), ?_, ?_⟩
  · rw [Nat.div_add_mod']
    exact Int.toNat_of_nonneg hr0
  · rw [← printf_4_1lf_of_tenths (le_of_lt h0)]
    unfold barChart
    rw [if_neg hv, snprintf_20]
    show List.take 19 (printf_4_1lf v ++ ['%', ' '] ++ _) = _
    rw [List.take_append_eq_append_take, List.take_of_length_le (by simp; omega)]

/-- Instance of the amended C10: the value 5. -/
theorem C10_percentage_label_witness :
    (0 : ℚ) < 5 ∧ (5 : ℚ) < 10 ^ 15 - 1 / 20 ∧
      ∃ (n d : Nat) (rest : List Char), d < 10 ∧
        ((n * 10 + d : Nat) : Int) = roundHalfEven (5 * 10) ∧
        (barChart 13 12 5).data =
          List.replicate (4 - ((decimal n).length + 2)) ' ' ++
            (decimal n ++ ['.', Nat.digitChar d]) ++ ['%', ' '] ++ rest :=
  ⟨by norm_num, by norm_num, (C10_percentage_label 5 (by norm_num) (by norm_num)).2⟩

/-! ## Typing speed -/

lemma getLetterSpeed_eq (L : CType) (c : Int) (method : Fin 3) :
    getLetterSpeed L c method =
      if regularMember L method c then (typingMethod method).regularPosition.typeSpeed
      else (typingMethod method).unregularPosition.typeSpeed := by
  unfold getLetterSpeed regularMember
  by_cases h : ∃ x ∈ (typingMethod method).regularPosition.letter, L.toupper c = toupper1250 L x
  · rw [if_pos h, if_pos]
    simpa [List.any_eq_true] using h
  · rw [if_neg h, if_neg]
    simpa [List.any_eq_true] using h

lemma foldl_add_eq_sum {n : Nat} (f : Fin n → ℚ) :
    (List.finRange n).foldl (fun acc i => acc + f i) 0 = ∑ i : Fin n, f i := by
  have h : ∀ (l : List (Fin n)) (a : ℚ),
      l.foldl (fun acc i => acc + f i) a = a + (l.map f).sum := by
    intro l
    induction l with
    | nil => intro a; simp
    | cons x xs ih => intro a; rw [List.foldl_cons, ih]; simp [add_assoc]
  rw [h, zero_add, ← List.ofFn_eq_map, List.sum_ofFn]

lemma step20_seconds (L : CType) (lf : letterFrequency) (method : Fin 3) :
    ((step20_calcTypingSpeed L lf).typingMethod method).typingSecondForBook =
      ∑ b : Byte, getLetterSpeed L (toChar (b.val : Int)) method * (lf.c b : ℚ) := by
  have h := foldl_add_eq_sum (n := 256)
    (fun i => getLetterSpeed L (toChar (i.val : Int)) method * (lf.c i : ℚ))
  simp only [step20_calcTypingSpeed]
  exact h

lemma typingMethod_speeds_pos (method : Fin 3) :
    0 < (typingMethod method).regularPosition.typeSpeed ∧
      0 < (typingMethod method).unregularPosition.typeSpeed := by
  fin_cases method <;>
    simp [typingMethod, TYPINGSPEED_REGULARPOS, TYPINGSPEED_UNREGULARPOS, TYPINGSPEED_MOUSE]

lemma getLetterSpeed_pos (L : CType) (c : Int) (method : Fin 3) :
    0 < getLetterSpeed L c method := by
  unfold getLetterSpeed
  split
  · exact (typingMethod_speeds_pos method).1
  · exact (typingMethod_speeds_pos method).2

lemma step20_seconds_eq_zero_iff (L : CType) (lf : letterFrequency) (method : Fin 3) :
    ((step20_calcTypingSpeed L lf).typingMethod method).typingSecondForBook = 0 ↔
      ∀ b : Byte, lf.c b = 0 := by
  rw [step20_seconds, Finset.sum_eq_zero_iff_of_nonneg
    (fun b _ => mul_nonneg (le_of_lt (getLetterSpeed_pos L _ method)) (Nat.cast_nonneg _))]
  constructor
  · intro h b
    have := h b (Finset.mem_univ b)
    rcases mul_eq_zero.mp this with h1 | h2
    · exact absurd h1 (ne_of_gt (getLetterSpeed_pos L _ method))
    · exact_mod_cast h2
  · intro h b _
    rw [h b]; simp

/-- C11: for every table and every configured method, the `typingSecondForBook` that
`step20_calcTypingSpeed` stores is the sum over the 256 slots `b` of `c[b]` times the method's
regular-position speed when `getLetterSpeed` finds `b` in the method's regular-position letters
and its unregular-position speed otherwise. -/
theorem C11_typingSecondForBook_is_weighted_sum (L : CType) (lf : letterFrequency)
    (method : Fin 3) :
    ((step20_calcTypingSpeed L lf).typingMethod method).typingSecondForBook =
      ∑ b : Byte, (lf.c b : ℚ) *
        (if regularMember L method (toChar (b.val : Int))
          then (typingMethod method).regularPosition.typeSpeed
          else (typingMethod method).unregularPosition.typeSpeed) := by
  rw [step20_seconds]
  apply Finset.sum_congr rfl
  intro b _
  rw [getLetterSpeed_eq, mul_comm]

lemma tableBlank_totalLetters : tableBlank.totalLetters = 0 := rfl

/-- The table of the one-blank book is the one `step10_calcBookFrequency` computes under the
`"C"` locale. -/
lemma tableBlank_eq :
    (step10_calcBookFrequency cLocale (some [32]) (lfInit, lfInit)).1.1 = tableBlank := by
  apply letterFrequency.ext
  · funext b
    show Function.update (fun _ => 0) (slot cLocale 32) ((0 + 1) % ULL) b = if b = 32 then 1 else 0
    have hs : slot cLocale 32 = 32 := by decide
    rw [hs, Function.update_apply]
    rfl
  · rfl
  · decide
  · decide
  · decide
  · decide
  · decide
  · rfl

/-- C13 (as stated, refuted): the table of a book that consists of one blank has
`totalLetters = 0`, and yet `step20_calcTypingSpeed` computes a positive `typingSecondForBook`
for each of the three methods, because the blank is counted in `c[32]` and charged. -/
theorem C13_blank_book_costs_time :
    (step10_calcBookFrequency cLocale (some [32]) (lfInit, lfInit)).1.1 = tableBlank ∧
    tableBlank.totalLetters = 0 ∧
      ∀ method : Fin 3,
        ((step20_calcTypingSpeed cLocale tableBlank).typingMethod method).typingSecondForBook
          ≠ 0 := by
  refine ⟨tableBlank_eq, rfl, fun method h => ?_⟩
  have := (step20_seconds_eq_zero_iff cLocale tableBlank method).mp h 32
  exact absurd this (by decide)

/-- C13 (amended): for every table and each of the three configured methods, the
`typingSecondForBook` computed by `step20_calcTypingSpeed` is zero exactly when all 256
counts `c[b]` are zero; whitespace bytes are counted in `c[]` and charged like other bytes. -/
theorem C13_zero_cost_iff_no_bytes (L : CType) (lf : letterFrequency) (method : Fin 3) :
    ((step20_calcTypingSpeed L lf).typingMethod method).typingSecondForBook = 0 ↔
      ∀ b : Byte, lf.c b = 0 :=
  step20_seconds_eq_zero_iff L lf method

/-! ## Business hours -/

lemma step21_swap_seconds (tm : Fin 3 → typingTimeforBook) (i j k : Fin 3) :
    (step21_swap tm i j k).typingSecondForBook = (tm k).typingSecondForBook := by
  unfold step21_swap
  by_cases hj : k = j
  · subst hj; simp
  · by_cases hi : k = i
    · subst hi; simp [Function.update_noteq hj]
    · simp [Function.update_noteq hj, Function.update_noteq hi]

lemma step21_swap_sortIdx (tm : Fin 3 → typingTimeforBook) (i j k : Fin 3) :
    (step21_swap tm i j k).sortIdx =
      if k = j then (tm i).sortIdx else if k = i then (tm j).sortIdx else (tm k).sortIdx := by
  unfold step21_swap
  by_cases hj : k = j
  · subst hj; simp
  · by_cases hi : k = i
    · subst hi; simp [Function.update_noteq hj, hj]
    · simp [Function.update_noteq hj, Function.update_noteq hi, hj, hi]

/-- The index sort of `step21_calcBusinessHours` as three conditional exchanges, each decided
by the `typingSecondForBook` of the methods at the two fixed positions. -/
lemma step21_indexSort_unfold (tm : Fin 3 → typingTimeforBook) :
    step21_indexSort tm =
      (fun tm2 : Fin 3 → typingTimeforBook =>
        if (tm 1).typingSecondForBook < (tm 2).typingSecondForBook then step21_swap tm2 1 2
        else tm2)
      ((fun tm1 : Fin 3 → typingTimeforBook =>
        if (tm 0).typingSecondForBook < (tm 2).typingSecondForBook then step21_swap tm1 0 2
        else tm1)
      ((fun tm0 : Fin 3 → typingTimeforBook =>
        if (tm 0).typingSecondForBook < (tm 1).typingSecondForBook then step21_swap tm0 0 1
        else tm0)
      (fun i => { tm i with sortIdx := (i.val : Int) }))) := by
  unfold step21_indexSort
  simp only [List.foldl_cons, List.foldl_nil]
  by_cases h01 : (tm 0).typingSecondForBook < (tm 1).typingSecondForBook <;>
  by_cases h02 : (tm 0).typingSecondForBook < (tm 2).typingSecondForBook <;>
  by_cases h12 : (tm 1).typingSecondForBook < (tm 2).typingSecondForBook <;>
  simp [h01, h02, h12, step21_swap_seconds]

lemma step21_indexSort_seconds (tm : Fin 3 → typingTimeforBook) (k : Fin 3) :
    (step21_indexSort tm k).typingSecondForBook = (tm k).typingSecondForBook := by
  rw [step21_indexSort_unfold]
  by_cases h01 : (tm 0).typingSecondForBook < (tm 1).typingSecondForBook <;>
  by_cases h02 : (tm 0).typingSecondForBook < (tm 2).typingSecondForBook <;>
  by_cases h12 : (tm 1).typingSecondForBook < (tm 2).typingSecondForBook <;>
  simp [h01, h02, h12, step21_swap_seconds]

/-- The `sortIdx` that the index sort leaves, for each outcome of its three comparisons. -/
lemma step21_indexSort_sortIdx (tm : Fin 3 → typingTimeforBook) :
    (fun k => (step21_indexSort tm k).sortIdx) =
      if (tm 0).typingSecondForBook < (tm 1).typingSecondForBook then
        if (tm 0).typingSecondForBook < (tm 2).typingSecondForBook then
          if (tm 1).typingSecondForBook < (tm 2).typingSecondForBook then ![2, 1, 0]
          else ![2, 0, 1]
        else
          if (tm 1).typingSecondForBook < (tm 2).typingSecondForBook then ![1, 2, 0]
          else ![1, 0, 2]
      else
        if (tm 0).typingSecondForBook < (tm 2).typingSecondForBook then
          if (tm 1).typingSecondForBook < (tm 2).typingSecondForBook then ![2, 0, 1]
          else ![2, 1, 0]
        else
          if (tm 1).typingSecondForBook < (tm 2).typingSecondForBook then ![0, 2, 1]
          else ![0, 1, 2] := by
  rw [step21_indexSort_unfold]
  by_cases h01 : (tm 0).typingSecondForBook < (tm 1).typingSecondForBook <;>
  by_cases h02 : (tm 0).typingSecondForBook < (tm 2).typingSecondForBook <;>
  by_cases h12 : (tm 1).typingSecondForBook < (tm 2).typingSecondForBook <;>
  simp only [h01, h02, h12, if_true, if_false] <;>
  funext k <;> fin_cases k <;> simp [step21_swap_sortIdx]

lemma step21_slowerIdx_unfold (tm : Fin 3 → typingTimeforBook) :
    step21_slowerIdx tm =
      Function.update (Function.update (Function.update (fun _ => (0 : Fin 3)) (tm 0).sortIdx 0)
        (tm 1).sortIdx 1) (tm 2).sortIdx 2 := by
  unfold step21_slowerIdx
  have h : List.finRange 3 = [0, 1, 2] := by decide
  rw [h]
  rfl

/-- The first three entries of `slowerIdx`, for each outcome of the three comparisons of the
index sort. -/
lemma rankedMethod_cases (lf : letterFrequency) :
    (![rankedMethod lf 0, rankedMethod lf 1, rankedMethod lf 2] : Fin 3 → Fin 3) =
      if seconds lf 0 < seconds lf 1 then
        if seconds lf 0 < seconds lf 2 then
          if seconds lf 1 < seconds lf 2 then ![2, 1, 0] else ![1, 2, 0]
        else
          if seconds lf 1 < seconds lf 2 then ![2, 0, 1] else ![1, 0, 2]
      else
        if seconds lf 0 < seconds lf 2 then
          if seconds lf 1 < seconds lf 2 then ![1, 2, 0] else ![2, 1, 0]
        else
          if seconds lf 1 < seconds lf 2 then ![0, 2, 1] else ![0, 1, 2] := by
  have hs := step21_indexSort_sortIdx lf.typingMethod
  unfold rankedMethod seconds
  rw [step21_slowerIdx_unfold]
  by_cases h01 : (lf.typingMethod 0).typingSecondForBook < (lf.typingMethod 1).typingSecondForBook <;>
  by_cases h02 : (lf.typingMethod 0).typingSecondForBook < (lf.typingMethod 2).typingSecondForBook <;>
  by_cases h12 : (lf.typingMethod 1).typingSecondForBook < (lf.typingMethod 2).typingSecondForBook <;>
  simp only [h01, h02, h12, if_true, if_false] at hs ⊢ <;>
  (have h0 := congrFun hs 0
   have h1 := congrFun hs 1
   have h2 := congrFun hs 2
   simp only [Matrix.cons_val_zero, Matrix.cons_val_one, Matrix.head_cons, Matrix.cons_val_two,
     Matrix.tail_cons] at h0 h1 h2
   rw [h0, h1, h2]
   funext k
   fin_cases k <;> simp [Function.update_apply])

lemma tableSeconds_seconds (t0 t1 t2 : ℚ) (n : Nat) :
    seconds (tableSeconds t0 t1 t2 n) 0 = t0 ∧ seconds (tableSeconds t0 t1 t2 n) 1 = t1 ∧
      seconds (tableSeconds t0 t1 t2 n) 2 = t2 := ⟨rfl, rfl, rfl⟩

lemma vec3_eq {α : Type} {a b c x y z : α} (h : ![a, b, c] = ![x, y, z]) :
    a = x ∧ b = y ∧ c = z :=
  ⟨congrFun h 0, congrFun h 1, congrFun h 2⟩

lemma rankedMethod_50_25_100 (n : Nat) :
    rankedMethod (tableSeconds 50 25 100 n) 0 = 1 ∧ rankedMethod (tableSeconds 50 25 100 n) 1 = 2 ∧
      rankedMethod (tableSeconds 50 25 100 n) 2 = 0 := by
  have h := rankedMethod_cases (tableSeconds 50 25 100 n)
  obtain ⟨e0, e1, e2⟩ := tableSeconds_seconds 50 25 100 n
  rw [e0, e1, e2] at h
  norm_num at h
  generalize rankedMethod (tableSeconds 50 25 100 n) 0 = a at h ⊢
  generalize rankedMethod (tableSeconds 50 25 100 n) 1 = b at h ⊢
  generalize rankedMethod (tableSeconds 50 25 100 n) 2 = c at h ⊢
  exact vec3_eq h

lemma rankedMethod_25_100_50 (n : Nat) :
    rankedMethod (tableSeconds 25 100 50 n) 0 = 1 ∧ rankedMethod (tableSeconds 25 100 50 n) 1 = 2 ∧
      rankedMethod (tableSeconds 25 100 50 n) 2 = 0 := by
  have h := rankedMethod_cases (tableSeconds 25 100 50 n)
  obtain ⟨e0, e1, e2⟩ := tableSeconds_seconds 25 100 50 n
  rw [e0, e1, e2] at h
  norm_num at h
  generalize rankedMethod (tableSeconds 25 100 50 n) 0 = a at h ⊢
  generalize rankedMethod (tableSeconds 25 100 50 n) 1 = b at h ⊢
  generalize rankedMethod (tableSeconds 25 100 50 n) 2 = c at h ⊢
  exact vec3_eq h

lemma sortIdx_50_25_100 (n : Nat) :
    (step21_indexSort (tableSeconds 50 25 100 n).typingMethod 0).sortIdx = 2 ∧
      (step21_indexSort (tableSeconds 50 25 100 n).typingMethod 1).sortIdx = 0 ∧
      (step21_indexSort (tableSeconds 50 25 100 n).typingMethod 2).sortIdx = 1 := by
  have h := step21_indexSort_sortIdx (tableSeconds 50 25 100 n).typingMethod
  obtain ⟨e0, e1, e2⟩ := tableSeconds_seconds 50 25 100 n
  unfold seconds at e0 e1 e2
  rw [e0, e1, e2] at h
  norm_num at h
  exact ⟨congrFun h 0, congrFun h 1, congrFun h 2⟩

lemma sortIdx_25_100_50 (n : Nat) :
    (step21_indexSort (tableSeconds 25 100 50 n).typingMethod 0).sortIdx = 2 ∧
      (step21_indexSort (tableSeconds 25 100 50 n).typingMethod 1).sortIdx = 0 ∧
      (step21_indexSort (tableSeconds 25 100 50 n).typingMethod 2).sortIdx = 1 := by
  have h := step21_indexSort_sortIdx (tableSeconds 25 100 50 n).typingMethod
  obtain ⟨e0, e1, e2⟩ := tableSeconds_seconds 25 100 50 n
  unfold seconds at e0 e1 e2
  rw [e0, e1, e2] at h
  norm_num at h
  exact ⟨congrFun h 0, congrFun h 1, congrFun h 2⟩

/-- The ranking puts the methods in descending order of their seconds, except when the second
method is not slower than the first and the third is slower than the first. -/
lemma rankedMethod_descending_iff (lf : letterFrequency) :
    (seconds lf (rankedMethod lf 1) ≤ seconds lf (rankedMethod lf 0) ∧
        seconds lf (rankedMethod lf 2) ≤ seconds lf (rankedMethod lf 1)) ↔
      ¬ (seconds lf 1 ≤ seconds lf 0 ∧ seconds lf 0 < seconds lf 2) := by
  have h := rankedMethod_cases lf
  by_cases h01 : seconds lf 0 < seconds lf 1 <;>
  by_cases h02 : seconds lf 0 < seconds lf 2 <;>
  by_cases h12 : seconds lf 1 < seconds lf 2 <;>
  simp only [h01, h02, h12, if_true, if_false] at h <;>
  obtain ⟨e0, e1, e2⟩ := vec3_eq h <;>
  rw [e0, e1, e2] <;>
  (constructor
   · rintro ⟨a, b⟩ ⟨c, d⟩
     linarith
   · intro hh
     first
       | exact ⟨by linarith, by linarith⟩
       | exact absurd ⟨by linarith, by linarith⟩ hh)

lemma fdiv_zero (a : ℚ) : fdiv a 0 = none := by simp [fdiv]

lemma fdiv_of_ne {a b : ℚ} (h : b ≠ 0) : fdiv a b = some (a / b) := by simp [fdiv, h]

/-- The table that the index sort of `step21_calcBusinessHours` leaves. -/
lemma step21_table (lf : letterFrequency) :
    (step21_calcBusinessHours lf).1 =
      { lf with typingMethod := step21_indexSort lf.typingMethod } := rfl

/-- The report of `step21_calcBusinessHours` in terms of the ranking. -/
lemma step21_report (lf : letterFrequency) :
    (step21_calcBusinessHours lf).2 =
      { slowest := rankedMethod lf 0
        lettersPerYear0 := step21_lettersPerYear0 (step21_calcBusinessHours lf).1 (rankedMethod lf)
        reduces :=
          [⟨rankedMethod lf 1,
              step21_reduce (step21_calcBusinessHours lf).1 (rankedMethod lf) 1, rankedMethod lf 0⟩,
            ⟨rankedMethod lf 2,
              step21_reduce (step21_calcBusinessHours lf).1 (rankedMethod lf) 2, rankedMethod lf 0⟩]
        last := ⟨rankedMethod lf 2,
          fsub
            (step21_reduceSeconds (step21_calcBusinessHours lf).1 (rankedMethod lf)
              ((rankedMethod lf 2).val : Int))
            (step21_reduceSeconds (step21_calcBusinessHours lf).1 (rankedMethod lf)
              (step21_indexSort lf.typingMethod 1).sortIdx),
          rankedMethod lf 1⟩ } := rfl

lemma step21_table_seconds (lf : letterFrequency) (m : Fin 3) :
    seconds (step21_calcBusinessHours lf).1 m = seconds lf m := by
  rw [step21_table]
  exact step21_indexSort_seconds lf.typingMethod m

lemma step21_lettersPerYear0_zero (lf : letterFrequency) (r : Int → Fin 3)
    (h : lf.totalLetters = 0) : step21_lettersPerYear0 lf r = none := by
  simp [step21_lettersPerYear0, h, fdiv_zero]

lemma step21_reduce_zero (lf : letterFrequency) (r : Int → Fin 3) (i : Int)
    (h : lf.totalLetters = 0) : step21_reduce lf r i = none := by
  simp [step21_reduce, step21_lettersPerYear0_zero lf r h]

lemma step21_lettersPerYear0_pos (lf : letterFrequency) (r : Int → Fin 3)
    (hN : 0 < lf.totalLetters) (hs : 0 < seconds lf (r 0)) :
    step21_lettersPerYear0 lf r =
      some (yearlyBudget / (seconds lf (r 0) / (lf.totalLetters : ℚ))) := by
  have hN' : (lf.totalLetters : ℚ) ≠ 0 := by
    have : (0 : ℚ) < lf.totalLetters := by exact_mod_cast hN
    exact ne_of_gt this
  have hq : seconds lf (r 0) / (lf.totalLetters : ℚ) ≠ 0 := div_ne_zero (ne_of_gt hs) hN'
  unfold seconds at hq
  simp [step21_lettersPerYear0, fdiv_of_ne hN', fdiv_of_ne hq, seconds]

lemma step21_reduce_pos (lf : letterFrequency) (r : Int → Fin 3) (i : Int)
    (hN : 0 < lf.totalLetters) (hs : 0 < seconds lf (r 0)) :
    step21_reduce lf r i =
      some (yearlyBudget -
        yearlyBudget / (seconds lf (r 0) / (lf.totalLetters : ℚ)) * seconds lf (r i) /
          (lf.totalLetters : ℚ)) := by
  have hN' : (lf.totalLetters : ℚ) ≠ 0 := by
    have : (0 : ℚ) < lf.totalLetters := by exact_mod_cast hN
    exact ne_of_gt this
  simp [step21_reduce, step21_lettersPerYear0_pos lf r hN hs, fdiv_of_ne hN', seconds]

lemma yearlyBudget_eq : yearlyBudget = 254 * 4 * 3600 := by
  norm_num [yearlyBudget, BUSINESS_DAYS_IN_YEAR, BUSINESS_TYPINGHOURS]

lemma step21_reduceSeconds_unfold (lf : letterFrequency) (r : Int → Fin 3) :
    step21_reduceSeconds lf r =
      Function.update
        (Function.update (fun _ => none) ((r 1).val : Int) (step21_reduce lf r 1))
        ((r 2).val : Int) (step21_reduce lf r 2) := rfl

lemma step21_reduceSeconds_zero (lf : letterFrequency) (r : Int → Fin 3) (k : Int)
    (h : lf.totalLetters = 0) : step21_reduceSeconds lf r k = none := by
  rw [step21_reduceSeconds_unfold, step21_reduce_zero lf r 1 h, step21_reduce_zero lf r 2 h]
  simp only [Function.update_apply]
  split_ifs <;> rfl

/-- The report for a table without letters: every figure comes from a division by zero. -/
lemma step21_report_zero (lf : letterFrequency) (h : lf.totalLetters = 0) :
    (step21_calcBusinessHours lf).2.lettersPerYear0 = none ∧
      (step21_calcBusinessHours lf).2.reduces.map (fun l => l.seconds) = [none, none] ∧
      (step21_calcBusinessHours lf).2.last.seconds = none := by
  have h1 : (step21_calcBusinessHours lf).1.totalLetters = 0 := h
  rw [step21_report]
  simp only [List.map_cons, List.map_nil]
  rw [step21_lettersPerYear0_zero _ _ h1, step21_reduce_zero _ _ 1 h1,
    step21_reduce_zero _ _ 2 h1, step21_reduceSeconds_zero _ _ _ h1]
  exact ⟨rfl, rfl, rfl⟩

/-- The report for the totals `[25, 100, 50]` with ten letters. -/
lemma step21_report_25_100_50 :
    (step21_calcBusinessHours (tableSeconds 25 100 50 10)).2 =
      { slowest := 1
        lettersPerYear0 := some (yearlyBudget / 10)
        reduces := [⟨2, some (508 * 3600), 1⟩, ⟨0, some (762 * 3600), 1⟩]
        last := ⟨0, some 0, 2⟩ } := by
  obtain ⟨r0, r1, r2⟩ := rankedMethod_25_100_50 10
  obtain ⟨e0, e1, e2⟩ := tableSeconds_seconds 25 100 50 10
  obtain ⟨-, s1, -⟩ := sortIdx_25_100_50 10
  have hN : 0 < (step21_calcBusinessHours (tableSeconds 25 100 50 10)).1.totalLetters := by
    show 0 < 10
    norm_num
  have hs : 0 < seconds (step21_calcBusinessHours (tableSeconds 25 100 50 10)).1
      (rankedMethod (tableSeconds 25 100 50 10) 0) := by
    rw [step21_table_seconds, r0, e1]
    norm_num
  have hT : (((step21_calcBusinessHours (tableSeconds 25 100 50 10)).1.totalLetters : Nat) : ℚ)
      = 10 := by
    show ((10 : Nat) : ℚ) = 10
    norm_num
  rw [step21_report, step21_reduceSeconds_unfold, s1,
    step21_lettersPerYear0_pos _ _ hN hs, step21_reduce_pos _ _ 1 hN hs,
    step21_reduce_pos _ _ 2 hN hs]
  simp only [step21_table_seconds]
  rw [r0, r1, r2, e0, e1, e2, hT, yearlyBudget_eq]
  norm_num [fsub, Function.update_apply]

/-- C16 (a table without letters, counterexample). A book that consists of one blank gives a
table with `totalLetters = 0` and a positive cost for every method. `step21_calcBusinessHours`
returns a report like for any other table: it names a slowest method and two more, and
`lettersPerYear0` and the figures of all lines come from the division by `totalLetters = 0`. -/
theorem C16_blank_book_is_divided :
    (step20_calcTypingSpeed cLocale tableBlank).totalLetters = 0 ∧
    (step21_calcBusinessHours (step20_calcTypingSpeed cLocale tableBlank)).2.lettersPerYear0 = none ∧
    (step21_calcBusinessHours (step20_calcTypingSpeed cLocale tableBlank)).2.reduces.map
      (fun l => l.seconds) = [none, none] ∧
    (step21_calcBusinessHours (step20_calcTypingSpeed cLocale tableBlank)).2.last.seconds = none :=
  ⟨rfl, step21_report_zero (step20_calcTypingSpeed cLocale tableBlank) rfl⟩

/-- C16 (amended). `step21_calcBusinessHours` has no check of `totalLetters` and no error
result. For every table with `totalLetters = 0` it divides by `totalLetters`: `lettersPerYear0`,
the figures of the two lines of the loop and the figure of the last line all come from a
division by zero. -/
theorem C16_zero_letters_divided (lf : letterFrequency) (h : lf.totalLetters = 0) :
    (step21_calcBusinessHours lf).2.slowest = rankedMethod lf 0 ∧
    (step21_calcBusinessHours lf).2.lettersPerYear0 = none ∧
    (step21_calcBusinessHours lf).2.reduces =
      [⟨rankedMethod lf 1, none, rankedMethod lf 0⟩, ⟨rankedMethod lf 2, none, rankedMethod lf 0⟩] ∧
    (step21_calcBusinessHours lf).2.last = ⟨rankedMethod lf 2, none, rankedMethod lf 1⟩ := by
  have h1 : (step21_calcBusinessHours lf).1.totalLetters = 0 := h
  refine ⟨rfl, ?_, ?_, ?_⟩
  · rw [step21_report]
    exact step21_lettersPerYear0_zero _ _ h1
  · rw [step21_report]
    simp only
    rw [step21_reduce_zero _ _ 1 h1, step21_reduce_zero _ _ 2 h1]
  · rw [step21_report]
    simp only
    rw [step21_reduceSeconds_zero _ _ _ h1, step21_reduceSeconds_zero _ _ _ h1]
    rfl

/-- C16 at the table with the totals `[100, 50, 25]` and no letters. -/
theorem C16_zero_letters_divided_witness :
    (tableSeconds 100 50 25 0).totalLetters = 0 ∧
    (step21_calcBusinessHours (tableSeconds 100 50 25 0)).2.lettersPerYear0 = none :=
  ⟨rfl, (C16_zero_letters_divided (tableSeconds 100 50 25 0) rfl).2.1⟩

/-! ## Book list -/

/-- C19 (byte-order mark). The book list `#c`, one comment line, has no title. With the bytes
`EF BB BF` before it, `step01_countBookList` returns 1 and `step03_readBookList` stores the
title `EF BB BF # c`: the mark is not skipped, it is taken for the first characters of the
first line. -/
theorem C19_byte_order_mark_is_text :
    step01_countBookList cLocale (some bookListComment) = 0 ∧
      step03_titles cLocale (some bookListComment) = [] ∧
      step01_countBookList cLocale (some (BOM_UTF8 ++ bookListComment)) = 1 ∧
      step03_titles cLocale (some (BOM_UTF8 ++ bookListComment)) = [[0xef, 0xbb, 0xbf, 35, 99]] := by
  decide

/-! ## Chart of a table and the program -/

lemma foldl_count {α : Type} (p : α → Bool) (l : List α) (k : Nat) :
    l.foldl (fun n x => if p x then n + 1 else n) k = k + l.countP p := by
  induction l generalizing k with
  | nil => simp
  | cons x xs ih =>
    rw [List.foldl_cons, ih, List.countP_cons]
    split <;> omega

lemma step11_printCount_eq (L : CType) (lf : letterFrequency) :
    step11_printCount L lf =
      (List.finRange 256).countP (fun idx => step11_shown L lf (lf.sortIdx idx)) := by
  unfold step11_printCount
  rw [foldl_count (fun idx => step11_shown L lf (lf.sortIdx idx)), Nat.zero_add]

lemma step11_printCount_pos_iff (L : CType) (lf : letterFrequency) :
    0 < step11_printCount L lf ↔ ∃ idx, step11_shown L lf (lf.sortIdx idx) = true := by
  rw [step11_printCount_eq, List.countP_pos_iff]
  constructor
  · rintro ⟨idx, -, h⟩
    exact ⟨idx, h⟩
  · rintro ⟨idx, h⟩
    exact ⟨idx, List.mem_finRange idx, h⟩

lemma step11_lineCount_pos_iff (L : CType) (lf : letterFrequency) :
    0 < step11_lineCount L lf ↔ 0 < step11_printCount L lf := by
  unfold step11_lineCount BARCHART_HOW_MANY_IN_LINE
  omega

/-- Step 2 never divides by zero: a byte that passes the test was counted by step 1. -/
lemma step11_step2_some (L : CType) (lf : letterFrequency) :
    ∃ s, step11_step2 L lf = some s := by
  have key : ∀ (l : List Byte) (s : Nat × List (Nat × Nat × Byte)),
      ∃ s2, l.foldl (fun st idx => st.bind (fun s => step11_place L lf s idx)) (some s) =
        some s2 := by
    intro l
    induction l with
    | nil => intro s; exact ⟨s, rfl⟩
    | cons idx rest ih =>
      intro s
      have hstep : ∃ s1, step11_place L lf s idx = some s1 := by
        unfold step11_place
        by_cases hsh : step11_shown L lf (lf.sortIdx idx) = true
        · have hpos : step11_lineCount L lf ≠ 0 := by
            have := (step11_lineCount_pos_iff L lf).mpr
              ((step11_printCount_pos_iff L lf).mpr ⟨idx, hsh⟩)
            omega
          rw [if_pos hsh]
          simp only [imod, idiv, if_neg hpos, Option.some_bind, Option.map_some']
          exact ⟨_, rfl⟩
        · rw [if_neg hsh]
          exact ⟨s, rfl⟩
      obtain ⟨s1, hs1⟩ := hstep
      rw [List.foldl_cons, Option.some_bind, hs1]
      exact ih s1
  exact key (List.finRange 256) (0, [])

lemma mem_step11_cells (L : CType) (lf : letterFrequency) (writes : List (Nat × Nat × Byte))
    {cell : Byte × Option ℚ} (h : cell ∈ step11_cells L lf writes) :
    cell.2 = fdiv (100 * (lf.c cell.1 : ℚ)) (lf.totalAlphabets : ℚ) := by
  unfold step11_cells at h
  rw [List.mem_flatMap] at h
  obtain ⟨row, -, h⟩ := h
  rw [List.mem_map] at h
  obtain ⟨col, -, rfl⟩ := h
  rfl

lemma step11_cells_ne_nil_iff (L : CType) (lf : letterFrequency)
    (writes : List (Nat × Nat × Byte)) :
    step11_cells L lf writes ≠ [] ↔ 0 < step11_lineCount L lf := by
  unfold step11_cells BARCHART_HOW_MANY_IN_LINE
  constructor
  · intro h
    by_contra h0
    apply h
    have : step11_lineCount L lf = 0 := by omega
    rw [this]
    rfl
  · intro h hnil
    have hmem : (step11_dispMatrix writes 0 0,
        fdiv (100 * (lf.c (step11_dispMatrix writes 0 0) : ℚ)) (lf.totalAlphabets : ℚ)) ∈
        (List.range (step11_lineCount L lf)).flatMap (fun row =>
          (List.range 3).map (fun col =>
            (step11_dispMatrix writes row col,
              fdiv (100 * (lf.c (step11_dispMatrix writes row col) : ℚ))
                (lf.totalAlphabets : ℚ)))) := by
      rw [List.mem_flatMap]
      refine ⟨0, List.mem_range.mpr h, ?_⟩
      rw [List.mem_map]
      exact ⟨0, List.mem_range.mpr (by norm_num), rfl⟩
    rw [hnil] at hmem
    exact List.not_mem_nil _ hmem

lemma fdiv_eq_none_iff (a b : ℚ) : fdiv a b = none ↔ b = 0 := by
  unfold fdiv
  split <;> simp [*]

lemma step11_shown_sortLf (L : CType) (lf : letterFrequency) (c : Byte) :
    step11_shown L (sortLf lf) c = step11_shown L lf c := by
  unfold step11_shown
  rw [sortLf_c]

/-- The bar values of the chart of a table, as a list of divisions by `totalAlphabets`. -/
lemma barValues_step11 (L : CType) (lf : letterFrequency) :
    ∃ writes, barValues (step11_printBookFrequency L lf).2 =
      (step11_cells L (sortLf lf) writes).map Prod.snd := by
  obtain ⟨s, hs⟩ := step11_step2_some L (sortLf lf)
  refine ⟨s.2, ?_⟩
  unfold barValues step11_printBookFrequency
  simp only [hs, Option.map_some']

/-- Bar values are computed exactly for the tables with a byte that passes the test. -/
lemma barValues_ne_nil_iff (L : CType) (lf : letterFrequency)
    (hs : Function.Bijective lf.sortIdx) :
    barValues (step11_printBookFrequency L lf).2 ≠ [] ↔ ∃ c, step11_shown L lf c = true := by
  obtain ⟨writes, hw⟩ := barValues_step11 L lf
  rw [hw, Ne, List.map_eq_nil_iff, ← Ne, step11_cells_ne_nil_iff, step11_lineCount_pos_iff,
    step11_printCount_pos_iff]
  constructor
  · rintro ⟨idx, h⟩
    rw [step11_shown_sortLf] at h
    exact ⟨_, h⟩
  · rintro ⟨c, h⟩
    obtain ⟨idx, hidx⟩ := (sortLf_bijective lf hs).2 c
    refine ⟨idx, ?_⟩
    rw [step11_shown_sortLf, hidx]
    exact h

/-- Every bar value is a division by `totalAlphabets`. -/
lemma barValues_none_iff (L : CType) (lf : letterFrequency) {v : Option ℚ}
    (hv : v ∈ barValues (step11_printBookFrequency L lf).2) :
    v = none ↔ lf.totalAlphabets = 0 := by
  obtain ⟨writes, hw⟩ := barValues_step11 L lf
  rw [hw, List.mem_map] at hv
  obtain ⟨cell, hcell, rfl⟩ := hv
  rw [mem_step11_cells L (sortLf lf) writes hcell, fdiv_eq_none_iff]
  have : (sortLf lf).totalAlphabets = lf.totalAlphabets := by
    unfold sortLf
    rfl
  rw [this]
  exact Nat.cast_eq_zero

lemma foldl_tally_sortIdx (L : CType) (bytes : List Byte) (lf : letterFrequency) :
    (bytes.foldl (tally L) lf).sortIdx = lf.sortIdx := by
  induction bytes generalizing lf with
  | nil => rfl
  | cons b bs ih =>
    rw [List.foldl_cons, ih]
    rfl

lemma bookTable_eq (L : CType) (bytes : List Byte) :
    bookTable L bytes = bytes.foldl (tally L) lfInit :=
  step10_book_table L bytes lfInit

lemma bookTable_sortIdx (L : CType) (bytes : List Byte) :
    Function.Bijective (bookTable L bytes).sortIdx := by
  rw [bookTable_eq, foldl_tally_sortIdx]
  exact Function.bijective_id

lemma bookTable_totalAlphabets (L : CType) (bytes : List Byte) (hlen : bytes.length < 2 ^ 64) :
    (bookTable L bytes).totalAlphabets = 0 ↔ ∀ b ∈ bytes, L.isalpha (b.val : Int) = false := by
  have hlen' : bytes.length < ULL := hlen
  have ha := isCounter_fresh (isCounter_totalAlphabets L) rfl bytes hlen'
  simp only at ha
  rw [bookTable_eq, ha, List.countP_eq_zero]
  simp

/-- The run on `filesControl`: one book is charted, then the grand total, both with the table
of the byte `01`. -/
lemma main_filesControl :
    (main cLocale filesControl).charts =
      [(step11_printBookFrequency cLocale (bookTable cLocale [1])).2,
        (step11_printBookFrequency cLocale (bookTable cLocale [1])).2] := by
  have h1 : step01_countBookList cLocale filesControl.bookList = 1 := by decide
  have h3 : (step03_readBookList cLocale filesControl.bookList 1).1 = [[97]] := by decide
  unfold main
  simp only [h1]
  rw [h3]
  rfl

lemma bookTable_control_shown : step11_shown cLocale (bookTable cLocale [1]) 1 = true := by
  decide

/-- C17 (counterexample). The book list names one book, which holds the single byte `01`.
`step10_calcBookFrequency` returns 1, so `main` charts the book and then the grand total. The
byte is counted in `c[1]`, it is no punctuation, whitespace or digit, and it is not
alphabetic: both charts have bar values, and each of them is a division by
`totalAlphabets = 0`. -/
theorem C17_control_byte_divides_by_zero :
    (bookTable cLocale [1]).totalAlphabets = 0 ∧
      (main cLocale filesControl).charts.length = 2 ∧
      ∀ chart ∈ (main cLocale filesControl).charts,
        barValues chart ≠ [] ∧ ∀ v ∈ barValues chart, v = none := by
  have h0 : (bookTable cLocale [1]).totalAlphabets = 0 := by decide
  rw [main_filesControl]
  refine ⟨h0, rfl, ?_⟩
  intro chart hchart
  have hc : chart = (step11_printBookFrequency cLocale (bookTable cLocale [1])).2 := by
    simpa using hchart
  rw [hc]
  refine ⟨(barValues_ne_nil_iff cLocale _ (bookTable_sortIdx cLocale [1])).mpr
    ⟨1, bookTable_control_shown⟩, fun v hv => (barValues_none_iff cLocale _ hv).mpr h0⟩

/-- C17 (amended). For the table of a book of fewer than `2 ^ 64` bytes,
`step11_printBookFrequency` computes bar values exactly when some byte value has a non-zero
count and is no punctuation, whitespace or digit; every bar value is a division by
`totalAlphabets`, which nothing compares with zero, and `totalAlphabets` is zero exactly when
the book holds no byte that `isalpha` accepts. -/
theorem C17_bar_values_divide_by_totalAlphabets (L : CType) (bytes : List Byte)
    (hlen : bytes.length < 2 ^ 64) :
    (barValues (step11_printBookFrequency L (bookTable L bytes)).2 ≠ [] ↔
        ∃ c, step11_shown L (bookTable L bytes) c = true) ∧
      (∀ v ∈ barValues (step11_printBookFrequency L (bookTable L bytes)).2,
        (v = none ↔ (bookTable L bytes).totalAlphabets = 0)) ∧
      ((bookTable L bytes).totalAlphabets = 0 ↔
        ∀ b ∈ bytes, L.isalpha (b.val : Int) = false) :=
  ⟨barValues_ne_nil_iff L _ (bookTable_sortIdx L bytes),
    fun _ hv => barValues_none_iff L _ hv, bookTable_totalAlphabets L bytes hlen⟩

/-- C17 at the book `a`: the chart has bar values and none of them divides by zero. -/
theorem C17_bar_values_divide_by_totalAlphabets_witness :
    ([97] : List Byte).length < 2 ^ 64 ∧
      barValues (step11_printBookFrequency cLocale (bookTable cLocale [97])).2 ≠ [] ∧
      ∀ v ∈ barValues (step11_printBookFrequency cLocale (bookTable cLocale [97])).2,
        v ≠ none := by
  have hlen : ([97] : List Byte).length < 2 ^ 64 := by norm_num
  obtain ⟨h1, h2, h3⟩ := C17_bar_values_divide_by_totalAlphabets cLocale [97] hlen
  refine ⟨hlen, h1.mpr ⟨65, by decide⟩, fun v hv hnone => ?_⟩
  have hall := h3.mp ((h2 v hv).mp hnone) 97 (List.mem_singleton_self _)
  exact absurd hall (by decide)

lemma isHungarian_iff (c : Int) :
    isHungarian c = true ↔
      c = 0xe1 ∨ c = 0xe9 ∨ c = 0xed ∨ c = 0xf3 ∨ c = 0xf5 ∨ c = 0xf6 ∨ c = 0xfa ∨ c = 0xfb ∨
        c = 0xfc ∨ c = 0 ∨ c = 0xc1 ∨ c = 0xc9 ∨ c = 0xcd ∨ c = 0xd3 ∨ c = 0xd5 ∨ c = 0xd6 ∨
        c = 0xda ∨ c = 0xdb ∨ c = 0xdc := by
  simp only [isHungarian, hungarianLowerLetters, hungarianUpperLetters, List.any_cons,
    List.any_nil, Bool.or_false, Bool.or_eq_true, beq_iff_eq]
  tauto

lemma mem_hungarianBytes (b : Byte) :
    b ∈ hungarianBytes ↔
      b.val = 0xe1 ∨ b.val = 0xe9 ∨ b.val = 0xed ∨ b.val = 0xf3 ∨ b.val = 0xf5 ∨ b.val = 0xf6 ∨
        b.val = 0xfa ∨ b.val = 0xfb ∨ b.val = 0xfc ∨ b.val = 0xc1 ∨ b.val = 0xc9 ∨
        b.val = 0xcd ∨ b.val = 0xd3 ∨ b.val = 0xd5 ∨ b.val = 0xd6 ∨ b.val = 0xda ∨
        b.val = 0xdb ∨ b.val = 0xdc := by
  simp only [hungarianBytes, List.mem_cons, List.mem_singleton, List.not_mem_nil, or_false,
    Fin.ext_iff]
  rfl

/-- C21 (Hungarian bytes). For every byte value `b`, `isHungarian(b)` is true if and only if
`b` is one of the 18 Hungarian-specific bytes or `b` is 0: the loops run over `sizeof` entries
of the arrays, the terminating NUL of the string literals included. `isHungarian(0)` is true,
and 0 is none of the 18 bytes. -/
theorem C21_isHungarian_iff_or_nul :
    (∀ b : Byte, isHungarian (b.val : Int) = true ↔ (b ∈ hungarianBytes ∨ b = 0)) ∧
      isHungarian 0 = true ∧ (0 : Byte) ∉ hungarianBytes := by
  refine ⟨fun b => ?_, by decide, by decide⟩
  rw [isHungarian_iff, mem_hungarianBytes, Fin.ext_iff]
  have h0 : ((0 : Byte) : Nat) = 0 := rfl
  rw [h0]
  omega

lemma step11_place_shown (L : CType) (lf : letterFrequency) (s : Nat × List (Nat × Nat × Byte))
    (idx : Byte) (hsh : step11_shown L lf (lf.sortIdx idx) = true)
    (hlc : step11_lineCount L lf ≠ 0) :
    step11_place L lf s idx =
      some (s.1 + 1,
        s.2 ++ [(s.1 % step11_lineCount L lf, s.1 / step11_lineCount L lf, lf.sortIdx idx)]) := by
  unfold step11_place
  rw [if_pos hsh]
  simp only [imod, idiv, if_neg hlc, Option.some_bind, Option.map_some']

lemma step11_place_hidden (L : CType) (lf : letterFrequency) (s : Nat × List (Nat × Nat × Byte))
    (idx : Byte) (hsh : ¬ step11_shown L lf (lf.sortIdx idx) = true) :
    step11_place L lf s idx = some s := by
  unfold step11_place
  rw [if_neg hsh]

lemma step11_lineCount_ne_zero (L : CType) (lf : letterFrequency) (idx : Byte)
    (hsh : step11_shown L lf (lf.sortIdx idx) = true) : step11_lineCount L lf ≠ 0 := by
  have := (step11_lineCount_pos_iff L lf).mpr ((step11_printCount_pos_iff L lf).mpr ⟨idx, hsh⟩)
  omega

/-- The loop of step 2 over a part of the indices, started with `printCount = k`: the symbols
met are numbered from `k` and written to row `i mod lineCount`, column `i div lineCount`. -/
lemma step11_fold_closed (L : CType) (lf : letterFrequency) (l : List Byte) :
    ∀ (k : Nat) (ws : List (Nat × Nat × Byte)),
      l.foldl (fun st idx => st.bind (fun s => step11_place L lf s idx)) (some (k, ws)) =
        some (k + ((l.map lf.sortIdx).filter (step11_shown L lf)).length,
          ws ++ (List.enumFrom k ((l.map lf.sortIdx).filter (step11_shown L lf))).map
            (fun p => (p.1 % step11_lineCount L lf, p.1 / step11_lineCount L lf, p.2))) := by
  induction l with
  | nil =>
    intro k ws
    simp
  | cons idx rest ih =>
    intro k ws
    rw [List.foldl_cons, Option.some_bind, List.map_cons, List.filter_cons]
    by_cases hsh : step11_shown L lf (lf.sortIdx idx) = true
    · rw [step11_place_shown L lf _ idx hsh (step11_lineCount_ne_zero L lf idx hsh), ih,
        if_pos hsh, List.length_cons, List.enumFrom_cons, List.map_cons, List.append_assoc,
        List.singleton_append]
      congr 2
      omega
    · rw [step11_place_hidden L lf _ idx hsh, ih, if_neg hsh]

/-- Step 2 in closed form. -/
lemma step11_step2_closed (L : CType) (lf : letterFrequency) :
    step11_step2 L lf =
      some ((step11_symbols L lf).length,
        (step11_symbols L lf).enum.map
          (fun p => (p.1 % step11_lineCount L lf, p.1 / step11_lineCount L lf, p.2))) := by
  unfold step11_step2
  rw [step11_fold_closed, Nat.zero_add, List.nil_append]
  rfl

lemma step11_printCount_symbols (L : CType) (lf : letterFrequency) :
    step11_printCount L lf = (step11_symbols L lf).length := by
  rw [step11_printCount_eq, step11_symbols, ← List.countP_eq_length_filter, List.countP_map]
  rfl

lemma step11_symbols_length_le (L : CType) (lf : letterFrequency) :
    (step11_symbols L lf).length ≤ 256 := by
  unfold step11_symbols
  refine le_trans (List.length_filter_le _ _) ?_
  rw [List.length_map, List.length_finRange]

lemma step11_lineCount_symbols (L : CType) (lf : letterFrequency) :
    step11_lineCount L lf = ((step11_symbols L lf).length + 2) / 3 := by
  unfold step11_lineCount BARCHART_HOW_MANY_IN_LINE
  rw [step11_printCount_symbols]
  omega

lemma mem_step11_symbols (L : CType) (lf : letterFrequency)
    (hs : Function.Surjective lf.sortIdx) (c : Byte) :
    c ∈ step11_symbols L lf ↔ step11_shown L lf c = true := by
  unfold step11_symbols
  rw [List.mem_filter, List.mem_map]
  constructor
  · exact fun h => h.2
  · intro h
    obtain ⟨idx, hidx⟩ := hs c
    exact ⟨⟨idx, List.mem_finRange idx, hidx⟩, h⟩

lemma step11_symbols_nodup (L : CType) (lf : letterFrequency)
    (hs : Function.Injective lf.sortIdx) : (step11_symbols L lf).Nodup := by
  unfold step11_symbols
  exact ((List.nodup_finRange 256).map hs).filter _

lemma step11_symbols_sortLf (L : CType) (lf : letterFrequency) :
    step11_symbols L (sortLf lf) =
      ((List.finRange 256).map (sortLf lf).sortIdx).filter (step11_shown L lf) := by
  have h : step11_shown L (sortLf lf) = step11_shown L lf :=
    funext (step11_shown_sortLf L lf)
  unfold step11_symbols
  rw [h]

lemma step11_shown_iff (L : CType) (lf : letterFrequency) (c : Byte) :
    step11_shown L lf c = true ↔
      (lf.c c ≠ 0 ∧ ispunct1250 L (c.val : Int) = false ∧ L.isspace (c.val : Int) = false ∧
        L.isdigit (c.val : Int) = false) := by
  unfold step11_shown
  simp [and_assoc]

lemma columnMajor_injective (rows : Nat) : Function.Injective (columnMajor rows) := by
  intro a b hab
  unfold columnMajor at hab
  have h1 : a % rows = b % rows := congrArg Prod.fst hab
  have h2 : a / rows = b / rows := congrArg Prod.snd hab
  rw [← Nat.div_add_mod a rows, ← Nat.div_add_mod b rows, h1, h2]

/-- Writes to other cells leave an entry of the display matrix as it is. -/
lemma dispMatrix_fold_later (rows : Nat) (t : Nat) (syms : List Byte) :
    ∀ (k : Nat) (cur : Byte), t < k →
      ((List.enumFrom k syms).map (fun p => (p.1 % rows, p.1 / rows, p.2))).foldl
        (fun cur w => if w.1 = t % rows ∧ w.2.1 = t / rows then w.2.2 else cur) cur = cur := by
  induction syms with
  | nil => intro k cur _; rfl
  | cons x xs ih =>
    intro k cur hk
    rw [List.enumFrom_cons, List.map_cons, List.foldl_cons]
    have hne : ¬ (k % rows = t % rows ∧ k / rows = t / rows) := by
      rintro ⟨h1, h2⟩
      have : columnMajor rows k = columnMajor rows t := by
        unfold columnMajor
        rw [h1, h2]
      have := columnMajor_injective rows this
      omega
    simp only
    rw [if_neg hne]
    exact ih (k + 1) cur (by omega)

/-- After the writes of step 2, the cell of the symbol number `k + i` holds that symbol. -/
lemma dispMatrix_fold_at (rows : Nat) (syms : List Byte) :
    ∀ (k i : Nat) (cur : Byte) (hi : i < syms.length),
      ((List.enumFrom k syms).map (fun p => (p.1 % rows, p.1 / rows, p.2))).foldl
        (fun cur w => if w.1 = (k + i) % rows ∧ w.2.1 = (k + i) / rows then w.2.2 else cur) cur =
        syms.get ⟨i, hi⟩ := by
  induction syms with
  | nil => intro k i cur hi; exact absurd hi (Nat.not_lt_zero _)
  | cons x xs ih =>
    intro k i cur hi
    rw [List.enumFrom_cons, List.map_cons, List.foldl_cons]
    cases i with
    | zero =>
      simp only [Nat.add_zero, and_self, if_true]
      rw [dispMatrix_fold_later rows k xs (k + 1) x (by omega)]
      rfl
    | succ j =>
      have hj : j < xs.length := by
        rw [List.length_cons] at hi
        omega
      have e : k + (j + 1) = (k + 1) + j := by omega
      rw [e]
      exact ih (k + 1) j _ hj

lemma enum_map_length (rows : Nat) (syms : List Byte) :
    (syms.enum.map (fun p => (p.1 % rows, p.1 / rows, p.2))).length = syms.length := by
  rw [List.length_map, List.enum_length]

lemma enum_map_get (rows : Nat) (syms : List Byte) (i : Nat) (hi : i < syms.length) :
    (syms.enum.map (fun p => (p.1 % rows, p.1 / rows, p.2)))[i]? =
      some (i % rows, i / rows, syms.get ⟨i, hi⟩) := by
  rw [List.getElem?_map, List.enum, List.getElem?_enumFrom, List.getElem?_eq_getElem hi]
  simp

/-- The number of rows is the number of symbols divided by three, rounded up. -/
lemma lineCount_ceil (n : Nat) : 3 * ((n + 2) / 3) < n + 3 ∧ n ≤ 3 * ((n + 2) / 3) := by
  omega

/-- The table of the book that holds the single byte `01` has the symbol `01`. -/
lemma control_byte_symbol :
    (1 : Byte) ∈ step11_symbols cLocale (sortLf (bookTable cLocale [1])) := by
  rw [mem_step11_symbols cLocale _ (sortLf_bijective _ (bookTable_sortIdx cLocale [1])).2,
    step11_shown_sortLf]
  exact bookTable_control_shown

/-- C23 (counterexample). In the table of a book that holds the single byte `01`, the byte is
among those that `step11_printBookFrequency` places in the display matrix: its count is 1 and
it is no punctuation, whitespace or digit. It is not letter-like, `isalpha1250` is false. -/
theorem C23_control_byte_is_placed :
    (1 : Byte) ∈ step11_symbols cLocale (sortLf (bookTable cLocale [1])) ∧
      (∃ writes, step11_step2 cLocale (sortLf (bookTable cLocale [1])) = some (1, writes) ∧
        writes.map (fun w => w.2.2) = [1]) ∧
      isalpha1250 cLocale 1 = false := by
  have hmem := control_byte_symbol
  have hnodup := step11_symbols_nodup cLocale _
    (sortLf_bijective _ (bookTable_sortIdx cLocale [1])).1
  have hall : ∀ c ∈ step11_symbols cLocale (sortLf (bookTable cLocale [1])), c = 1 := by
    intro c hc
    rw [mem_step11_symbols cLocale _ (sortLf_bijective _ (bookTable_sortIdx cLocale [1])).2,
      step11_shown_sortLf, step11_shown_iff] at hc
    have hcount : (bookTable cLocale [1]).c c ≠ 0 := hc.1
    by_contra hne
    apply hcount
    show Function.update (fun _ => 0) (slot cLocale 1) ((0 + 1) % ULL) c = 0
    have hs : slot cLocale 1 = 1 := by decide
    rw [hs, Function.update_noteq hne]
  have hsyms : step11_symbols cLocale (sortLf (bookTable cLocale [1])) = [1] := by
    generalize step11_symbols cLocale (sortLf (bookTable cLocale [1])) = l at hmem hnodup hall
    match l, hmem, hnodup, hall with
    | [a], _, _, hall => rw [hall a (List.mem_singleton_self a)]
    | a :: b :: rest, _, hnodup, hall =>
      exfalso
      have ha := hall a (List.mem_cons_self _ _)
      have hb := hall b (List.mem_cons_of_mem _ (List.mem_cons_self _ _))
      rw [ha, hb] at hnodup
      simp at hnodup
  have h2 := step11_step2_closed cLocale (sortLf (bookTable cLocale [1]))
  rw [hsyms] at h2
  exact ⟨hmem, ⟨_, h2, rfl⟩, by decide⟩

/-- C23 (amended). For every table whose `sortIdx` is a permutation, step 2 of
`step11_printBookFrequency` places in the display matrix the bytes `sortIdx[0], sortIdx[1],
...` of the sorted table that have a non-zero count and are no punctuation (`ispunct1250`), no
whitespace and no digit, in this order: each such byte value once, and no other. `isalpha1250`
is not part of the test. -/
theorem C23_placed_symbols (L : CType) (lf : letterFrequency)
    (hs : Function.Bijective lf.sortIdx) :
    (∃ writes, step11_step2 L (sortLf lf) = some ((step11_symbols L (sortLf lf)).length, writes) ∧
        writes.map (fun w => w.2.2) = step11_symbols L (sortLf lf)) ∧
      step11_symbols L (sortLf lf) =
        ((List.finRange 256).map (sortLf lf).sortIdx).filter (step11_shown L lf) ∧
      (step11_symbols L (sortLf lf)).Nodup ∧
      ∀ c : Byte, c ∈ step11_symbols L (sortLf lf) ↔
        (lf.c c ≠ 0 ∧ ispunct1250 L (c.val : Int) = false ∧ L.isspace (c.val : Int) = false ∧
          L.isdigit (c.val : Int) = false) := by
  refine ⟨⟨_, step11_step2_closed L (sortLf lf), ?_⟩, step11_symbols_sortLf L lf,
    step11_symbols_nodup L _ (sortLf_bijective lf hs).1, fun c => ?_⟩
  · rw [List.map_map]
    have : ((fun w : Nat × Nat × Byte => w.2.2) ∘
        fun p : Nat × Byte =>
          (p.1 % step11_lineCount L (sortLf lf), p.1 / step11_lineCount L (sortLf lf), p.2)) =
        Prod.snd := rfl
    rw [this, List.enum_map_snd]
  · rw [mem_step11_symbols L _ (sortLf_bijective lf hs).2, step11_shown_sortLf, step11_shown_iff]

/-- C23 at the table of the book `abcc`: the byte `C` is among the symbols placed exactly
because its count is not zero and it is no punctuation, whitespace or digit. -/
theorem C23_placed_symbols_witness :
    Function.Bijective tableABCC.sortIdx ∧
      ((67 : Byte) ∈ step11_symbols cLocale (sortLf tableABCC) ↔
        (tableABCC.c 67 ≠ 0 ∧ ispunct1250 cLocale 67 = false ∧ cLocale.isspace 67 = false ∧
          cLocale.isdigit 67 = false)) :=
  ⟨Function.bijective_id,
    (C23_placed_symbols cLocale tableABCC Function.bijective_id).2.2.2 67⟩

/-- The entry of the display matrix at the cell of the symbol number `i`. -/
lemma step11_dispMatrix_at (rows : Nat) (syms : List Byte) (i : Nat) (hi : i < syms.length) :
    step11_dispMatrix (syms.enum.map (fun p => (p.1 % rows, p.1 / rows, p.2)))
      (i % rows) (i / rows) = syms.get ⟨i, hi⟩ := by
  have h := dispMatrix_fold_at rows syms 0 i 0 hi
  rw [Nat.zero_add] at h
  exact h

/-- C24 (column-major fill). For every table, with `N` the number of symbols to display,
step 1 of `step11_printBookFrequency` sets `lineCount` to `N / 3` rounded up, and step 2 writes
the symbol number `i` of the significance order, `0 <= i < N`, to
`dispMatrix[i mod lineCount][i div lineCount]`, with `lineCount >= 1`, where it stays: the
grid is filled column by column. -/
theorem C24_column_major_fill (L : CType) (lf : letterFrequency) :
    step11_printCount L lf = (step11_symbols L lf).length ∧
      step11_lineCount L lf = ((step11_symbols L lf).length + 2) / 3 ∧
      3 * step11_lineCount L lf < (step11_symbols L lf).length + 3 ∧
      (step11_symbols L lf).length ≤ 3 * step11_lineCount L lf ∧
      ∃ writes, step11_step2 L lf = some ((step11_symbols L lf).length, writes) ∧
        writes.length = (step11_symbols L lf).length ∧
        ∀ i : Fin (step11_symbols L lf).length,
          1 ≤ step11_lineCount L lf ∧
            writes[i.val]? =
              some (i.val % step11_lineCount L lf, i.val / step11_lineCount L lf,
                (step11_symbols L lf).get i) ∧
            step11_dispMatrix writes (i.val % step11_lineCount L lf)
              (i.val / step11_lineCount L lf) = (step11_symbols L lf).get i := by
  have hlc := step11_lineCount_symbols L lf
  have hceil := lineCount_ceil (step11_symbols L lf).length
  rw [← hlc] at hceil
  refine ⟨step11_printCount_symbols L lf, hlc, hceil.1, hceil.2, _, step11_step2_closed L lf,
    enum_map_length _ _, fun i => ⟨?_, ?_, ?_⟩⟩
  · have := i.isLt
    omega
  · exact enum_map_get _ _ i.val i.isLt
  · exact step11_dispMatrix_at _ _ i.val i.isLt

/-- C28 (bounds of the display matrix). For every table, with `N` the number of symbols to
display: `N <= 256` and `lineCount` is `N / 3` rounded up, at most 86; step 2 evaluates no
division by zero, and it makes no write when `N = 0`; the write number `i < N` goes to row
`i mod lineCount < 86` and column `i div lineCount <= 2`, inside
`dispMatrix[86][3]`; and different `i` go to different cells. -/
theorem C28_dispMatrix_writes_in_bounds (L : CType) (lf : letterFrequency) :
    (step11_symbols L lf).length ≤ 256 ∧
      step11_lineCount L lf = ((step11_symbols L lf).length + 2) / 3 ∧
      step11_lineCount L lf ≤ 86 ∧
      (∃ writes, step11_step2 L lf = some ((step11_symbols L lf).length, writes) ∧
        writes.length = (step11_symbols L lf).length ∧
        (∀ i : Fin (step11_symbols L lf).length,
          writes[i.val]? =
            some ((columnMajor (step11_lineCount L lf) i.val).1,
              (columnMajor (step11_lineCount L lf) i.val).2, (step11_symbols L lf).get i)) ∧
        ((step11_symbols L lf).length = 0 ↔ writes = [])) ∧
      (∀ i : Fin (step11_symbols L lf).length,
        step11_lineCount L lf ≠ 0 ∧
          (columnMajor (step11_lineCount L lf) i.val).1 < 86 ∧
          (columnMajor (step11_lineCount L lf) i.val).2 ≤ 2) ∧
      Function.Injective
        (fun i : Fin (step11_symbols L lf).length => columnMajor (step11_lineCount L lf) i.val) := by
  have hlen := step11_symbols_length_le L lf
  have hlc := step11_lineCount_symbols L lf
  have hceil := lineCount_ceil (step11_symbols L lf).length
  rw [← hlc] at hceil
  have h86 : step11_lineCount L lf ≤ 86 := by omega
  refine ⟨hlen, hlc, h86, ⟨_, step11_step2_closed L lf, enum_map_length _ _,
    fun i => enum_map_get _ _ i.val i.isLt, ?_⟩, fun i => ?_, ?_⟩
  · rw [← List.length_eq_zero, enum_map_length]
  · have hi := i.isLt
    have hpos : step11_lineCount L lf ≠ 0 := by omega
    refine ⟨hpos, ?_, ?_⟩
    · show i.val % step11_lineCount L lf < 86
      exact lt_of_lt_of_le (Nat.mod_lt _ (Nat.pos_of_ne_zero hpos)) h86
    · show i.val / step11_lineCount L lf ≤ 2
      have : i.val / step11_lineCount L lf < 3 := by
        rw [Nat.div_lt_iff_lt_mul (Nat.pos_of_ne_zero hpos)]
        omega
      omega
  · intro i j hij
    exact Fin.ext (columnMajor_injective _ hij)

/-! ## Glyph and width of a bar -/

/-- The cells that `barChart` selects fit the 13 characters of the bar. -/
lemma barChart_cells_fit {v : ℚ} (h0 : 0 ≤ v) :
    0 ≤ (barChart_cells 13 12 v).1 ∧
      (barChart_cells 13 12 v).1 + ((barChart_cells 13 12 v).2.length : Int) ≤ 13 := by
  by_cases h : v ≤ 160 / 13
  · obtain ⟨g, hcells, hg, h13, hn0, hn13⟩ := barChart_cells_below h0 h
    rw [hcells]
    refine ⟨hn0, ?_⟩
    show ⌊v / 12 * 13⌋ + (g.length : Int) ≤ 13
    by_cases h' : ⌊v / 12 * 13⌋ = 13
    · rw [h13 h', h']
      norm_num
    · have hglen : (g.length : Int) ≤ 1 := by
        rcases hg with rfl | rfl | rfl <;> simp
      omega
  · rw [barChart_cells_overflow (not_le.mp h)]
    norm_num

/-- The string that `barChart` stores, before the cut of `snprintf`: the label or seven
blanks, the filled cells, the glyph and the padding of blanks. -/
lemma barChart_data {v : ℚ} (h0 : 0 ≤ v) :
    (barChart 13 12 v).data =
      ((if v = 0 then List.replicate 7 ' ' else printf_4_1lf v ++ ['%', ' ']) ++
        (List.replicate (barChart_cells 13 12 v).1.toNat 'x' ++
          ((barChart_cells 13 12 v).2 ++
            List.replicate (13 - (barChart_cells 13 12 v).1.toNat -
              (barChart_cells 13 12 v).2.length) ' '))).take 19 := by
  obtain ⟨hn0, hfit⟩ := barChart_cells_fit h0
  have hbar := barChart_bar_fits hn0 hfit
  unfold barChart
  by_cases hv : v = 0
  · rw [if_pos hv, if_pos hv, snprintf_20, hbar]
    rfl
  · rw [if_neg hv, if_neg hv, snprintf_20, hbar]

lemma barChart_length {v : ℚ} (h0 : 0 ≤ v) : (barChart 13 12 v).length = 19 := by
  obtain ⟨hn0, hfit⟩ := barChart_cells_fit h0
  have hge := printf_4_1lf_length_ge v
  show (barChart 13 12 v).data.length = 19
  rw [barChart_data h0, List.length_take]
  simp only [List.length_append, List.length_replicate]
  have hpre : 6 ≤ (if v = 0 then List.replicate 7 ' ' else printf_4_1lf v ++ ['%', ' ']).length := by
    split
    · simp
    · simp only [List.length_append, List.length_cons, List.length_nil]
      omega
  omega

lemma roundHalfEven_error (x : ℚ) : |(roundHalfEven x : ℚ) - x| ≤ 1 / 2 := by
  have h1 : (⌊x⌋ : ℚ) ≤ x := Int.floor_le x
  have h2 : x < ⌊x⌋ + 1 := Int.lt_floor_add_one x
  unfold roundHalfEven
  rw [abs_le]
  split_ifs <;> push_cast <;> constructor <;> linarith

lemma ulp_pos (x : ℚ) : (0 : ℚ) < 2 ^ ulpExp x := zpow_pos (by norm_num) _

lemma fl_zero : fl 0 = 0 := by
  unfold fl
  rw [zero_div]
  have : roundHalfEven 0 = 0 := by
    have := roundHalfEven_intCast 0
    simpa using this
  rw [this]
  simp

lemma fl_nonneg {x : ℚ} (hx : 0 ≤ x) : 0 ≤ fl x := by
  unfold fl
  apply mul_nonneg _ (le_of_lt (ulp_pos x))
  have : 0 ≤ roundHalfEven (x / 2 ^ ulpExp x) :=
    roundHalfEven_nonneg (div_nonneg hx (le_of_lt (ulp_pos x)))
  exact_mod_cast this

lemma fl_abs_error (x : ℚ) : |fl x - x| ≤ 2 ^ ulpExp x / 2 := by
  have hu := ulp_pos x
  have h := roundHalfEven_error (x / 2 ^ ulpExp x)
  have e : fl x - x = ((roundHalfEven (x / 2 ^ ulpExp x) : ℚ) - x / 2 ^ ulpExp x) * 2 ^ ulpExp x := by
    unfold fl
    field_simp
  rw [e, abs_mul, abs_of_pos hu]
  calc |(roundHalfEven (x / 2 ^ ulpExp x) : ℚ) - x / 2 ^ ulpExp x| * 2 ^ ulpExp x
      ≤ 1 / 2 * 2 ^ ulpExp x := mul_le_mul_of_nonneg_right h (le_of_lt hu)
    _ = 2 ^ ulpExp x / 2 := by ring

lemma two_zpow_log_le {x : ℚ} (hx : x ≠ 0) : (2 : ℚ) ^ Int.log 2 |x| ≤ |x| := by
  have h := Int.zpow_log_le_self (b := 2) (r := |x|) (by norm_num) (abs_pos.mpr hx)
  simpa using h

/-- The rounding error of binary64: at most `2 ^ (-53)` of the value, or `2 ^ (-1075)` in the
subnormal range. -/
lemma fl_error (x : ℚ) : |fl x - x| ≤ |x| / 2 ^ 53 + 1 / 2 ^ 1075 := by
  by_cases hx : x = 0
  · rw [hx, fl_zero]
    norm_num
  refine le_trans (fl_abs_error x) ?_
  have hlog := two_zpow_log_le hx
  unfold ulpExp
  rcases le_total (Int.log 2 |x|) (-1022) with hle | hge
  · rw [max_eq_right hle]
    have : (2 : ℚ) ^ ((-1022 : Int) - 52) / 2 = 1 / 2 ^ 1075 := by
      have e : ((-1022 : Int) - 52) = -1074 := by norm_num
      rw [e, zpow_neg, zpow_ofNat]
      norm_num
    rw [this]
    have : 0 ≤ |x| / 2 ^ 53 := by positivity
    linarith
  · rw [max_eq_left hge, zpow_sub₀ (by norm_num : (2 : ℚ) ≠ 0)]
    have h52 : (2 : ℚ) ^ (52 : Int) = 2 ^ 52 := by
      rw [show (52 : Int) = ((52 : ℕ) : Int) by norm_num, zpow_natCast]
    rw [h52]
    have hpos : (0 : ℚ) < 1 / 2 ^ 1075 := by positivity
    have : (2 : ℚ) ^ Int.log 2 |x| / 2 ^ 52 / 2 ≤ |x| / 2 ^ 53 := by
      rw [show (2 : ℚ) ^ 53 = 2 ^ 52 * 2 by norm_num, div_div]
      exact div_le_div_of_nonneg_right hlog (by positivity)
    linarith

/-- Bounds of the binary64 rounding of a non-negative value, with round constants. -/
lemma fl_bounds {x : ℚ} (hx : 0 ≤ x) :
    x - x / 10 ^ 15 - 1 / 10 ^ 30 ≤ fl x ∧ fl x ≤ x + x / 10 ^ 15 + 1 / 10 ^ 30 := by
  have h := fl_error x
  rw [abs_of_nonneg hx, abs_le] at h
  have h1 : x / 2 ^ 53 ≤ x / 10 ^ 15 :=
    div_le_div_of_nonneg_left hx (by norm_num) (by norm_num)
  have h2 : (1 : ℚ) / 2 ^ 1075 ≤ 1 / 10 ^ 30 :=
    div_le_div_of_nonneg_left (by norm_num) (by norm_num) (by norm_num)
  constructor <;> linarith [h.1, h.2]

lemma log_eq_of {x : ℚ} {e : Int} (h1 : (2 : ℚ) ^ e ≤ |x|) (h2 : |x| < (2 : ℚ) ^ (e + 1)) :
    Int.log 2 |x| = e := by
  have hpos : 0 < |x| := lt_of_lt_of_le (zpow_pos (by norm_num) e) h1
  have a : e ≤ Int.log 2 |x| := by
    rw [← Int.zpow_le_iff_le_log (by norm_num) hpos]
    simpa using h1
  have b : Int.log 2 |x| < e + 1 := by
    rw [← Int.lt_zpow_iff_log_lt (by norm_num) hpos]
    simpa using h2
  omega

/-- A value with 53 significant bits in units of `2 ^ (-j)` is rounded to the nearest multiple
of `2 ^ (-j)`. -/
lemma fl_eq_of (j : Nat) (m : Int) {x : ℚ} (hj : j ≤ 1074) (hlo : 2 ^ 52 ≤ |x| * 2 ^ j)
    (hhi : |x| * 2 ^ j < 2 ^ 53) (h1 : (m : ℚ) - 1 / 2 < x * 2 ^ j)
    (h2 : x * 2 ^ j < m + 1 / 2) : fl x = m / 2 ^ j := by
  have hp : (0 : ℚ) < 2 ^ j := by positivity
  have hz : ∀ k : ℕ, (2 : ℚ) ^ ((k : Int) - (j : Int)) = 2 ^ k / 2 ^ j := by
    intro k
    rw [zpow_sub₀ (by norm_num : (2 : ℚ) ≠ 0), zpow_natCast, zpow_natCast]
  have hlog : Int.log 2 |x| = (52 : ℕ) - (j : Int) := by
    apply log_eq_of
    · rw [hz, div_le_iff₀ hp]
      exact hlo
    · rw [show ((52 : ℕ) : Int) - (j : Int) + 1 = ((53 : ℕ) : Int) - (j : Int) by push_cast; ring,
        hz, lt_div_iff₀ hp]
      exact hhi
  have hu : ulpExp x = -(j : Int) := by
    unfold ulpExp
    rw [hlog, max_eq_left (by push_cast; omega)]
    push_cast
    ring
  unfold fl
  rw [hu, zpow_neg, zpow_natCast, div_inv_eq_mul, roundHalfEven_eq_of h1 h2]
  field_simp

/-! ## Binary64 values in `barChart` -/

lemma fl_eq_of_pos (j : Nat) (m : Int) {x : ℚ} (hx : 0 < x) (hj : j ≤ 1074)
    (hlo : 2 ^ 52 ≤ x * 2 ^ j) (hhi : x * 2 ^ j < 2 ^ 53) (h1 : (m : ℚ) - 1 / 2 < x * 2 ^ j)
    (h2 : x * 2 ^ j < m + 1 / 2) : fl x = m / 2 ^ j := by
  apply fl_eq_of j m hj _ _ h1 h2
  · rw [abs_of_pos hx]
    exact hlo
  · rw [abs_of_pos hx]
    exact hhi

/-- The thresholds of `barChart` for `maxLen = 13` and `saturat = 12.0` as binary64 computes
them: one third of a cell, the overflow threshold and two thirds of a cell. -/
lemma thresholds64 :
    fl (fl (12 / 13) / 3) = 5542891849071380 / 2 ^ 54 ∧
      fl (12 + fl (fl (12 / 13) / 3)) = 6928614811339225 / 2 ^ 49 ∧
      fl (fl (fl (12 / 13) * 2) / 3) = 5542891849071380 / 2 ^ 53 := by
  have hS : fl (12 / 13) = 8314337773607070 / 2 ^ 53 := by
    have := fl_eq_of_pos 53 8314337773607070 (x := 12 / 13) (by norm_num) (by norm_num)
      (by norm_num) (by norm_num) (by norm_num) (by norm_num)
    rw [this, Int.cast_ofNat]
  have hT1 : fl (8314337773607070 / 2 ^ 53 / 3) = 5542891849071380 / 2 ^ 54 := by
    have := fl_eq_of_pos 54 5542891849071380 (x := 8314337773607070 / 2 ^ 53 / 3) (by norm_num)
      (by norm_num) (by norm_num) (by norm_num) (by norm_num) (by norm_num)
    rw [this, Int.cast_ofNat]
  have hT3 : fl (12 + 5542891849071380 / 2 ^ 54) = 6928614811339225 / 2 ^ 49 := by
    have := fl_eq_of_pos 49 6928614811339225 (x := 12 + 5542891849071380 / 2 ^ 54) (by norm_num)
      (by norm_num) (by norm_num) (by norm_num) (by norm_num) (by norm_num)
    rw [this, Int.cast_ofNat]
  have hS2 : fl (8314337773607070 / 2 ^ 53 * 2) = 8314337773607070 / 2 ^ 52 := by
    have := fl_eq_of_pos 52 8314337773607070 (x := 8314337773607070 / 2 ^ 53 * 2) (by norm_num)
      (by norm_num) (by norm_num) (by norm_num) (by norm_num) (by norm_num)
    rw [this, Int.cast_ofNat]
  have hT2 : fl (8314337773607070 / 2 ^ 52 / 3) = 5542891849071380 / 2 ^ 53 := by
    have := fl_eq_of_pos 53 5542891849071380 (x := 8314337773607070 / 2 ^ 52 / 3) (by norm_num)
      (by norm_num) (by norm_num) (by norm_num) (by norm_num) (by norm_num)
    rw [this, Int.cast_ofNat]
  rw [hS, hT1, hT3, hS2, hT2]
  exact ⟨rfl, rfl, rfl⟩

/-- `barChart_cells64` for `maxLen = 13` and `saturat = 12.0`, from the rounded intermediate
results. -/
lemma barChart_cells64_of {v t1 t2 u1 u2 r : ℚ} {n : Int} (h1 : fl (v / 12) = t1)
    (h2 : fl (t1 * 13) = t2) (hn : truncToInt t2 = n) (h3 : fl ((n : ℚ) / 13) = u1)
    (h4 : fl (u1 * 12) = u2) (h5 : fl (v - u2) = r) :
    barChart_cells64 13 12 v =
      if (6928614811339225 : ℚ) / 2 ^ 49 < v then (12, ['*'])
      else if r ≤ 5542891849071380 / 2 ^ 54 then (n, [])
      else if 5542891849071380 / 2 ^ 54 < r ∧ r < 5542891849071380 / 2 ^ 53 then (n, ['.'])
      else (n, [':']) := by
  obtain ⟨c1, c3, c2⟩ := thresholds64
  unfold barChart_cells64
  simp only [Int.cast_ofNat]
  rw [h1, h2, hn, h3, h4, h5, c3, c2, c1]
  rfl

/-- A value with at most 53 significant bits is not changed by the rounding. -/
lemma fl_exact (j : Nat) (m : Int) {x : ℚ} (hx : 0 < x) (hj : j ≤ 1074) (hm : x * 2 ^ j = m)
    (hlo : 2 ^ 52 ≤ x * 2 ^ j) (hhi : x * 2 ^ j < 2 ^ 53) : fl x = x := by
  rw [fl_eq_of_pos j m hx hj hlo hhi (by rw [hm]; linarith) (by rw [hm]; linarith), ← hm]
  field_simp

/-- The bar value of a letter with 8 of 65 alphabetic bytes: the binary64 number next to
`100 * 8 / 65 = 12.307...`, which is the overflow threshold that `barChart` computes. -/
lemma barValue64_8_65 : barValue64 8 65 = 6928614811339225 / 2 ^ 49 := by
  have e8 : fl 8 = 8 := fl_exact 49 4503599627370496 (by norm_num) (by norm_num) (by norm_num)
    (by norm_num) (by norm_num)
  have e800 : fl (100 * 8) = 800 := by
    have := fl_exact 43 7036874417766400 (x := 100 * 8) (by norm_num) (by norm_num)
      (by norm_num) (by norm_num) (by norm_num)
    rw [this]
    norm_num
  have e65 : fl 65 = 65 := fl_exact 46 4573968371548160 (by norm_num) (by norm_num)
    (by norm_num) (by norm_num) (by norm_num)
  have eV : fl (800 / 65) = 6928614811339225 / 2 ^ 49 := by
    have := fl_eq_of_pos 49 6928614811339225 (x := 800 / 65) (by norm_num) (by norm_num)
      (by norm_num) (by norm_num) (by norm_num) (by norm_num)
    rw [this, Int.cast_ofNat]
  unfold barValue64
  simp only [Nat.cast_ofNat]
  rw [e8, e800, e65, eV]

/-- At the value of 8 of 65 letters binary64 does not take the overflow branch and finds
13 filled cells and a remainder above one third of a cell. -/
lemma barChart_cells64_8_65 :
    barChart_cells64 13 12 (6928614811339225 / 2 ^ 49) = (13, ['.']) := by
  have h1 : fl ((6928614811339225 : ℚ) / 2 ^ 49 / 12) = 4619076540892817 / 2 ^ 52 := by
    have := fl_eq_of_pos 52 4619076540892817 (x := 6928614811339225 / 2 ^ 49 / 12)
      (by norm_num) (by norm_num) (by norm_num) (by norm_num) (by norm_num) (by norm_num)
    rw [this, Int.cast_ofNat]
  have h2 : fl ((4619076540892817 : ℚ) / 2 ^ 52 * 13) = 7505999378950828 / 2 ^ 49 := by
    have := fl_eq_of_pos 49 7505999378950828 (x := 4619076540892817 / 2 ^ 52 * 13)
      (by norm_num) (by norm_num) (by norm_num) (by norm_num) (by norm_num) (by norm_num)
    rw [this, Int.cast_ofNat]
  have hn : truncToInt ((7505999378950828 : ℚ) / 2 ^ 49) = 13 := by
    rw [truncToInt_of_nonneg (by norm_num), Int.floor_eq_iff]
    norm_num
  have h3 : fl (((13 : Int) : ℚ) / 13) = 4503599627370496 / 2 ^ 52 := by
    have := fl_eq_of_pos 52 4503599627370496 (x := ((13 : Int) : ℚ) / 13) (by norm_num)
      (by norm_num) (by norm_num) (by norm_num) (by norm_num) (by norm_num)
    rw [this, Int.cast_ofNat]
  have h4 : fl ((4503599627370496 : ℚ) / 2 ^ 52 * 12) = 6755399441055744 / 2 ^ 49 := by
    have := fl_eq_of_pos 49 6755399441055744 (x := 4503599627370496 / 2 ^ 52 * 12)
      (by norm_num) (by norm_num) (by norm_num) (by norm_num) (by norm_num) (by norm_num)
    rw [this, Int.cast_ofNat]
  have h5 : fl ((6928614811339225 : ℚ) / 2 ^ 49 - 6755399441055744 / 2 ^ 49) =
      5542891849071392 / 2 ^ 54 := by
    have := fl_eq_of_pos 54 5542891849071392
      (x := 6928614811339225 / 2 ^ 49 - 6755399441055744 / 2 ^ 49)
      (by norm_num) (by norm_num) (by norm_num) (by norm_num) (by norm_num) (by norm_num)
    rw [this, Int.cast_ofNat]
  rw [barChart_cells64_of h1 h2 hn h3 h4 h5]
  norm_num

/-- In binary64 `barChart` selects between 0 and 13 filled cells and a glyph of at most one
character. -/
lemma barChart_cells64_fit {v : ℚ} (h0 : 0 ≤ v) :
    0 ≤ (barChart_cells64 13 12 v).1 ∧ (barChart_cells64 13 12 v).1 ≤ 13 ∧
      (barChart_cells64 13 12 v).2.length ≤ 1 := by
  have b1 := fl_bounds (x := v / 12) (by positivity)
  have t1nn : 0 ≤ fl (v / 12) := fl_nonneg (by positivity)
  have b2 := fl_bounds (x := fl (v / 12) * 13) (by positivity)
  have t2nn : 0 ≤ fl (fl (v / 12) * 13) := fl_nonneg (by positivity)
  have hn : truncToInt (fl (fl (v / 12) * 13)) = ⌊fl (fl (v / 12) * 13)⌋ :=
    truncToInt_of_nonneg t2nn
  rw [barChart_cells64_of rfl rfl hn rfl rfl rfl]
  by_cases hov : (6928614811339225 : ℚ) / 2 ^ 49 < v
  · rw [if_pos hov]
    exact ⟨by norm_num, by norm_num, by simp⟩
  · rw [if_neg hov]
    have hv : v ≤ 6928614811339225 / 2 ^ 49 := not_lt.mp hov
    have hlo : 0 ≤ ⌊fl (fl (v / 12) * 13)⌋ := Int.floor_nonneg.mpr t2nn
    have hhi : ⌊fl (fl (v / 12) * 13)⌋ ≤ 13 := by
      have : ⌊fl (fl (v / 12) * 13)⌋ < 14 := by
        rw [Int.floor_lt]
        push_cast
        norm_num at hv
        linarith [b1.2, b2.2]
      omega
    split_ifs
    · exact ⟨hlo, hhi, by simp⟩
    · exact ⟨hlo, hhi, by simp⟩
    · exact ⟨hlo, hhi, by simp⟩

/-- The bar of `0 ≤ n ≤ 13` filled cells and any glyph has at least 13 characters: when the
cells and the glyph exceed 13 characters the precision of the padding is negative and all of
`barChart_xSpc` is written. -/
lemma barChart_bar_length {n : Int} {g : List Char} (hn0 : 0 ≤ n) (hn : n ≤ 13) :
    13 ≤ (barChart_bar 13 (n, g)).length := by
  unfold barChart_bar printf_prec_s
  simp only
  rw [if_neg (by omega), take_x _ (by omega)]
  by_cases hp : (13 : Int) - n - (g.length : Int) < 0
  · rw [if_pos hp]
    simp [barChart_xSpc]
    omega
  · rw [if_neg hp, take_blank _ (by omega)]
    simp only [List.length_append, List.length_replicate]
    omega

/-- In binary64 the string that `barChart` stores has 19 characters. -/
lemma barChart64_length {v : ℚ} (h0 : 0 ≤ v) : (barChart64 13 12 v).length = 19 := by
  obtain ⟨hn0, hn13, -⟩ := barChart_cells64_fit h0
  have hbar := barChart_bar_length (g := (barChart_cells64 13 12 v).2) hn0 hn13
  rw [Prod.mk.eta] at hbar
  have hge := printf_4_1lf_length_ge v
  show (barChart64 13 12 v).data.length = 19
  unfold barChart64
  by_cases hv : v = 0
  · rw [if_pos hv, snprintf_20, List.length_take, List.length_append]
    have : "       ".data.length = 7 := rfl
    omega
  · rw [if_neg hv, snprintf_20, List.length_take]
    simp only [List.length_append, List.length_cons, List.length_nil]
    omega

/-- Where binary64 selects the cells and the glyph of exact arithmetic the two strings are
the same. -/
lemma barChart64_eq_of_cells {v : ℚ} (h : barChart_cells64 13 12 v = barChart_cells 13 12 v) :
    barChart64 13 12 v = barChart 13 12 v := by
  unfold barChart64 barChart
  rw [h]

/-- Above the overflow threshold that binary64 computes the cells are twelve and the glyph
is the marker, as in exact arithmetic. -/
lemma barChart_cells64_overflow {v : ℚ} (h : 6928614811339225 / 2 ^ 49 < v) :
    barChart_cells64 13 12 v = (12, ['*']) ∧ barChart64 13 12 v = barChart 13 12 v := by
  have hc : barChart_cells64 13 12 v = (12, ['*']) := by
    rw [barChart_cells64_of rfl rfl rfl rfl rfl rfl, if_pos h]
  refine ⟨hc, barChart64_eq_of_cells ?_⟩
  rw [hc, barChart_cells_overflow (lt_trans (by norm_num) h)]

lemma printf_8_65 : printf_4_1lf (6928614811339225 / 2 ^ 49) = ['1', '2', '.', '3'] := by
  rw [printf_4_1lf_eval 123 (by norm_num) (by norm_num) (by norm_num)]
  have : decimal (123 / 10) = ['1', '2'] := by
    norm_num [decimal]; decide
  rw [this]; decide

/-- C27 (as stated, refuted): a letter with 8 of 65 alphabetic bytes has the bar value
`6928614811339225 / 2 ^ 49`, the binary64 number next to 12.3077. It is the value that
binary64 computes for the overflow threshold, so the overflow branch is not taken:
`numOfSmallx` is 13 and the glyph is `.`, 14 characters, and the padding width
`maxLen - numOfSmallx - strlen(lastStr)` is -1. The 19 characters that `snprintf` stores end
with the thirteenth `x`. -/
theorem C27_thirteen_cells_and_glyph :
    (0 : ℚ) ≤ barValue64 8 65 ∧ barValue64 8 65 ≤ 100 ∧
      barChart_cells64 13 12 (barValue64 8 65) = (13, ['.']) ∧
      ¬ (barChart_cells64 13 12 (barValue64 8 65)).1 +
          ((barChart_cells64 13 12 (barValue64 8 65)).2.length : Int) ≤ 13 ∧
      BARCHART_BARLEN - (barChart_cells64 13 12 (barValue64 8 65)).1 -
          ((barChart_cells64 13 12 (barValue64 8 65)).2.length : Int) = -1 ∧
      barChart64 13 12 (barValue64 8 65) = "12.3% xxxxxxxxxxxxx" := by
  rw [barValue64_8_65, barChart_cells64_8_65]
  refine ⟨by norm_num, by norm_num, rfl, by decide, by decide, ?_⟩
  apply string_eq_of_data
  unfold barChart64
  rw [if_neg (by norm_num), barChart_cells64_8_65, printf_8_65]
  decide

/-- C27 (width of the bar, amended). In binary64, for every value `0 <= value`, in particular
up to 100, `barChart` selects between 0 and 13 filled cells and a glyph of at most one
character, so the filled cells and the glyph take at most 14 characters and the padding width
`maxLen - numOfSmallx - strlen(lastStr)` is at least -1; the string that `snprintf` stores
within its limit of `maxLen + 7` bytes has exactly 19 characters. -/
theorem C27_bar_has_19_characters_binary64 (v : ℚ) (h0 : 0 ≤ v) :
    0 ≤ (barChart_cells64 13 12 v).1 ∧ (barChart_cells64 13 12 v).1 ≤ 13 ∧
      (barChart_cells64 13 12 v).2.length ≤ 1 ∧
      (barChart_cells64 13 12 v).1 + ((barChart_cells64 13 12 v).2.length : Int) ≤ 14 ∧
      -1 ≤ BARCHART_BARLEN - (barChart_cells64 13 12 v).1 -
        ((barChart_cells64 13 12 v).2.length : Int) ∧
      (barChart64 13 12 v).length = 19 := by
  obtain ⟨hn0, hn13, hg⟩ := barChart_cells64_fit h0
  refine ⟨hn0, hn13, hg, ?_, ?_, barChart64_length h0⟩
  · omega
  · unfold BARCHART_BARLEN
    omega

/-- C27 at the value 100: a string of 19 characters. -/
theorem C27_bar_has_19_characters_binary64_witness :
    (0 : ℚ) ≤ 100 ∧ (barChart64 13 12 100).length = 19 := by
  have h0 : (0 : ℚ) ≤ 100 := by norm_num
  exact ⟨h0, (C27_bar_has_19_characters_binary64 100 h0).2.2.2.2.2⟩

/-! ## The configured typing methods -/

set_option maxRecDepth 100000 in
/-- Every regular-position letter of Method[a] is a regular-position letter of Method[c]. -/
lemma letters_a_subset_c :
    ∀ x ∈ (typingMethod 0).regularPosition.letter, x ∈ (typingMethod 2).regularPosition.letter := by
  decide

lemma letters_b_eq_c :
    (typingMethod 1).regularPosition.letter = (typingMethod 2).regularPosition.letter := rfl

lemma typingMethod_speeds :
    (typingMethod 0).regularPosition.typeSpeed = 24 / 95 ∧
      (typingMethod 0).unregularPosition.typeSpeed = 80 / 153 ∧
      (typingMethod 1).regularPosition.typeSpeed = 24 / 95 ∧
      (typingMethod 1).unregularPosition.typeSpeed = 2 ∧
      (typingMethod 2).regularPosition.typeSpeed = 24 / 95 ∧
      (typingMethod 2).unregularPosition.typeSpeed = 48 / 95 := by
  simp only [typingMethod, Matrix.cons_val_zero, Matrix.cons_val_one, Matrix.head_cons,
    Matrix.cons_val_two, Matrix.tail_cons, TYPINGSPEED_REGULARPOS, TYPINGSPEED_UNREGULARPOS,
    TYPINGSPEED_MOUSE]
  norm_num

/-- Letter by letter, Method[c] is not slower than Method[a] and Method[b]. -/
lemma getLetterSpeed_c_le (L : CType) (c : Int) :
    getLetterSpeed L c 2 ≤ getLetterSpeed L c 0 ∧ getLetterSpeed L c 2 ≤ getLetterSpeed L c 1 := by
  obtain ⟨a1, a2, b1, b2, c1, c2⟩ := typingMethod_speeds
  have hsub : regularMember L 0 c → regularMember L 2 c := by
    rintro ⟨x, hx, h⟩
    exact ⟨x, letters_a_subset_c x hx, h⟩
  have hbc : regularMember L 1 c ↔ regularMember L 2 c := by
    unfold regularMember
    rw [letters_b_eq_c]
  rw [getLetterSpeed_eq, getLetterSpeed_eq, getLetterSpeed_eq, a1, a2, b1, b2, c1, c2]
  by_cases h2 : regularMember L 2 c
  · rw [if_pos h2, if_pos (hbc.mpr h2)]
    refine ⟨?_, le_refl _⟩
    split <;> norm_num
  · rw [if_neg h2, if_neg (fun h => h2 (hbc.mp h)), if_neg (fun h => h2 (hsub h))]
    constructor <;> norm_num

lemma step20_seconds_c_le (L : CType) (lf : letterFrequency) :
    seconds (step20_calcTypingSpeed L lf) 2 ≤ seconds (step20_calcTypingSpeed L lf) 0 ∧
      seconds (step20_calcTypingSpeed L lf) 2 ≤ seconds (step20_calcTypingSpeed L lf) 1 := by
  unfold seconds
  rw [step20_seconds, step20_seconds, step20_seconds]
  constructor
  · apply Finset.sum_le_sum
    intro b _
    exact mul_le_mul_of_nonneg_right (getLetterSpeed_c_le L _).1 (Nat.cast_nonneg _)
  · apply Finset.sum_le_sum
    intro b _
    exact mul_le_mul_of_nonneg_right (getLetterSpeed_c_le L _).2 (Nat.cast_nonneg _)

/-- When the third method is not slower than the other two, the rank of the second method is
the index of the method ranked second. -/
lemma sortIdx_one_eq_slowerIdx_one (lf : letterFrequency) (h20 : seconds lf 2 ≤ seconds lf 0)
    (h21 : seconds lf 2 ≤ seconds lf 1) :
    (step21_indexSort lf.typingMethod 1).sortIdx = ((rankedMethod lf 1).val : Int) := by
  have hs := congrFun (step21_indexSort_sortIdx lf.typingMethod) 1
  have hr := rankedMethod_cases lf
  unfold seconds at h20 h21 hr
  have n02 : ¬ (lf.typingMethod 0).typingSecondForBook < (lf.typingMethod 2).typingSecondForBook :=
    not_lt.mpr h20
  have n12 : ¬ (lf.typingMethod 1).typingSecondForBook < (lf.typingMethod 2).typingSecondForBook :=
    not_lt.mpr h21
  simp only [n02, n12, if_false] at hs hr
  by_cases h01 : (lf.typingMethod 0).typingSecondForBook < (lf.typingMethod 1).typingSecondForBook
  · simp only [h01, if_true] at hs hr
    obtain ⟨-, e1, -⟩ := vec3_eq hr
    rw [e1]
    exact hs
  · simp only [h01, if_false] at hs hr
    obtain ⟨-, e1, -⟩ := vec3_eq hr
    rw [e1]
    exact hs

/-- C26 (configured methods). For every `<ctype.h>` and every table of counts, the cost that
`step20_calcTypingSpeed` computes for Method[c] is at most the cost of Method[a] and at most
the cost of Method[b]. Hence the `slowerIdx` that `step21_calcBusinessHours` computes from
these costs orders the methods from slowest to fastest, and `typingMethod[1].sortIdx`, the
index of the last line, is `slowerIdx[1]`. -/
theorem C26_shortcut_method_never_slower (L : CType) (lf : letterFrequency) :
    seconds (step20_calcTypingSpeed L lf) 2 ≤ seconds (step20_calcTypingSpeed L lf) 0 ∧
      seconds (step20_calcTypingSpeed L lf) 2 ≤ seconds (step20_calcTypingSpeed L lf) 1 ∧
      seconds (step20_calcTypingSpeed L lf) (rankedMethod (step20_calcTypingSpeed L lf) 1) ≤
        seconds (step20_calcTypingSpeed L lf) (rankedMethod (step20_calcTypingSpeed L lf) 0) ∧
      seconds (step20_calcTypingSpeed L lf) (rankedMethod (step20_calcTypingSpeed L lf) 2) ≤
        seconds (step20_calcTypingSpeed L lf) (rankedMethod (step20_calcTypingSpeed L lf) 1) ∧
      (step21_indexSort (step20_calcTypingSpeed L lf).typingMethod 1).sortIdx =
        ((rankedMethod (step20_calcTypingSpeed L lf) 1).val : Int) := by
  obtain ⟨h20, h21⟩ := step20_seconds_c_le L lf
  have hd := (rankedMethod_descending_iff (step20_calcTypingSpeed L lf)).mpr
    (fun hh => absurd h20 (not_le.mpr hh.2))
  exact ⟨h20, h21, hd.1, hd.2, sortIdx_one_eq_slowerIdx_one _ h20 h21⟩

/-! ## Ranking and last line for the tables of `step20_calcTypingSpeed` -/

end Hlfc
